import Mathlib

/-!
bitpeek: the `Snap` formatter

A shallow embedding of `Snap` from `bitpeek.go`, followed by theorems about it.

Conventions of the embedding.
* A `byte` / `uint8` is a `Nat` below `256`, a `uint64` is a `Nat` below `2 ^ 64`; a
  wrapping operation carries its `% 256` or `% 2 ^ 64` explicitly.
* The template `pic` (a Go string) is the list of its bytes; the buffer `ot` is a list
  of bytes of fixed length.
* Go's run-time panic "index out of range" is the result `Res.fault Fault.indexOutOfRange`.
* Every loop is driven by a structurally decreasing counter; a counter that runs out
  before the loop condition turns false yields `Res.fault Fault.outOfFuel`.
-/

namespace Bitpeek

/-- Ways in which a run of the embedding fails to produce a value. -/
inductive Fault where
  | indexOutOfRange
  | outOfFuel
  deriving DecidableEq, Repr

/-- Result of a run: a value, or a fault. -/
inductive Res (α : Type) where
  | ok (a : α)
  | fault (f : Fault)
  deriving DecidableEq, Repr

/-- Sequencing of runs: a fault stops the computation. -/
def Res.bind {α β : Type} (x : Res α) (f : α → Res β) : Res β :=
  match x with
  | .ok a => f a
  | .fault e => .fault e

instance : Monad Res where
  pure := Res.ok
  bind := Res.bind

/-- Bytes of an ASCII string literal. -/
def ofString (s : String) : List Nat := s.toList.map Char.toNat

/-- Local variables of `Snap` that live across loop iterations, with the buffer.
`frm` is the parameter `from` (a reserved word here). -/
structure St where
  pi : Nat
  oi : Nat
  asis : Nat
  c : Nat
  frm : Nat
  ot : List Nat
  deriving DecidableEq, Repr

/-- The template read `pic[i]` for an index `i ≥ 0`. -/
def rd (pic : List Nat) (i : Nat) : Res Nat :=
  match pic[i]? with
  | some w => .ok w
  | none => .fault .indexOutOfRange

/-- The guarded test `g && pic[i] == ch`: the read happens only when the guard `g` holds. -/
def peekIs (pic : List Nat) (g : Bool) (i ch : Nat) : Res Bool :=
  if g then (rd pic i).bind (fun x => .ok (x == ch)) else .ok false

/-- The statement pair `oi--; ot[oi] = w`. -/
def put (s : St) (w : Nat) : Res St :=
  if s.oi = 0 then .fault .indexOutOfRange
  else if s.oi - 1 < s.ot.length then
    .ok { s with oi := s.oi - 1, ot := s.ot.set (s.oi - 1) w }
  else .fault .indexOutOfRange

/-- The tail of the loop body: `if c != 0 { oi--; ot[oi] = c; c = 0 }`. -/
def flush (s : St) : Res St :=
  if s.c ≠ 0 then (put s s.c).bind (fun t => .ok { t with c := 0 }) else .ok s

/-- The hex digit computed at label `shorth`: `c = byte(from) & 15`, then `+0x30` or `+0x37`. -/
def hexc (frm : Nat) : Nat :=
  if (frm % 256) &&& 15 < 10 then ((frm % 256) &&& 15) + 0x30 else ((frm % 256) &&& 15) + 0x37

/-- The `shorth:` loop of case `'H'`: compute a digit, shift, and while the template
byte to the left is another `H`, step onto it, emit the digit and go round again.
The last digit is left in `c`. -/
def shorth (pic : List Nat) : Nat → St → Res St
  | 0, s =>
    let s1 := { s with c := hexc s.frm, frm := s.frm >>> 4 }
    (peekIs pic (decide (s1.pi > 0)) (s1.pi - 1) 72).bind fun more =>
      if more then .fault .outOfFuel else .ok s1
  | fuel + 1, s =>
    let s1 := { s with c := hexc s.frm, frm := s.frm >>> 4 }
    (peekIs pic (decide (s1.pi > 0)) (s1.pi - 1) 72).bind fun more =>
      if more then (put { s1 with pi := s1.pi - 1 } s1.c).bind (shorth pic fuel) else .ok s1

/-- The digit byte `byte(48 + v - k*10)` with `k = v / 10`, in `uint64` arithmetic. -/
def digit64 (v : Nat) : Nat :=
  ((48 + v) % 2 ^ 64 + 2 ^ 64 - ((v / 10) * 10) % 2 ^ 64) % 2 ^ 64 % 256

/-- The decimal loop of case `D`, on a `uint64` value:
`for v > 9 { k := v / 10; oi--; ot[oi] = byte(48 + v - k*10); v = k }; oi--; ot[oi] = byte(48 + v)`. -/
def decimal64 : Nat → Nat → St → Res St
  | 0, v, s => if v > 9 then .fault .outOfFuel else put s ((48 + v) % 2 ^ 64 % 256)
  | fuel + 1, v, s =>
    if v > 9 then (put s (digit64 v)).bind (decimal64 fuel (v / 10))
    else put s ((48 + v) % 2 ^ 64 % 256)

/-- The digit byte `byte(48 + v - k*10)` with `k = v / 10`, in `uint8` arithmetic. -/
def digit8 (v : Nat) : Nat :=
  ((48 + v) % 256 + 256 - ((v / 10) * 10) % 256) % 256

/-- The decimal loop of case `I`, on a `uint8` value (same statements as `decimal64`). -/
def decimal8 : Nat → Nat → St → Res St
  | 0, v, s => if v > 9 then .fault .outOfFuel else put s ((48 + v) % 256)
  | fuel + 1, v, s =>
    if v > 9 then (put s (digit8 v)).bind (decimal8 fuel (v / 10))
    else put s ((48 + v) % 256)

/-- The loop `for i := 0; i < 4; i++` of case `I`; the counter is `4 - i`, so that
`i < 3` reads `n > 0` after the counter has dropped to `n`. -/
def ipv4 : Nat → St → Res St
  | 0, s => .ok s
  | n + 1, s =>
    (decimal8 3 (s.frm % 256) { s with frm := s.frm >>> 8 }).bind fun s1 =>
      (if n > 0 then put s1 46 else .ok s1).bind (ipv4 n)

/-- The error text `PICERR!`. -/
def e : List Nat := [80, 73, 67, 69, 82, 82, 33]

/-- The loop `for i := 6; oi > 0 && i >= 0; i-- { oi--; ot[oi] = e[i] }`; the counter
is `i + 1`. -/
def picerr : Nat → St → Res St
  | 0, s => .ok s
  | i + 1, s =>
    if s.oi > 0 then (rd e i).bind fun x => (put s x).bind (picerr i) else .ok s

/-- The bit count `k := (10 * uint8(pic[pi-2]-48)) + uint8(pic[pi-1]-48)` from its two bytes. -/
def bitcount (a b : Nat) : Nat :=
  ((10 * ((a + 256 - 48) % 256)) % 256 + (b + 256 - 48) % 256) % 256

/-- The value `from &^ (0xFFFFffffFFFFffff << k)` in `uint64` arithmetic. -/
def field (frm k : Nat) : Nat :=
  frm &&& ((((2 ^ 64 - 1) <<< k) % 2 ^ 64) ^^^ (2 ^ 64 - 1))

/-- Case `'@'` of the command switch. The flag of the result is `false` for
`break ploop` and `true` when control reaches the end of the switch. -/
def atCmd (pic : List Nat) (s : St) : Res (Bool × St) :=
  if s.pi < 2 then .fault .indexOutOfRange
  else
    (rd pic (s.pi - 2)).bind fun a =>
    (rd pic (s.pi - 1)).bind fun b =>
    let k := bitcount a b
    let d := if k > 16 then k / 3 else 4
    if k = 0 ∨ k > 64 then (picerr 7 s).bind fun s1 => .ok (false, s1)
    else
      (peekIs pic (decide (s.pi > 2)) (s.pi - 3) 33).bind fun skip =>
      if skip then .ok (true, { s with pi := s.pi - 3, frm := s.frm >>> k })
      else
        (peekIs pic (decide (s.pi > d - 1)) (s.pi - d) 68).bind fun dec =>
        if dec then
          (decimal64 20 (field s.frm k) { s with pi := s.pi - d, frm := s.frm >>> k }).bind
            fun s1 => .ok (true, s1)
        else
          (peekIs pic (decide (s.pi > 13)) (s.pi - 14) 73).bind fun ip =>
          if ip then (ipv4 4 { s with pi := s.pi - 14 }).bind fun s1 => .ok (true, s1)
          else (picerr 7 s).bind fun s1 => .ok (false, s1)

/-- End of the loop body after a command that does not `continue`: the pending byte
`c` is written out. The flag `true` says the loop goes on. -/
def finish (s : St) : Res (Bool × St) :=
  (flush s).bind fun s1 => .ok (true, s1)

/-- The command switch `switch w` with the tail of the loop body. -/
def command (pic : List Nat) (s : St) (w : Nat) : Res (Bool × St) :=
  if w = 39 then .ok (true, { s with asis := 1 })
  else if w = 63 then
    finish { s with c := 48 + ((s.frm % 256) &&& 1), asis := 3, frm := s.frm >>> 1 }
  else if w = 66 then finish { s with c := 48 + ((s.frm % 256) &&& 1), frm := s.frm >>> 1 }
  else if w = 72 then (shorth pic s.pi s).bind finish
  else if w = 67 then
    finish { s with c := if s.frm % 256 < 32 then 126 else s.frm % 256, frm := s.frm >>> 8 }
  else if w = 65 then
    finish { s with c := if (s.frm % 256) &&& 0x7f < 32 then 126 else (s.frm % 256) &&& 0x7f,
                    frm := s.frm >>> 7 }
  else if w = 61 then finish { s with asis := 2 + ((s.frm % 256) &&& 1), frm := s.frm >>> 1 }
  else if w = 62 then finish { s with asis := 4 - ((s.frm % 256) &&& 1), frm := s.frm >>> 1 }
  else if w = 60 then finish { s with asis := 3 + ((s.frm % 256) &&& 1), frm := s.frm >>> 1 }
  else if w = 70 then finish { s with c := 48 + ((s.frm % 256) &&& 7), frm := s.frm >>> 3 }
  else if w = 71 then
    finish { s with c := if (s.frm % 256) &&& 0x1f < 26 then ((s.frm % 256) &&& 0x1f) + 97
                         else ((s.frm % 256) &&& 0x1f) + 24,
                    frm := s.frm >>> 5 }
  else if w = 69 then finish { s with c := 48 + ((s.frm % 256) &&& 3), frm := s.frm >>> 2 }
  else if w = 64 then
    (atCmd pic s).bind fun r => if r.1 then finish r.2 else .ok (false, r.2)
  else finish { s with c := w }

/-- The shared body of `case asis == 2` (after the fold) and `case asis == 3`:
a byte with `w|3 == 63` ends the label and is handed to the command switch, any other
byte is emitted. -/
def emitLabel (pic : List Nat) (s : St) (w : Nat) : Res (Bool × St) :=
  if w ||| 3 = 63 then command pic { s with asis := 0 } w
  else (put s w).bind fun s1 => .ok (true, s1)

/-- One iteration of `ploop`, entered with `pi > 0`: `pi--`, `w := pic[pi]`, the
labels-and-escapes switch, then the command switch. -/
def body (pic : List Nat) (s0 : St) : Res (Bool × St) :=
  let s := { s0 with pi := s0.pi - 1 }
  (rd pic s.pi).bind fun w =>
  (peekIs pic (decide (s.pi > 0)) (s.pi - 1) 92).bind fun esc =>
  if esc then
    (put s (if w = 110 then 10 else if w = 116 then 9 else w)).bind fun s1 =>
      .ok (true, { s1 with pi := s1.pi - 1 })
  else if s.asis = 0 then command pic s w
  else if w = 39 then .ok (true, { s with asis := 0 })
  else if s.asis = 1 then (put s w).bind fun s1 => .ok (true, s1)
  else if s.asis = 2 then emitLabel pic s (if w > 63 ∧ w < 91 then w ||| 0x20 else w)
  else if s.asis = 3 then emitLabel pic s w
  else if s.asis = 4 then
    if w ||| 3 = 63 then command pic { s with asis := 0 } w else .ok (true, s)
  else command pic s w

/-- The loop `ploop: for pi > 0 { ... }`. -/
def ploop (pic : List Nat) : Nat → St → Res St
  | 0, s => if s.pi > 0 then .fault .outOfFuel else .ok s
  | fuel + 1, s =>
    if s.pi > 0 then
      (body pic s).bind fun r => if r.1 then ploop pic fuel r.2 else .ok r.2
    else .ok s

/-- The state at entry: `pi := len(pic)`, `oi := pi`, `ot := make([]byte, oi)`. -/
def init (pic : List Nat) (frm : Nat) : St :=
  { pi := pic.length, oi := pic.length, asis := 0, c := 0, frm := frm,
    ot := List.replicate pic.length 0 }

/-- The two `return` statements: `ot[oi:]` when `oi > 0`, else `ot`. -/
def result (s : St) : Res (List Nat) :=
  if s.oi > 0 then
    if s.oi ≤ s.ot.length then .ok (s.ot.drop s.oi) else .fault .indexOutOfRange
  else .ok s.ot

/-- The function `Snap(pic string, from uint64) []byte`. -/
def Snap (pic : List Nat) (frm : Nat) : Res (List Nat) :=
  (ploop pic pic.length (init pic frm)).bind result

/-- Partial correctness: a run that yields a value yields one satisfying `P`. -/
def Res.sat {α : Type} (P : α → Prop) : Res α → Prop
  | .ok a => P a
  | .fault _ => True

/-- The run `x`, if it yields a state, yields one whose buffer has length `n`. -/
def Keeps (n : Nat) (x : Res St) : Prop := x.sat (fun t => t.ot.length = n)

/-- The same for a run that yields a flag and a state. -/
def Keeps2 (n : Nat) (x : Res (Bool × St)) : Prop := x.sat (fun r => r.2.ot.length = n)

/-- Total correctness: the run yields a value, and the value satisfies `P`. -/
def Res.tot {α : Type} (P : α → Prop) : Res α → Prop
  | .ok a => P a
  | .fault _ => False

/-- The state `s` has room for `n` more bytes than template bytes are left to scan:
`pi + n ≤ oi`, the cursor `oi` is inside the buffer, the buffer is as long as the
template, and `from` is a `uint64`. -/
def Fits (pic : List Nat) (n : Nat) (s : St) : Prop :=
  s.pi + n ≤ s.oi ∧ s.oi ≤ pic.length ∧ s.ot.length = pic.length ∧ s.frm < 2 ^ 64

/-- What a loop body leaves behind: when the loop goes on, a state that fits, with `c`
cleared and `pi` not above the bound `p`; when the loop is left by `break`, a state
whose cursor `oi` is inside the buffer. -/
def Post (pic : List Nat) (p : Nat) (r : Bool × St) : Prop :=
  (r.1 = true → Fits pic 0 r.2 ∧ r.2.c = 0 ∧ r.2.pi ≤ p) ∧
  (r.1 = false → r.2.oi ≤ r.2.ot.length)

/-- The states at the head of `ploop` in the run of `Snap pic v`: the entry state, and
every state left by an iteration that did not `break`. -/
inductive Reach (pic : List Nat) (v : Nat) : St → Prop
  | start : Reach pic v (init pic v)
  | next {s r : St} : Reach pic v s → 0 < s.pi → body pic s = .ok (true, r) → Reach pic v r

/-- The decimal numeral of `n` as ASCII bytes, most significant digit first, without
leading zeros; `0` is written `0`. -/
def decimalNumeral (n : Nat) : List Nat :=
  if n = 0 then [48] else (Nat.digits 10 n).reverse.map (fun d => 48 + d)

/-- A state whose buffer holds `oi` untouched zero bytes followed by the bytes `out`
written so far. -/
def mk (pi oi asis c frm : Nat) (out : List Nat) : St :=
  ⟨pi, oi, asis, c, frm, List.replicate oi 0 ++ out⟩

/-- The bytes the command switch has a case for. -/
def isCommand (w : Nat) : Bool :=
  w = 39 || w = 63 || w = 66 || w = 72 || w = 67 || w = 65 || w = 61 || w = 62 || w = 60 ||
    w = 70 || w = 71 || w = 69 || w = 64

/-- The template byte left of index `p`, if there is one, is not `ch`. -/
def NoPrev (pic : List Nat) (p ch : Nat) : Prop :=
  p = 0 ∨ (p - 1 < pic.length ∧ pic[p - 1]? ≠ some ch)

/-- The dotted quad written by the loop of case `I` for the low 32 bits of `f`. -/
def dottedQuad (f : Nat) : List Nat :=
  decimalNumeral (f >>> 24 % 256) ++ 46 :: (decimalNumeral (f >>> 16 % 256) ++
    46 :: (decimalNumeral (f >>> 8 % 256) ++ 46 :: decimalNumeral (f % 256)))

/-- The bytes emitted for `n` consecutive fields of `wd` bits, each rendered by `g` from
the running value: the field of the lowest bits comes last. -/
def fieldRun (wd : Nat) (g : Nat → Nat) : Nat → Nat → List Nat
  | 0, _ => []
  | n + 1, f => fieldRun wd g n (f >>> wd) ++ [g f]

/-- The uppercase hexadecimal digit of `d < 16`, read off the digit string. -/
def hexDigit (d : Nat) : Nat := (ofString "0123456789ABCDEF").getD d 0

instance (pic : List Nat) (p ch : Nat) : Decidable (NoPrev pic p ch) :=
  inferInstanceAs (Decidable (p = 0 ∨ (p - 1 < pic.length ∧ pic[p - 1]? ≠ some ch)))

/-- The offset `d` of the letter `D` left of `@` for a bit count `k`: `4` when `k ≤ 16`,
else `k / 3`. -/
def dOffset (k : Nat) : Nat := if k > 16 then k / 3 else 4

/-- The template `D…dd@` for the bit count `k`: `D`, then `d - 3` dots, then the two
decimal digits of `k`, then `@` (`D.16@`, `D..17@`). -/
def decimalPic (k : Nat) : List Nat :=
  68 :: (List.replicate (dOffset k - 3) 46 ++ [48 + k / 10, 48 + k % 10, 64])

/-- The bytes of the template of `ExampleSnap_bitpeekVsFmtPrintf`,
`Type:'F 'Ext:? Ack:? Id:0xFHH from IPv4:Address32@:D.16@`. -/
def packetPic : List Nat :=
  [84, 121, 112, 101, 58, 39, 70, 32, 39, 69, 120, 116, 58, 63, 32, 65, 99, 107, 58, 63, 32,
   73, 100, 58, 48, 120, 70, 72, 72, 32, 102, 114, 111, 109, 32, 73, 80, 118, 52, 58, 65,
   100, 100, 114, 101, 115, 115, 51, 50, 64, 58, 68, 46, 49, 54, 64]

/-- The rendering of `%03X` for a value below `16 ^ 3`: three uppercase hex digits. -/
def hex3 (x : Nat) : List Nat :=
  [hexDigit (x / 256 % 16), hexDigit (x / 16 % 16), hexDigit (x % 16)]

/-- The text printed by
`Printf("Type:%d Ext:%1d Ack:%1d Id:0x%03X from %d.%d.%d.%d:%d", v>>61, v>>60&1, v>>59&1,
v>>48&0x7FF, v>>40&255, v>>32&255, v>>24&255, v>>16&255, v&0xffff)`. -/
def printfRender (v : Nat) : List Nat :=
  ofString "Type:" ++ decimalNumeral (v >>> 61) ++
  ofString " Ext:" ++ decimalNumeral ((v >>> 60) &&& 1) ++
  ofString " Ack:" ++ decimalNumeral ((v >>> 59) &&& 1) ++
  ofString " Id:0x" ++ hex3 ((v >>> 48) &&& 0x7FF) ++
  ofString " from " ++ decimalNumeral ((v >>> 40) &&& 255) ++
  ofString "." ++ decimalNumeral ((v >>> 32) &&& 255) ++
  ofString "." ++ decimalNumeral ((v >>> 24) &&& 255) ++
  ofString "." ++ decimalNumeral ((v >>> 16) &&& 255) ++
  ofString ":" ++ decimalNumeral (v &&& 0xffff)

/-- The escape mapping of the first switch: `n` to newline, `t` to tab, any other byte
to itself. -/
def unesc (w : Nat) : Nat := if w = 110 then 10 else if w = 116 then 9 else w

/-- A byte of label text that is none of backslash, `'`, `=`, `<`, `>`, `?`. -/
def PlainByte (w : Nat) : Prop := w ≠ 92 ∧ w ≠ 39 ∧ w ≠ 61 ∧ w ≠ 60 ∧ w ≠ 62 ∧ w ≠ 63

/-- The byte written for the label byte `w` in label mode `a`: in mode 2 (lowercase) the
bytes 64..90 get bit 5 set, every other byte and every other mode leave `w` as it is. -/
def labelByte (a w : Nat) : Nat := if a = 2 ∧ 63 < w ∧ w < 91 then w ||| 0x20 else w

/-- The text written for the label `L` in label mode `a`: nothing in mode 4 (skip). -/
def labelText (a : Nat) (L : List Nat) : List Nat :=
  if a = 4 then [] else L.map (labelByte a)

/-- The label mode `asis` set by the label command `X` (`?`, `=`, `>`, `<`) from the
running value `f`. -/
def labelMode (X f : Nat) : Nat :=
  if X = 63 then 3 else if X = 61 then 2 + f % 2 else if X = 62 then 4 - f % 2 else 3 + f % 2

/-- The byte the label command `X` itself writes: the bit digit for `?`, nothing else. -/
def labelTail (X f : Nat) : List Nat := if X = 63 then [48 + f % 2] else []

instance (w : Nat) : Decidable (PlainByte w) :=
  inferInstanceAs (Decidable (w ≠ 92 ∧ w ≠ 39 ∧ w ≠ 61 ∧ w ≠ 60 ∧ w ≠ 62 ∧ w ≠ 63))

/-- No marker of a multi-byte command stands at its offset left of the `@` at index `p` of
`T`: no `!` three bytes left, no `D` at `d = dOffset k` bytes left, no `I` fourteen bytes left,
each under the guard of the code. -/
def NoMarker (T : List Nat) (p k : Nat) : Prop :=
  ¬ (p > 2 ∧ T[p - 3]? = some 33) ∧
  ¬ (p > dOffset k - 1 ∧ T[p - dOffset k]? = some 68) ∧
  ¬ (p > 13 ∧ T[p - 14]? = some 73)

instance (T : List Nat) (p k : Nat) : Decidable (NoMarker T p k) :=
  inferInstanceAs (Decidable (¬ (p > 2 ∧ T[p - 3]? = some 33) ∧
    ¬ (p > dOffset k - 1 ∧ T[p - dOffset k]? = some 68) ∧ ¬ (p > 13 ∧ T[p - 14]? = some 73)))

/-- The bytes of the template `'PT:'F 'EXT=.ACK= Id:0xFHH` of doc note 1 and of
`BenchmarkSnapShort`. -/
def headerPic : List Nat :=
  [39, 80, 84, 58, 39, 70, 32, 39, 69, 88, 84, 61, 46, 65, 67, 75, 61, 32, 73, 100, 58, 48,
   120, 70, 72, 72]

/-- The text `headerPic` stands for, read field by field from a 16-bit value: `PT:` and
bits 13..15 as a digit, the label `EXT` for bit 12 and `.ACK` for bit 11 (each folded to
lower case when its bit is clear), ` Id:0x`, bits 8..10 as a digit and bits 0..7 as two
uppercase hex digits. -/
def headerText (f : Nat) : List Nat :=
  ofString "PT:" ++ [48 + (f >>> 13) % 8, 32] ++
  (ofString "EXT").map (labelByte (2 + (f >>> 12) % 2)) ++
  (ofString ".ACK").map (labelByte (2 + (f >>> 11) % 2)) ++
  ofString " Id:0x" ++ [48 + (f >>> 8) % 8, hexDigit ((f >>> 4) % 16), hexDigit (f % 16)]

/-- The state `s` seen in a buffer with `k` more untouched bytes in front: the write cursor
`oi` is `k` higher. -/
def widen (k : Nat) (s : St) : St :=
  { s with oi := s.oi + k, ot := List.replicate k 0 ++ s.ot }

/-- The run `y` follows the run `x` up to `R`: when `x` yields a value, `y` yields a
related one. -/
def Res.lifts {α β : Type} (R : α → β → Prop) (x : Res α) (y : Res β) : Prop :=
  ∀ a, x = .ok a → ∃ b, y = .ok b ∧ R a b

/-- The relation of a loop-body result to the same result in the wider buffer. -/
def Wide (k : Nat) (r : Bool × St) (t : Bool × St) : Prop := t = (r.1, widen k r.2)

/-! ## Theorems -/

@[simp] theorem Res.bind_ok {α β : Type} (a : α) (f : α → Res β) : (Res.ok a).bind f = f a := rfl
@[simp] theorem Res.bind_fault {α β : Type} (x : Fault) (f : α → Res β) :
    (Res.fault x : Res α).bind f = .fault x := rfl

@[simp] theorem Res.sat_ok {α : Type} (P : α → Prop) (a : α) : (Res.ok a).sat P ↔ P a := Iff.rfl
@[simp] theorem Res.sat_fault {α : Type} (P : α → Prop) (x : Fault) :
    (Res.fault x : Res α).sat P ↔ True := Iff.rfl

theorem Res.sat_bind {α β : Type} {Q : α → Prop} {P : β → Prop} {x : Res α} {f : α → Res β}
    (hx : x.sat Q) (hf : ∀ a, Q a → (f a).sat P) : (x.bind f).sat P := by
  cases x with
  | ok a => exact hf a hx
  | fault _ => trivial

theorem Res.sat_bind_any {α β : Type} {P : β → Prop} {x : Res α} {f : α → Res β}
    (hf : ∀ a, (f a).sat P) : (x.bind f).sat P := by
  cases x with
  | ok a => exact hf a
  | fault _ => trivial

theorem Res.sat_iff {α : Type} (P : α → Prop) (x : Res α) :
    x.sat P ↔ ∀ a, x = .ok a → P a := by
  cases x with
  | ok a => simp
  | fault _ => simp

theorem keeps_bind {n : Nat} {x : Res St} {f : St → Res St} (hx : Keeps n x)
    (hf : ∀ t, t.ot.length = n → Keeps n (f t)) : Keeps n (x.bind f) :=
  Res.sat_bind hx hf

theorem keeps_bind2 {n : Nat} {x : Res St} {f : St → Res (Bool × St)} (hx : Keeps n x)
    (hf : ∀ t, t.ot.length = n → Keeps2 n (f t)) : Keeps2 n (x.bind f) :=
  Res.sat_bind hx hf

theorem keeps_put {n : Nat} {s : St} (w : Nat) (h : s.ot.length = n) : Keeps n (put s w) := by
  unfold put Keeps
  split
  · trivial
  · split
    · simpa using h
    · trivial

theorem keeps_flush {n : Nat} {s : St} (h : s.ot.length = n) : Keeps n (flush s) := by
  unfold flush
  split
  · exact keeps_bind (keeps_put _ h) (fun t ht => by simpa [Keeps] using ht)
  · simpa [Keeps] using h

theorem keeps_shorth (pic : List Nat) {n : Nat} (fuel : Nat) {s : St} (h : s.ot.length = n) :
    Keeps n (shorth pic fuel s) := by
  induction fuel generalizing s with
  | zero =>
    unfold shorth
    refine Res.sat_bind_any fun more => ?_
    split
    · trivial
    · simpa [Keeps] using h
  | succ k ih =>
    unfold shorth
    refine Res.sat_bind_any fun more => ?_
    split
    · exact keeps_bind (keeps_put _ (by simpa using h)) (fun t ht => ih ht)
    · simpa [Keeps] using h

theorem keeps_decimal64 {n : Nat} (fuel v : Nat) {s : St} (h : s.ot.length = n) :
    Keeps n (decimal64 fuel v s) := by
  induction fuel generalizing s v with
  | zero =>
    unfold decimal64
    split
    · trivial
    · exact keeps_put _ h
  | succ k ih =>
    unfold decimal64
    split
    · exact keeps_bind (keeps_put _ h) (fun t ht => ih _ ht)
    · exact keeps_put _ h

theorem keeps_decimal8 {n : Nat} (fuel v : Nat) {s : St} (h : s.ot.length = n) :
    Keeps n (decimal8 fuel v s) := by
  induction fuel generalizing s v with
  | zero =>
    unfold decimal8
    split
    · trivial
    · exact keeps_put _ h
  | succ k ih =>
    unfold decimal8
    split
    · exact keeps_bind (keeps_put _ h) (fun t ht => ih _ ht)
    · exact keeps_put _ h

theorem keeps_ipv4 {n : Nat} (m : Nat) {s : St} (h : s.ot.length = n) :
    Keeps n (ipv4 m s) := by
  induction m generalizing s with
  | zero => simpa [ipv4, Keeps] using h
  | succ k ih =>
    unfold ipv4
    refine keeps_bind (keeps_decimal8 _ _ (by simpa using h)) (fun t ht => ?_)
    refine keeps_bind ?_ (fun u hu => ih hu)
    split
    · exact keeps_put _ ht
    · simpa [Keeps] using ht

theorem keeps_picerr {n : Nat} (m : Nat) {s : St} (h : s.ot.length = n) :
    Keeps n (picerr m s) := by
  induction m generalizing s with
  | zero => simpa [picerr, Keeps] using h
  | succ k ih =>
    unfold picerr
    split
    · refine Res.sat_bind_any fun x => ?_
      exact keeps_bind (keeps_put _ h) (fun t ht => ih ht)
    · simpa [Keeps] using h

theorem keeps2_of {n : Nat} {x : Res St} (b : Bool) (hx : Keeps n x) :
    Keeps2 n (x.bind fun t => .ok (b, t)) :=
  Res.sat_bind hx (fun t ht => by simpa using ht)

theorem keeps_ite {n : Nat} {p : Prop} [Decidable p] {x y : Res St} (hx : Keeps n x)
    (hy : Keeps n y) : Keeps n (if p then x else y) := by
  split <;> assumption

theorem keeps2_ite {n : Nat} {p : Prop} [Decidable p] {x y : Res (Bool × St)} (hx : Keeps2 n x)
    (hy : Keeps2 n y) : Keeps2 n (if p then x else y) := by
  split <;> assumption

theorem keeps2_ok {n : Nat} {s : St} (b : Bool) (h : s.ot.length = n) :
    Keeps2 n (.ok (b, s)) := h

theorem keeps_atCmd (pic : List Nat) {n : Nat} {s : St} (h : s.ot.length = n) :
    Keeps2 n (atCmd pic s) := by
  unfold atCmd
  split
  · trivial
  · refine Res.sat_bind_any fun a => Res.sat_bind_any fun b => ?_
    dsimp only
    split
    · exact keeps2_of _ (keeps_picerr _ h)
    · refine Res.sat_bind_any fun skip => ?_
      split
      · simpa [Keeps2] using h
      · refine Res.sat_bind_any fun dec => ?_
        split
        · exact keeps2_of _ (keeps_decimal64 _ _ (by simpa using h))
        · refine Res.sat_bind_any fun ip => ?_
          split
          · exact keeps2_of _ (keeps_ipv4 _ (by simpa using h))
          · exact keeps2_of _ (keeps_picerr _ h)

theorem keeps_finish {n : Nat} {s : St} (h : s.ot.length = n) : Keeps2 n (finish s) :=
  keeps2_of _ (keeps_flush h)

theorem keeps_command (pic : List Nat) {n : Nat} {s : St} (w : Nat) (h : s.ot.length = n) :
    Keeps2 n (command pic s w) := by
  have hat : Keeps2 n ((atCmd pic s).bind fun r =>
      if r.1 then finish r.2 else .ok (false, r.2)) := by
    refine Res.sat_bind (keeps_atCmd pic h) (fun r hr => ?_)
    split
    · exact keeps_finish hr
    · simpa using hr
  unfold command
  repeat' first
    | exact hat
    | exact keeps_finish h
    | exact keeps_bind2 (keeps_shorth pic _ h) (fun t ht => keeps_finish ht)
    | exact keeps2_ok _ h
    | apply keeps2_ite

theorem keeps_emitLabel (pic : List Nat) {n : Nat} {s : St} (w : Nat) (h : s.ot.length = n) :
    Keeps2 n (emitLabel pic s w) := by
  unfold emitLabel
  split
  · exact keeps_command pic w (by simpa using h)
  · exact keeps2_of _ (keeps_put _ h)

theorem keeps_body (pic : List Nat) {n : Nat} {s : St} (h : s.ot.length = n) :
    Keeps2 n (body pic s) := by
  unfold body
  refine Res.sat_bind_any fun w => Res.sat_bind_any fun esc => ?_
  have h1 : ({ s with pi := s.pi - 1 } : St).ot.length = n := by simpa using h
  repeat' first
    | exact keeps_command pic _ h
    | exact keeps_emitLabel pic _ h1
    | exact keeps2_of _ (keeps_put _ h1)
    | exact Res.sat_bind (keeps_put _ h1) (fun t ht => ht)
    | exact keeps2_ok _ h
    | apply keeps2_ite

theorem keeps_ploop (pic : List Nat) {n : Nat} (fuel : Nat) {s : St} (h : s.ot.length = n) :
    Keeps n (ploop pic fuel s) := by
  induction fuel generalizing s with
  | zero =>
    unfold ploop
    split
    · trivial
    · simpa [Keeps] using h
  | succ k ih =>
    unfold ploop
    split
    · refine Res.sat_bind (keeps_body pic h) (fun r hr => ?_)
      split
      · exact ih hr
      · simpa using hr
    · simpa [Keeps] using h

theorem result_length_le (s : St) : (result s).sat (fun out => out.length ≤ s.ot.length) := by
  unfold result
  split
  · split
    · simp
    · trivial
  · simp

/-- C3: whenever `Snap T v` returns, the result is no longer than the template `T`;
for the empty template the result is empty. -/
theorem Snap_length_le (T : List Nat) (v : Nat) (out : List Nat) (h : Snap T v = .ok out) :
    out.length ≤ T.length ∧ Snap [] v = .ok [] := by
  refine ⟨?_, by rfl⟩
  have hk : (Snap T v).sat (fun out => out.length ≤ T.length) := by
    unfold Snap
    refine Res.sat_bind (keeps_ploop T T.length (s := init T v) (n := T.length) (by simp [init])) (fun s hs => ?_)
    have := result_length_le s
    rw [hs] at this
    exact this
  rw [h] at hk
  exact hk

/-- Witness of `Snap_length_le`: the template `H!00@` on the value `1`. -/
theorem Snap_length_le_witness :
    Snap (ofString "H!00@") 1 = .ok (ofString "CERR!") ∧
      ((ofString "CERR!").length ≤ (ofString "H!00@").length ∧ Snap [] 1 = .ok []) :=
  ⟨by decide, Snap_length_le (ofString "H!00@") 1 (ofString "CERR!") (by decide)⟩

/-- C1, at its failing input: on the one-byte template `@` the read `pic[pi-2]` is out of
range, and likewise on `1@`; `Snap` panics instead of returning a clipped sentinel. -/
theorem Snap_at_panics :
    Snap (ofString "@") 0 = .fault .indexOutOfRange ∧
      Snap (ofString "1@") 0 = .fault .indexOutOfRange := by
  constructor <;> decide

@[simp] theorem Res.tot_ok {α : Type} (P : α → Prop) (a : α) : (Res.ok a).tot P ↔ P a := Iff.rfl
@[simp] theorem Res.tot_fault {α : Type} (P : α → Prop) (x : Fault) :
    (Res.fault x : Res α).tot P ↔ False := Iff.rfl

theorem Res.tot_bind {α β : Type} {Q : α → Prop} {P : β → Prop} {x : Res α} {f : α → Res β}
    (hx : x.tot Q) (hf : ∀ a, Q a → (f a).tot P) : (x.bind f).tot P := by
  cases x with
  | ok a => exact hf a hx
  | fault _ => exact hx.elim

theorem Res.tot_iff {α : Type} (P : α → Prop) (x : Res α) :
    x.tot P ↔ ∃ a, x = .ok a ∧ P a := by
  cases x with
  | ok a => simp
  | fault _ => simp

theorem Res.tot_mono {α : Type} {P Q : α → Prop} {x : Res α} (hx : x.tot P)
    (h : ∀ a, P a → Q a) : x.tot Q := by
  cases x with
  | ok a => exact h a hx
  | fault _ => exact hx.elim

theorem Fits.mono {pic : List Nat} {n m : Nat} {s : St} (h : Fits pic n s) (hm : m ≤ n) :
    Fits pic m s := by
  obtain ⟨h1, h2, h3, h4⟩ := h
  exact ⟨by omega, h2, h3, h4⟩

theorem shiftRight_lt {x : Nat} (k : Nat) (h : x < 2 ^ 64) : x >>> k < 2 ^ 64 := by
  rw [Nat.shiftRight_eq_div_pow]
  exact lt_of_le_of_lt (Nat.div_le_self _ _) h

theorem put_tot {pic : List Nat} {n : Nat} {s : St} (w : Nat) (h : Fits pic (n + 1) s) :
    (put s w).tot (fun t => Fits pic n t ∧ t.pi = s.pi ∧ t.asis = s.asis ∧ t.c = s.c ∧
      t.frm = s.frm) := by
  obtain ⟨h1, h2, h3, h4⟩ := h
  unfold put
  rw [if_neg (by omega), if_pos (by omega)]
  refine (Res.tot_ok _ _).2 ⟨⟨?_, ?_, ?_, h4⟩, rfl, rfl, rfl, rfl⟩
  · show s.pi + n ≤ s.oi - 1
    omega
  · show s.oi - 1 ≤ pic.length
    omega
  · show (s.ot.set (s.oi - 1) w).length = pic.length
    rw [List.length_set, h3]

theorem rd_tot {pic : List Nat} {i : Nat} (h : i < pic.length) :
    (rd pic i).tot (fun w => pic[i]? = some w) := by
  unfold rd
  rw [List.getElem?_eq_getElem h]
  simp

theorem peekIs_tot {pic : List Nat} {g : Bool} {i : Nat} (ch : Nat)
    (h : g = true → i < pic.length) :
    (peekIs pic g i ch).tot (fun b => b = true → g = true ∧ pic[i]? = some ch) := by
  unfold peekIs
  split
  · rename_i hg
    refine Res.tot_bind (rd_tot (h hg)) (fun w hw => ?_)
    simp only [Res.tot_ok, beq_iff_eq]
    intro hx
    exact ⟨hg, hx ▸ hw⟩
  · simp

theorem flush_tot {pic : List Nat} {s : St} (h : Fits pic 1 s) :
    (flush s).tot (fun t => Fits pic 0 t ∧ t.pi = s.pi ∧ t.c = 0) := by
  unfold flush
  split
  · refine Res.tot_bind (put_tot (n := 0) _ h) (fun t ht => ?_)
    obtain ⟨h1, h2, -⟩ := ht
    exact ⟨h1, h2, rfl⟩
  · rename_i hc
    exact ⟨h.mono (by omega), rfl, by simpa using hc⟩

theorem flush_tot0 {pic : List Nat} {s : St} (h : Fits pic 0 s) (hc : s.c = 0) :
    (flush s).tot (fun t => Fits pic 0 t ∧ t.pi = s.pi ∧ t.c = 0) := by
  unfold flush
  rw [if_neg (by simpa using hc)]
  exact ⟨h, rfl, hc⟩

theorem finish_tot {pic : List Nat} {s : St} {p : Nat} (h : Fits pic 1 s) (hp : s.pi ≤ p) :
    (finish s).tot (Post pic p) := by
  unfold finish
  refine Res.tot_bind (flush_tot h) (fun t ht => ?_)
  obtain ⟨h1, h2, h3⟩ := ht
  exact ⟨fun _ => ⟨h1, h3, by simpa [h2] using hp⟩, fun hf => by simp at hf⟩

theorem finish_tot0 {pic : List Nat} {s : St} {p : Nat} (h : Fits pic 0 s) (hc : s.c = 0)
    (hp : s.pi ≤ p) : (finish s).tot (Post pic p) := by
  unfold finish
  refine Res.tot_bind (flush_tot0 h hc) (fun t ht => ?_)
  obtain ⟨h1, h2, h3⟩ := ht
  exact ⟨fun _ => ⟨h1, h3, by simpa [h2] using hp⟩, fun hf => by simp at hf⟩

theorem shorth_tot {pic : List Nat} (fuel : Nat) {s : St} (h : Fits pic 1 s)
    (hf : s.pi ≤ fuel) :
    (shorth pic fuel s).tot (fun t => Fits pic 1 t ∧ t.pi ≤ s.pi) := by
  induction fuel generalizing s with
  | zero =>
    obtain ⟨h1, h2, h3, h4⟩ := h
    unfold shorth
    refine Res.tot_bind (peekIs_tot 72 (fun hg => ?_)) (fun more hm => ?_)
    · simp at hg; omega
    · split
      · rename_i hmore
        have := (hm hmore).1
        simp at this; omega
      · exact ⟨⟨h1, h2, h3, shiftRight_lt 4 h4⟩, le_refl _⟩
  | succ k ih =>
    obtain ⟨h1, h2, h3, h4⟩ := h
    unfold shorth
    refine Res.tot_bind (peekIs_tot 72 (fun hg => ?_)) (fun more hm => ?_)
    · simp at hg; simp; omega
    · split
      · rename_i hmore
        have hpos := (hm hmore).1
        simp at hpos
        refine Res.tot_bind
          (put_tot (n := 1) _ ⟨by simp; omega, h2, h3, shiftRight_lt 4 h4⟩) (fun t ht => ?_)
        obtain ⟨g1, g2, -⟩ := ht
        simp only at g2
        refine Res.tot_mono (ih g1 (by omega)) (fun u hu => ⟨hu.1, by omega⟩)
      · exact ⟨⟨h1, h2, h3, shiftRight_lt 4 h4⟩, le_refl _⟩

theorem decimal64_tot {pic : List Nat} (fuel : Nat) {m r v : Nat} {s : St}
    (hv : v < 10 ^ (m + 1)) (hm : m ≤ fuel) (h : Fits pic (m + 1 + r) s) :
    (decimal64 fuel v s).tot (fun t => Fits pic r t ∧ t.pi = s.pi ∧ t.c = s.c) := by
  induction fuel generalizing m v s with
  | zero =>
    have hm0 : m = 0 := by omega
    subst hm0
    unfold decimal64
    rw [if_neg (by omega)]
    refine Res.tot_mono (put_tot (n := r) _ (h.mono (by omega))) (fun t ht => ?_)
    exact ⟨ht.1, ht.2.1, ht.2.2.2.1⟩
  | succ k ih =>
    unfold decimal64
    split
    · rename_i h9
      have hm1 : 1 ≤ m := by
        rcases Nat.eq_zero_or_pos m with h0 | h0
        · subst h0; omega
        · exact h0
      obtain ⟨m', rfl⟩ : ∃ m', m = m' + 1 := ⟨m - 1, by omega⟩
      refine Res.tot_bind (put_tot (n := m' + 1 + r) _ (h.mono (by omega))) (fun t ht => ?_)
      obtain ⟨g1, g2, g3, g4, g5⟩ := ht
      have hv' : v / 10 < 10 ^ (m' + 1) := by
        rw [Nat.div_lt_iff_lt_mul (by norm_num)]
        calc v < 10 ^ (m' + 1 + 1) := hv
          _ = 10 ^ (m' + 1) * 10 := by ring
      refine Res.tot_mono (ih hv' (by omega) g1) (fun u hu => ?_)
      exact ⟨hu.1, by rw [hu.2.1, g2], by rw [hu.2.2, g4]⟩
    · refine Res.tot_mono (put_tot (n := r) _ (h.mono (by omega))) (fun t ht => ?_)
      exact ⟨ht.1, ht.2.1, ht.2.2.2.1⟩

theorem decimal8_tot {pic : List Nat} (fuel : Nat) {m r v : Nat} {s : St}
    (hv : v < 10 ^ (m + 1)) (hm : m ≤ fuel) (h : Fits pic (m + 1 + r) s) :
    (decimal8 fuel v s).tot (fun t => Fits pic r t ∧ t.pi = s.pi ∧ t.c = s.c) := by
  induction fuel generalizing m v s with
  | zero =>
    have hm0 : m = 0 := by omega
    subst hm0
    unfold decimal8
    rw [if_neg (by omega)]
    refine Res.tot_mono (put_tot (n := r) _ (h.mono (by omega))) (fun t ht => ?_)
    exact ⟨ht.1, ht.2.1, ht.2.2.2.1⟩
  | succ k ih =>
    unfold decimal8
    split
    · rename_i h9
      have hm1 : 1 ≤ m := by
        rcases Nat.eq_zero_or_pos m with h0 | h0
        · subst h0; omega
        · exact h0
      obtain ⟨m', rfl⟩ : ∃ m', m = m' + 1 := ⟨m - 1, by omega⟩
      refine Res.tot_bind (put_tot (n := m' + 1 + r) _ (h.mono (by omega))) (fun t ht => ?_)
      obtain ⟨g1, g2, g3, g4, g5⟩ := ht
      have hv' : v / 10 < 10 ^ (m' + 1) := by
        rw [Nat.div_lt_iff_lt_mul (by norm_num)]
        calc v < 10 ^ (m' + 1 + 1) := hv
          _ = 10 ^ (m' + 1) * 10 := by ring
      refine Res.tot_mono (ih hv' (by omega) g1) (fun u hu => ?_)
      exact ⟨hu.1, by rw [hu.2.1, g2], by rw [hu.2.2, g4]⟩
    · refine Res.tot_mono (put_tot (n := r) _ (h.mono (by omega))) (fun t ht => ?_)
      exact ⟨ht.1, ht.2.1, ht.2.2.2.1⟩

theorem ipv4_tot {pic : List Nat} (n : Nat) {s : St} (h : Fits pic (4 * n - 1) s) :
    (ipv4 n s).tot (fun t => Fits pic 0 t ∧ t.pi = s.pi ∧ t.c = s.c) := by
  induction n generalizing s with
  | zero => exact ⟨h.mono (by omega), rfl, rfl⟩
  | succ k ih =>
    obtain ⟨h1, h2, h3, h4⟩ := h
    unfold ipv4
    have hb : s.frm % 256 < 10 ^ (2 + 1) := by omega
    refine Res.tot_bind (decimal8_tot 3 (m := 2) (r := 4 * k) hb (by omega)
      ⟨by simp; omega, h2, h3, shiftRight_lt 8 h4⟩) (fun t ht => ?_)
    obtain ⟨g1, g2, g3⟩ := ht
    simp only at g2 g3
    by_cases hk : k > 0
    · rw [if_pos hk]
      obtain ⟨k', rfl⟩ : ∃ k', k = k' + 1 := ⟨k - 1, by omega⟩
      refine Res.tot_bind (put_tot (n := 4 * (k' + 1) - 1) _ (g1.mono (by omega)))
        (fun u hu => ?_)
      obtain ⟨f1, f2, f3, f4, f5⟩ := hu
      refine Res.tot_mono (ih f1) (fun x hx => ?_)
      exact ⟨hx.1, by rw [hx.2.1, f2, g2], by rw [hx.2.2, f4, g3]⟩
    · rw [if_neg hk]
      have hk0 : k = 0 := by omega
      subst hk0
      simp only [Res.bind_ok, ipv4, Res.tot_ok]
      exact ⟨g1, g2, g3⟩

theorem picerr_tot (i : Nat) {s : St} (hi : i ≤ 7) (h : s.oi ≤ s.ot.length) :
    (picerr i s).tot (fun t => t.oi ≤ t.ot.length) := by
  induction i generalizing s with
  | zero => exact h
  | succ k ih =>
    unfold picerr
    split
    · rename_i hpos
      refine Res.tot_bind (@rd_tot e k (by simp [e]; omega)) (fun x _ => ?_)
      unfold put
      rw [if_neg (by omega), if_pos (by omega)]
      simp only [Res.bind_ok]
      refine ih (by omega) ?_
      simp only [List.length_set]
      omega
    · exact h

theorem Res.tot_ite {α : Type} {P : α → Prop} {p : Prop} [Decidable p] {x y : Res α}
    (hx : p → x.tot P) (hy : ¬p → y.tot P) : (if p then x else y).tot P := by
  split
  · exact hx ‹_›
  · exact hy ‹_›

theorem field_eq {frm k : Nat} (h : frm < 2 ^ 64) (hk : k ≤ 64) : field frm k = frm % 2 ^ k := by
  apply Nat.eq_of_testBit_eq
  intro i
  simp only [field, Nat.testBit_and, Nat.testBit_xor, Nat.testBit_mod_two_pow,
    Nat.testBit_shiftLeft, Nat.testBit_two_pow_sub_one]
  by_cases hi : i < 64
  · by_cases hik : i < k
    · have : ¬ (i ≥ k) := by omega
      simp [hi, hik, this]
    · have h1 : i ≥ k := by omega
      have h2 : i - k < 64 := by omega
      simp [hi, hik, h1, h2]
  · have hf : frm.testBit i = false :=
      Nat.testBit_eq_false_of_lt (lt_of_lt_of_le h (Nat.pow_le_pow_right (by norm_num) (by omega)))
    have hik : ¬ i < k := by omega
    simp [hi, hf, hik]

theorem two_pow_le_ten_pow (k : Nat) (h1 : 1 ≤ k) (h2 : k ≤ 64) :
    2 ^ k ≤ 10 ^ (min (if k > 16 then k / 3 else 4) 19 + 1) := by
  interval_cases k <;> norm_num

theorem atCmd_tot {pic : List Nat} {s : St} {p : Nat} (h : Fits pic 1 s) (hc : s.c = 0)
    (h2 : 2 ≤ s.pi) (hp : s.pi ≤ p) : (atCmd pic s).tot (Post pic p) := by
  obtain ⟨f1, f2, f3, f4⟩ := h
  have hbrk : ((picerr 7 s).bind fun s1 => Res.ok (false, s1)).tot (Post pic p) := by
    refine Res.tot_bind (picerr_tot 7 (le_refl _) (by omega)) (fun t ht => ?_)
    exact ⟨fun hf => by simp at hf, fun _ => ht⟩
  unfold atCmd
  rw [if_neg (by omega)]
  refine Res.tot_bind (rd_tot (by omega)) (fun a _ => ?_)
  refine Res.tot_bind (rd_tot (by omega)) (fun b _ => ?_)
  dsimp only
  generalize bitcount a b = k
  refine Res.tot_ite (fun _ => hbrk) (fun hk => ?_)
  have hk1 : 1 ≤ k := by omega
  have hk2 : k ≤ 64 := by omega
  refine Res.tot_bind (peekIs_tot 33 (fun hg => by simp at hg; omega)) (fun skip _ => ?_)
  refine Res.tot_ite (fun _ => ?_) (fun _ => ?_)
  · exact ⟨fun _ => ⟨⟨by simp; omega, f2, f3, shiftRight_lt k f4⟩, hc, by simp; omega⟩,
      fun hf => by simp at hf⟩
  · have hd : 4 ≤ (if k > 16 then k / 3 else 4) := by split <;> omega
    generalize hdd : (if k > 16 then k / 3 else 4) = d at hd
    refine Res.tot_bind (peekIs_tot 68 (fun hg => by simp at hg; omega)) (fun dec hdec => ?_)
    refine Res.tot_ite (fun hdt => ?_) (fun _ => ?_)
    · have hpd := (hdec hdt).1
      simp at hpd
      have hlt : field s.frm k < 10 ^ (min d 19 + 1) := by
        rw [field_eq f4 hk2]
        have := two_pow_le_ten_pow k hk1 hk2
        rw [hdd] at this
        exact lt_of_lt_of_le (Nat.mod_lt _ (by positivity)) this
      refine Res.tot_bind (decimal64_tot 20 (r := 0) hlt (by omega)
        ⟨by simp; omega, f2, f3, shiftRight_lt k f4⟩) (fun t ht => ?_)
      obtain ⟨g1, g2, g3⟩ := ht
      simp only at g2 g3
      exact ⟨fun _ => ⟨g1, by rw [g3, hc], by rw [g2]; omega⟩, fun hf => by simp at hf⟩
    · refine Res.tot_bind (peekIs_tot 73 (fun hg => by simp at hg; omega)) (fun ip hip => ?_)
      refine Res.tot_ite (fun hit => ?_) (fun _ => hbrk)
      have hpi := (hip hit).1
      simp at hpi
      refine Res.tot_bind (ipv4_tot 4 ⟨by simp; omega, f2, f3, f4⟩) (fun t ht => ?_)
      obtain ⟨g1, g2, g3⟩ := ht
      simp only at g2 g3
      exact ⟨fun _ => ⟨g1, by rw [g3, hc], by rw [g2]; omega⟩, fun hf => by simp at hf⟩

theorem post_continue {pic : List Nat} {s : St} {p : Nat} (h : Fits pic 0 s) (hc : s.c = 0)
    (hp : s.pi ≤ p) : (Res.ok (true, s)).tot (Post pic p) :=
  ⟨fun _ => ⟨h, hc, hp⟩, fun hf => by simp at hf⟩

theorem command_tot {pic : List Nat} {s : St} {p : Nat} (w : Nat) (h : Fits pic 1 s)
    (hc : s.c = 0) (hw : w = 64 → 2 ≤ s.pi) (hp : s.pi ≤ p) :
    (command pic s w).tot (Post pic p) := by
  have hat : w = 64 → ((atCmd pic s).bind fun r =>
      if r.1 then finish r.2 else .ok (false, r.2)).tot (Post pic p) := by
    intro h64
    refine Res.tot_bind (atCmd_tot h hc (hw h64) hp) (fun r hr => ?_)
    refine Res.tot_ite (fun h1 => ?_) (fun h1 => ?_)
    · obtain ⟨g1, g2, g3⟩ := hr.1 h1
      exact finish_tot0 g1 g2 g3
    · exact ⟨fun hf => by simp at hf, fun _ => hr.2 (by simpa using h1)⟩
  obtain ⟨f1, f2, f3, f4⟩ := h
  unfold command
  repeat' first
    | exact hat (by assumption)
    | exact finish_tot ⟨f1, f2, f3, shiftRight_lt _ f4⟩ hp
    | exact finish_tot ⟨f1, f2, f3, f4⟩ hp
    | exact post_continue ⟨by simp; omega, f2, f3, f4⟩ hc hp
    | exact Res.tot_bind (shorth_tot _ ⟨f1, f2, f3, f4⟩ (le_refl _))
        (fun t ht => finish_tot ht.1 (le_trans ht.2 hp))
    | refine Res.tot_ite (fun _ => ?_) (fun _ => ?_)

theorem lor3_ne_64 {w : Nat} (h : w ||| 3 = 63) : w ≠ 64 := by
  rintro rfl
  simp at h

theorem emitLabel_tot {pic : List Nat} {s : St} {p : Nat} (w : Nat) (h : Fits pic 1 s)
    (hc : s.c = 0) (hp : s.pi ≤ p) : (emitLabel pic s w).tot (Post pic p) := by
  unfold emitLabel
  refine Res.tot_ite (fun h3 => ?_) (fun _ => ?_)
  · exact command_tot w h hc (fun h64 => absurd h64 (lor3_ne_64 h3)) hp
  · refine Res.tot_bind (put_tot (n := 0) w h) (fun t ht => ?_)
    obtain ⟨g1, g2, -, g4, -⟩ := ht
    exact post_continue g1 (by rw [g4, hc]) (by rw [g2]; exact hp)

theorem body_tot {pic : List Nat} {s : St} (h : Fits pic 0 s) (hc : s.c = 0) (hpos : 0 < s.pi)
    (h0 : pic[0]? ≠ some 64) (h1 : pic[1]? ≠ some 64) :
    (body pic s).tot (Post pic (s.pi - 1)) := by
  obtain ⟨f1, f2, f3, f4⟩ := h
  have hfit : Fits pic 1 ({ s with pi := s.pi - 1 } : St) := ⟨by simp; omega, f2, f3, f4⟩
  unfold body
  refine Res.tot_bind (rd_tot (by simp; omega)) (fun w hw => ?_)
  refine Res.tot_bind (peekIs_tot 92 (fun hg => by simp at hg ⊢; omega)) (fun esc _ => ?_)
  have hw2 : w = 64 → 2 ≤ ({ s with pi := s.pi - 1 } : St).pi := by
    intro h64
    subst h64
    simp only at hw ⊢
    by_contra hlt
    have : s.pi - 1 = 0 ∨ s.pi - 1 = 1 := by omega
    rcases this with h | h
    · rw [h] at hw; exact h0 hw
    · rw [h] at hw; exact h1 hw
  repeat' first
    | exact command_tot w hfit hc hw2 (le_refl _)
    | exact command_tot w ⟨hfit.1, f2, f3, f4⟩ hc (fun h64 => absurd h64 (lor3_ne_64 ‹_›))
        (le_refl _)
    | exact emitLabel_tot _ hfit hc (le_refl _)
    | exact post_continue (hfit.mono (by omega)) hc (le_refl _)
    | exact post_continue ⟨by simp; omega, f2, f3, f4⟩ hc (le_refl _)
    | exact Res.tot_bind (put_tot (n := 0) _ hfit) (fun t ht =>
        post_continue ⟨by have := ht.1.1; (try simp only at this ⊢); omega, ht.1.2.1, ht.1.2.2.1,
            ht.1.2.2.2⟩
          (by rw [← hc]; exact ht.2.2.2.1)
          (by have := ht.2.1; (try simp only at this ⊢); omega))
    | refine Res.tot_ite (fun _ => ?_) (fun _ => ?_)

theorem ploop_tot {pic : List Nat} (fuel : Nat) {s : St} (h : Fits pic 0 s) (hc : s.c = 0)
    (hf : s.pi ≤ fuel) (h0 : pic[0]? ≠ some 64) (h1 : pic[1]? ≠ some 64) :
    (ploop pic fuel s).tot (fun t => t.oi ≤ t.ot.length) := by
  induction fuel generalizing s with
  | zero =>
    unfold ploop
    rw [if_neg (by omega)]
    exact h.2.1.trans (le_of_eq h.2.2.1.symm)
  | succ k ih =>
    unfold ploop
    refine Res.tot_ite (fun hpos => ?_) (fun _ => h.2.1.trans (le_of_eq h.2.2.1.symm))
    refine Res.tot_bind (body_tot h hc hpos h0 h1) (fun r hr => ?_)
    refine Res.tot_ite (fun hr1 => ?_) (fun hr1 => hr.2 (by simpa using hr1))
    obtain ⟨g1, g2, g3⟩ := hr.1 hr1
    exact ih g1 g2 (by omega)

theorem result_tot {s : St} (h : s.oi ≤ s.ot.length) : (result s).tot (fun _ => True) := by
  unfold result
  split_ifs <;> trivial

theorem init_fits (pic : List Nat) {v : Nat} (hv : v < 2 ^ 64) : Fits pic 0 (init pic v) :=
  ⟨by simp [init], by simp [init], by simp [init], hv⟩

theorem reach_fits {pic : List Nat} {v : Nat} (hv : v < 2 ^ 64) (h0 : pic[0]? ≠ some 64)
    (h1 : pic[1]? ≠ some 64) {s : St} (hs : Reach pic v s) : Fits pic 0 s ∧ s.c = 0 := by
  induction hs with
  | start => exact ⟨init_fits pic hv, rfl⟩
  | next _ hpos hb ih =>
    have := body_tot ih.1 ih.2 hpos h0 h1
    rw [hb] at this
    obtain ⟨g1, g2, -⟩ := this.1 rfl
    exact ⟨g1, g2⟩

@[simp] theorem mk_pi (pi oi a c f : Nat) (out : List Nat) : (mk pi oi a c f out).pi = pi := rfl
@[simp] theorem mk_oi (pi oi a c f : Nat) (out : List Nat) : (mk pi oi a c f out).oi = oi := rfl
@[simp] theorem mk_asis (pi oi a c f : Nat) (out : List Nat) : (mk pi oi a c f out).asis = a := rfl
@[simp] theorem mk_c (pi oi a c f : Nat) (out : List Nat) : (mk pi oi a c f out).c = c := rfl
@[simp] theorem mk_frm (pi oi a c f : Nat) (out : List Nat) : (mk pi oi a c f out).frm = f := rfl

@[simp] theorem mk_fold (p o a c f p' a' c' f' : Nat) (out : List Nat) :
    St.mk p o a c f (mk p' o a' c' f' out).ot = mk p o a c f out := rfl

theorem init_eq_mk (pic : List Nat) (v : Nat) :
    init pic v = mk pic.length pic.length 0 0 v [] := by
  simp [init, mk]

theorem replicate_set_last (n w : Nat) (out : List Nat) :
    (List.replicate (n + 1) 0 ++ out).set n w = List.replicate n 0 ++ w :: out := by
  induction n with
  | zero => rfl
  | succ k ih =>
    rw [List.replicate_succ, List.cons_append, List.set_cons_succ, ih]
    rfl

theorem put_mk {oi : Nat} (pi a c f : Nat) (out : List Nat) (w : Nat) (h : 0 < oi) :
    put (mk pi oi a c f out) w = .ok (mk pi (oi - 1) a c f (w :: out)) := by
  obtain ⟨n, rfl⟩ : ∃ n, oi = n + 1 := ⟨oi - 1, by omega⟩
  unfold put
  rw [if_neg (by simp), if_pos (by simp [mk]; omega)]
  simp only [mk, Nat.add_sub_cancel, replicate_set_last]

theorem result_mk (pi oi a c f : Nat) (out : List Nat) :
    result (mk pi oi a c f out) = .ok out := by
  unfold result
  split
  · rw [if_pos (by simp [mk])]
    simp [mk]
  · rename_i h
    have : oi = 0 := by simpa using h
    subst this
    simp [mk]

theorem decimalNumeral_lt_ten {v : Nat} (h : v ≤ 9) : decimalNumeral v = [48 + v] := by
  unfold decimalNumeral
  split
  · subst_vars; rfl
  · rename_i h0
    rw [Nat.digits_of_lt 10 v h0 (by omega)]
    rfl

theorem decimalNumeral_step {v : Nat} (h : 9 < v) :
    decimalNumeral v = decimalNumeral (v / 10) ++ [48 + v % 10] := by
  have h1 : v ≠ 0 := by omega
  have h2 : v / 10 ≠ 0 := by omega
  unfold decimalNumeral
  rw [if_neg h1, if_neg h2, Nat.digits_def' (by norm_num) (by omega)]
  simp

theorem decimalNumeral_length_pos (v : Nat) : 0 < (decimalNumeral v).length := by
  by_cases h : 9 < v
  · rw [decimalNumeral_step h]; simp
  · rw [decimalNumeral_lt_ten (by omega)]; simp

theorem decimalNumeral_length_le {v m : Nat} (h : v < 10 ^ (m + 1)) :
    (decimalNumeral v).length ≤ m + 1 := by
  induction m generalizing v with
  | zero =>
    rw [decimalNumeral_lt_ten (by omega)]
    simp
  | succ k ih =>
    by_cases h9 : 9 < v
    · have hv' : v / 10 < 10 ^ (k + 1) := by
        rw [Nat.div_lt_iff_lt_mul (by norm_num)]
        calc v < 10 ^ (k + 1 + 1) := h
          _ = 10 ^ (k + 1) * 10 := by ring
      rw [decimalNumeral_step h9]
      simp only [List.length_append, List.length_singleton]
      have := ih hv'
      omega
    · rw [decimalNumeral_lt_ten (by omega)]
      simp

theorem digit64_eq (v : Nat) : digit64 v = 48 + v % 10 := by
  unfold digit64
  omega

theorem digit8_eq (v : Nat) : digit8 v = 48 + v % 10 := by
  unfold digit8
  omega

theorem decimal64_mk (fuel : Nat) {v oi : Nat} (pi a c f : Nat) (out : List Nat)
    (hf : v < 10 ^ (fuel + 1)) (ho : (decimalNumeral v).length ≤ oi) :
    decimal64 fuel v (mk pi oi a c f out) =
      .ok (mk pi (oi - (decimalNumeral v).length) a c f (decimalNumeral v ++ out)) := by
  induction fuel generalizing v oi out with
  | zero =>
    have h9 : v ≤ 9 := by omega
    rw [decimalNumeral_lt_ten h9] at ho ⊢
    unfold decimal64
    rw [if_neg (by omega), put_mk _ _ _ _ _ _ (by simpa using ho)]
    have : (48 + v) % 2 ^ 64 % 256 = 48 + v := by omega
    rw [this]
    simp
  | succ k ih =>
    unfold decimal64
    by_cases h9 : v > 9
    · have hpos := decimalNumeral_length_pos (v / 10)
      rw [decimalNumeral_step h9] at ho ⊢
      simp only [List.length_append, List.length_singleton] at ho
      rw [if_pos h9, put_mk _ _ _ _ _ _ (by omega), digit64_eq]
      simp only [Res.bind_ok]
      have hf' : v / 10 < 10 ^ (k + 1) := by
        rw [Nat.div_lt_iff_lt_mul (by norm_num)]
        calc v < 10 ^ (k + 1 + 1) := hf
          _ = 10 ^ (k + 1) * 10 := by ring
      rw [ih _ hf' (by omega)]
      simp only [List.length_append, List.length_singleton, List.append_assoc,
        List.singleton_append]
      congr 2
      omega
    · have h9' : v ≤ 9 := by omega
      rw [decimalNumeral_lt_ten h9'] at ho ⊢
      rw [if_neg h9, put_mk _ _ _ _ _ _ (by simpa using ho)]
      have : (48 + v) % 2 ^ 64 % 256 = 48 + v := by omega
      rw [this]
      simp

theorem decimal8_mk (fuel : Nat) {v oi : Nat} (pi a c f : Nat) (out : List Nat)
    (hf : v < 10 ^ (fuel + 1)) (ho : (decimalNumeral v).length ≤ oi) :
    decimal8 fuel v (mk pi oi a c f out) =
      .ok (mk pi (oi - (decimalNumeral v).length) a c f (decimalNumeral v ++ out)) := by
  induction fuel generalizing v oi out with
  | zero =>
    have h9 : v ≤ 9 := by omega
    rw [decimalNumeral_lt_ten h9] at ho ⊢
    unfold decimal8
    rw [if_neg (by omega), put_mk _ _ _ _ _ _ (by simpa using ho)]
    have : (48 + v) % 256 = 48 + v := by omega
    simp [this]
  | succ k ih =>
    unfold decimal8
    by_cases h9 : v > 9
    · have hpos := decimalNumeral_length_pos (v / 10)
      rw [decimalNumeral_step h9] at ho ⊢
      simp only [List.length_append, List.length_singleton] at ho
      rw [if_pos h9, put_mk _ _ _ _ _ _ (by omega), digit8_eq]
      simp only [Res.bind_ok]
      have hf' : v / 10 < 10 ^ (k + 1) := by
        rw [Nat.div_lt_iff_lt_mul (by norm_num)]
        calc v < 10 ^ (k + 1 + 1) := hf
          _ = 10 ^ (k + 1) * 10 := by ring
      rw [ih _ hf' (by omega)]
      simp only [List.length_append, List.length_singleton, List.append_assoc,
        List.singleton_append]
      congr 2
      omega
    · have h9' : v ≤ 9 := by omega
      rw [decimalNumeral_lt_ten h9'] at ho ⊢
      rw [if_neg h9, put_mk _ _ _ _ _ _ (by simpa using ho)]
      have : (48 + v) % 256 = 48 + v := by omega
      simp [this]

/-- C2: on a template with no `@` byte at index 0 or 1, `Snap` returns (no template read
and no buffer write is out of range), at the head of every scan iteration the write
cursor is at or above the scan cursor (`pi ≤ oi`) and inside the buffer of `len(T)`
bytes, and the decimal numeral of a `k`-bit field has at most `d + 1` digits, where
`d = 4` for `k ≤ 16` and `d = k / 3` otherwise. -/
theorem Snap_in_range (T : List Nat) (v : Nat) (hv : v < 2 ^ 64) (h0 : T[0]? ≠ some 64)
    (h1 : T[1]? ≠ some 64) :
    (∃ out, Snap T v = .ok out) ∧
      (∀ s, Reach T v s → s.pi ≤ s.oi ∧ s.oi ≤ s.ot.length ∧ s.ot.length = T.length) ∧
      (∀ k, 1 ≤ k → k ≤ 64 →
        (decimalNumeral (field v k)).length ≤ (if k > 16 then k / 3 else 4) + 1) := by
  refine ⟨?_, ?_, ?_⟩
  · have hl := ploop_tot T.length (init_fits T hv) rfl (le_refl _) h0 h1
    have : (Snap T v).tot (fun _ => True) := by
      unfold Snap
      exact Res.tot_bind hl (fun t ht => result_tot ht)
    obtain ⟨out, ho, -⟩ := (Res.tot_iff _ _).1 this
    exact ⟨out, ho⟩
  · intro s hs
    obtain ⟨⟨f1, f2, f3, -⟩, -⟩ := reach_fits hv h0 h1 hs
    exact ⟨by omega, by omega, f3⟩
  · intro k hk1 hk2
    have hlt : field v k < 10 ^ (min (if k > 16 then k / 3 else 4) 19 + 1) := by
      rw [field_eq hv hk2]
      exact lt_of_lt_of_le (Nat.mod_lt _ (by positivity)) (two_pow_le_ten_pow k hk1 hk2)
    have := decimalNumeral_length_le hlt
    omega

/-- Witness of `Snap_in_range`: the template `D.16@` on the value `5`. -/
theorem Snap_in_range_witness :
    (5 < 2 ^ 64 ∧ (ofString "D.16@")[0]? ≠ some 64 ∧ (ofString "D.16@")[1]? ≠ some 64) ∧
    ((∃ out, Snap (ofString "D.16@") 5 = .ok out) ∧
      (∀ s, Reach (ofString "D.16@") 5 s →
        s.pi ≤ s.oi ∧ s.oi ≤ s.ot.length ∧ s.ot.length = (ofString "D.16@").length) ∧
      (∀ k, 1 ≤ k → k ≤ 64 →
        (decimalNumeral (field 5 k)).length ≤ (if k > 16 then k / 3 else 4) + 1)) :=
  ⟨⟨by norm_num, by decide, by decide⟩,
    Snap_in_range (ofString "D.16@") 5 (by norm_num) (by decide) (by decide)⟩

theorem ploop_succ (pic : List Nat) (fuel : Nat) (s : St) :
    ploop pic (fuel + 1) s =
      if s.pi > 0 then (body pic s).bind fun r => if r.1 then ploop pic fuel r.2 else .ok r.2
      else .ok s := rfl

theorem ploop_step (pic : List Nat) (fuel : Nat) {s : St} (h : 0 < s.pi) :
    ploop pic (fuel + 1) s =
      (body pic s).bind fun r => if r.1 then ploop pic fuel r.2 else .ok r.2 := by
  rw [ploop_succ, if_pos h]

theorem ploop_done (pic : List Nat) (fuel : Nat) {s : St} (h : s.pi = 0) :
    ploop pic fuel s = .ok s := by
  cases fuel <;> simp [ploop, h]

theorem byte_and_mask (x n : Nat) (hn : n ≤ 8) : (x % 256) &&& (2 ^ n - 1) = x % 2 ^ n := by
  rw [Nat.and_pow_two_sub_one_eq_mod]
  exact Nat.mod_mod_of_dvd x (show 2 ^ n ∣ 2 ^ 8 from Nat.pow_dvd_pow 2 hn)

theorem and_one (x : Nat) : (x % 256) &&& 1 = x % 2 := byte_and_mask x 1 (by norm_num)

theorem and_three (x : Nat) : (x % 256) &&& 3 = x % 4 := byte_and_mask x 2 (by norm_num)

theorem and_seven (x : Nat) : (x % 256) &&& 7 = x % 8 := byte_and_mask x 3 (by norm_num)

theorem and_fifteen (x : Nat) : (x % 256) &&& 15 = x % 16 := byte_and_mask x 4 (by norm_num)

theorem and_thirtyone (x : Nat) : (x % 256) &&& 31 = x % 32 := byte_and_mask x 5 (by norm_num)

theorem and_onetwentyseven (x : Nat) : (x % 256) &&& 127 = x % 128 :=
  byte_and_mask x 7 (by norm_num)

theorem flush_mk {oi c : Nat} (p a f : Nat) (out : List Nat) (hc : c ≠ 0) (ho : 0 < oi) :
    flush (mk p oi a c f out) = .ok (mk p (oi - 1) a 0 f (c :: out)) := by
  unfold flush
  rw [mk_c, if_pos hc, put_mk _ _ _ _ _ _ ho]
  rfl

theorem flush_mk_zero (p oi a f : Nat) (out : List Nat) :
    flush (mk p oi a 0 f out) = .ok (mk p oi a 0 f out) := by
  unfold flush
  rw [mk_c, if_neg (by simp)]

theorem finish_mk {oi c : Nat} (p a f : Nat) (out : List Nat) (hc : c ≠ 0) (ho : 0 < oi) :
    finish (mk p oi a c f out) = .ok (true, mk p (oi - 1) a 0 f (c :: out)) := by
  unfold finish
  rw [flush_mk _ _ _ _ hc ho]
  rfl

theorem finish_mk_zero (p oi a f : Nat) (out : List Nat) :
    finish (mk p oi a 0 f out) = .ok (true, mk p oi a 0 f out) := by
  unfold finish
  rw [flush_mk_zero]
  rfl

theorem command_quote (pic : List Nat) (p oi a c f : Nat) (out : List Nat) :
    command pic (mk p oi a c f out) 39 = .ok (true, mk p oi 1 c f out) := by
  simp [command]

theorem command_qm (pic : List Nat) {oi : Nat} (p a f : Nat) (out : List Nat) (ho : 0 < oi) :
    command pic (mk p oi a 0 f out) 63 =
      .ok (true, mk p (oi - 1) 3 0 (f >>> 1) ((48 + f % 2) :: out)) := by
  simp only [command, and_one]
  simp [finish_mk _ _ _ _ _ ho]

theorem command_B (pic : List Nat) {oi : Nat} (p a f : Nat) (out : List Nat) (ho : 0 < oi) :
    command pic (mk p oi a 0 f out) 66 =
      .ok (true, mk p (oi - 1) a 0 (f >>> 1) ((48 + f % 2) :: out)) := by
  simp only [command, and_one]
  simp [finish_mk _ _ _ _ _ ho]

theorem command_E (pic : List Nat) {oi : Nat} (p a f : Nat) (out : List Nat) (ho : 0 < oi) :
    command pic (mk p oi a 0 f out) 69 =
      .ok (true, mk p (oi - 1) a 0 (f >>> 2) ((48 + f % 4) :: out)) := by
  simp only [command, and_three]
  simp [finish_mk _ _ _ _ _ ho]

theorem command_F (pic : List Nat) {oi : Nat} (p a f : Nat) (out : List Nat) (ho : 0 < oi) :
    command pic (mk p oi a 0 f out) 70 =
      .ok (true, mk p (oi - 1) a 0 (f >>> 3) ((48 + f % 8) :: out)) := by
  simp only [command, and_seven]
  simp [finish_mk _ _ _ _ _ ho]

theorem command_G (pic : List Nat) {oi : Nat} (p a f : Nat) (out : List Nat) (ho : 0 < oi) :
    command pic (mk p oi a 0 f out) 71 =
      .ok (true, mk p (oi - 1) a 0 (f >>> 5)
        ((if f % 32 < 26 then f % 32 + 97 else f % 32 + 24) :: out)) := by
  have hc : (if f % 32 < 26 then f % 32 + 97 else f % 32 + 24) ≠ 0 := by split <;> omega
  simp only [command, and_thirtyone]
  simp [finish_mk _ _ _ _ hc ho]

theorem command_A (pic : List Nat) {oi : Nat} (p a f : Nat) (out : List Nat) (ho : 0 < oi) :
    command pic (mk p oi a 0 f out) 65 =
      .ok (true, mk p (oi - 1) a 0 (f >>> 7)
        ((if f % 128 < 32 then 126 else f % 128) :: out)) := by
  have hc : (if f % 128 < 32 then 126 else f % 128) ≠ 0 := by split <;> omega
  simp only [command, and_onetwentyseven]
  simp [finish_mk _ _ _ _ hc ho]

theorem command_C (pic : List Nat) {oi : Nat} (p a f : Nat) (out : List Nat) (ho : 0 < oi) :
    command pic (mk p oi a 0 f out) 67 =
      .ok (true, mk p (oi - 1) a 0 (f >>> 8)
        ((if f % 256 < 32 then 126 else f % 256) :: out)) := by
  have hc : (if f % 256 < 32 then 126 else f % 256) ≠ 0 := by split <;> omega
  simp [command, finish_mk _ _ _ _ hc ho]

theorem command_eq (pic : List Nat) (p oi a f : Nat) (out : List Nat) :
    command pic (mk p oi a 0 f out) 61 = .ok (true, mk p oi (2 + f % 2) 0 (f >>> 1) out) := by
  simp only [command, and_one]
  simp [finish_mk_zero]

theorem command_gt (pic : List Nat) (p oi a f : Nat) (out : List Nat) :
    command pic (mk p oi a 0 f out) 62 = .ok (true, mk p oi (4 - f % 2) 0 (f >>> 1) out) := by
  simp only [command, and_one]
  simp [finish_mk_zero]

theorem command_lt (pic : List Nat) (p oi a f : Nat) (out : List Nat) :
    command pic (mk p oi a 0 f out) 60 = .ok (true, mk p oi (3 + f % 2) 0 (f >>> 1) out) := by
  simp only [command, and_one]
  simp [finish_mk_zero]

theorem command_lit (pic : List Nat) {oi w : Nat} (p a f : Nat) (out : List Nat)
    (hw : isCommand w = false) (h0 : w ≠ 0) (ho : 0 < oi) :
    command pic (mk p oi a 0 f out) w = .ok (true, mk p (oi - 1) a 0 f (w :: out)) := by
  simp only [isCommand, Bool.or_eq_false_iff, decide_eq_false_iff_not] at hw
  obtain ⟨⟨⟨⟨⟨⟨⟨⟨⟨⟨⟨⟨h1, h2⟩, h3⟩, h4⟩, h5⟩, h6⟩, h7⟩, h8⟩, h9⟩, h10⟩, h11⟩, h12⟩, h13⟩ := hw
  simp [command, h1, h2, h3, h4, h5, h6, h7, h8, h9, h10, h11, h12, h13, finish_mk _ _ _ _ h0 ho]

theorem command_at (pic : List Nat) (s : St) :
    command pic s 64 =
      (atCmd pic s).bind fun r => if r.1 then finish r.2 else .ok (false, r.2) := by
  simp [command]

theorem command_H (pic : List Nat) (s : St) :
    command pic s 72 = (shorth pic s.pi s).bind finish := by
  simp [command]

theorem ploop_mk (pic : List Nat) (fuel p oi a c f : Nat) (out : List Nat) :
    ploop pic (fuel + 1) (mk (p + 1) oi a c f out) =
      (body pic (mk (p + 1) oi a c f out)).bind fun r =>
        if r.1 then ploop pic fuel r.2 else .ok r.2 :=
  ploop_step pic fuel (Nat.succ_pos p)

theorem ploop_mk_zero (pic : List Nat) (fuel oi a c f : Nat) (out : List Nat) :
    ploop pic fuel (mk 0 oi a c f out) = .ok (mk 0 oi a c f out) :=
  ploop_done pic fuel rfl

theorem rd_eq {pic : List Nat} {i w : Nat} (h : pic[i]? = some w) : rd pic i = .ok w := by
  unfold rd
  rw [h]

theorem peekIs_noPrev {pic : List Nat} {p ch : Nat} (h : NoPrev pic p ch) :
    peekIs pic (decide (p > 0)) (p - 1) ch = .ok false := by
  unfold peekIs
  rcases h with h | ⟨h1, h2⟩
  · subst h; simp
  · by_cases hp : p > 0
    · obtain ⟨x, hx⟩ : ∃ x, pic[p - 1]? = some x := ⟨pic[p - 1], List.getElem?_eq_getElem h1⟩
      have : x ≠ ch := fun hx' => h2 (by rw [hx, hx'])
      simp [hp, rd_eq hx, this]
    · simp [hp]

theorem peekIs_eq {pic : List Nat} {i ch : Nat} (h : pic[i]? = some ch) :
    peekIs pic true i ch = .ok true := by
  simp [peekIs, rd_eq h]

theorem peekIs_ne {pic : List Nat} {i x ch : Nat} (g : Bool) (h : pic[i]? = some x)
    (hx : x ≠ ch) : peekIs pic g i ch = .ok false := by
  cases g <;> simp [peekIs, rd_eq h, hx]

theorem hexc_ne_zero (f : Nat) : hexc f ≠ 0 := by
  unfold hexc
  split <;> omega

theorem finish_mk_hexc {oi : Nat} (p a f g : Nat) (out : List Nat) (ho : 0 < oi) :
    finish (mk p oi a (hexc f) g out) = .ok (true, mk p (oi - 1) a 0 g (hexc f :: out)) :=
  finish_mk _ _ _ _ (hexc_ne_zero f) ho

theorem shorth_mk_more (pic : List Nat) (fuel : Nat) {p oi : Nat} (a c f : Nat)
    (out : List Nat) (hw : pic[p]? = some 72) (ho : 0 < oi) :
    shorth pic (fuel + 1) (mk (p + 1) oi a c f out) =
      shorth pic fuel (mk p (oi - 1) a (hexc f) (f >>> 4) (hexc f :: out)) := by
  rw [shorth]
  simp [peekIs_eq hw, put_mk _ _ _ _ _ _ ho]

theorem shorth_mk_stop (pic : List Nat) (fuel : Nat) {p : Nat} (oi a c f : Nat)
    (out : List Nat) (hw : NoPrev pic p 72) :
    shorth pic fuel (mk p oi a c f out) = .ok (mk p oi a (hexc f) (f >>> 4) out) := by
  cases fuel <;> simp [shorth, peekIs_noPrev hw]

theorem body_normal (pic : List Nat) {p w : Nat} (oi c f : Nat) (out : List Nat)
    (hw : pic[p]? = some w) (hne : NoPrev pic p 92) :
    body pic (mk (p + 1) oi 0 c f out) = command pic (mk p oi 0 c f out) w := by
  unfold body
  simp [rd_eq hw, peekIs_noPrev hne]

theorem ploop_of_body {pic : List Nat} {p oi a c f : Nat} {out : List Nat} {t : St} (fuel : Nat)
    (h : body pic (mk (p + 1) oi a c f out) = .ok (true, t)) :
    ploop pic (fuel + 1) (mk (p + 1) oi a c f out) = ploop pic fuel t := by
  rw [ploop_mk, h]
  rfl

theorem ploop_normal {pic : List Nat} {p oi c f w : Nat} {out : List Nat} {t : St} (fuel : Nat)
    (hw : pic[p]? = some w) (hne : NoPrev pic p 92)
    (hc : command pic (mk p oi 0 c f out) w = .ok (true, t)) :
    ploop pic (fuel + 1) (mk (p + 1) oi 0 c f out) = ploop pic fuel t :=
  ploop_of_body fuel (by rw [body_normal pic oi c f out hw hne, hc])

theorem decimalNumeral_byte_length (x : Nat) : (decimalNumeral (x % 256)).length ≤ 3 :=
  decimalNumeral_length_le (m := 2) (by omega)

theorem dottedQuad_length (f : Nat) : (dottedQuad f).length ≤ 15 := by
  have h0 := decimalNumeral_byte_length f
  have h1 := decimalNumeral_byte_length (f >>> 8)
  have h2 := decimalNumeral_byte_length (f >>> 16)
  have h3 := decimalNumeral_byte_length (f >>> 24)
  simp only [dottedQuad, List.length_append, List.length_cons]
  omega

theorem ipv4_succ_mk (n p oi a c f : Nat) (out : List Nat) :
    ipv4 (n + 1) (mk p oi a c f out) =
      (decimal8 3 (f % 256) (mk p oi a c (f >>> 8) out)).bind fun s1 =>
        (if n > 0 then put s1 46 else .ok s1).bind (ipv4 n) := rfl

theorem ipv4_mk {oi : Nat} (p a c f : Nat) (out : List Nat) (ho : (dottedQuad f).length ≤ oi) :
    ipv4 4 (mk p oi a c f out) =
      .ok (mk p (oi - (dottedQuad f).length) a c (f >>> 32) (dottedQuad f ++ out)) := by
  have h0 := decimalNumeral_length_pos (f % 256)
  have h1 := decimalNumeral_length_pos (f >>> 8 % 256)
  have h2 := decimalNumeral_length_pos (f >>> 16 % 256)
  have h3 := decimalNumeral_length_pos (f >>> 24 % 256)
  have e1 : f >>> 8 >>> 8 = f >>> 16 := by rw [← Nat.shiftRight_add]
  have e2 : f >>> 16 >>> 8 = f >>> 24 := by rw [← Nat.shiftRight_add]
  have e3 : f >>> 24 >>> 8 = f >>> 32 := by rw [← Nat.shiftRight_add]
  simp only [dottedQuad, List.length_append, List.length_cons] at ho
  have b0 : f % 256 < 10 ^ (3 + 1) := by omega
  have b1 : f >>> 8 % 256 < 10 ^ (3 + 1) := by omega
  have b2 : f >>> 16 % 256 < 10 ^ (3 + 1) := by omega
  have b3 : f >>> 24 % 256 < 10 ^ (3 + 1) := by omega
  rw [ipv4_succ_mk, decimal8_mk 3 _ _ _ _ _ b0 (by omega)]
  simp only [Res.bind_ok, Nat.reduceGT, if_true]
  rw [put_mk _ _ _ _ _ _ (by omega)]
  simp only [Res.bind_ok]
  rw [ipv4_succ_mk, decimal8_mk 3 _ _ _ _ _ b1 (by omega)]
  simp only [Res.bind_ok, Nat.reduceGT, if_true]
  rw [put_mk _ _ _ _ _ _ (by omega)]
  simp only [Res.bind_ok]
  rw [ipv4_succ_mk, e1, decimal8_mk 3 _ _ _ _ _ b2 (by omega)]
  simp only [Res.bind_ok, Nat.reduceGT, if_true]
  rw [put_mk _ _ _ _ _ _ (by omega)]
  simp only [Res.bind_ok]
  rw [ipv4_succ_mk, e2, decimal8_mk 3 _ _ _ _ _ b3 (by omega)]
  simp only [Res.bind_ok, Nat.lt_irrefl, gt_iff_lt, if_false, ipv4, e3]
  simp only [dottedQuad, List.length_append, List.length_cons, List.append_assoc,
    List.cons_append]
  congr 2
  omega

theorem atCmd_unfold (pic : List Nat) {p a b : Nat} (oi m c f : Nat) (out : List Nat)
    (h2 : 2 ≤ p) (ha : pic[p - 2]? = some a) (hb : pic[p - 1]? = some b)
    (hk1 : 1 ≤ bitcount a b) (hk2 : bitcount a b ≤ 64) :
    atCmd pic (mk p oi m c f out) =
      (peekIs pic (decide (p > 2)) (p - 3) 33).bind fun skip =>
      if skip then .ok (true, mk (p - 3) oi m c (f >>> bitcount a b) out)
      else
        (peekIs pic (decide (p > (if bitcount a b > 16 then bitcount a b / 3 else 4) - 1))
          (p - (if bitcount a b > 16 then bitcount a b / 3 else 4)) 68).bind fun dec =>
        if dec then
          (decimal64 20 (field f (bitcount a b))
            (mk (p - (if bitcount a b > 16 then bitcount a b / 3 else 4)) oi m c
              (f >>> bitcount a b) out)).bind fun s1 => .ok (true, s1)
        else
          (peekIs pic (decide (p > 13)) (p - 14) 73).bind fun ip =>
          if ip then (ipv4 4 (mk (p - 14) oi m c f out)).bind fun s1 => .ok (true, s1)
          else (picerr 7 (mk p oi m c f out)).bind fun s1 => .ok (false, s1) := by
  unfold atCmd
  rw [mk_pi, if_neg (by omega), rd_eq ha, Res.bind_ok, rd_eq hb, Res.bind_ok]
  simp only [mk_pi, mk_frm]
  rw [if_neg (by omega)]
  rfl

theorem atCmd_dec (pic : List Nat) {p a b oi f : Nat} (m c : Nat) (out : List Nat)
    (h2 : 2 ≤ p) (ha : pic[p - 2]? = some a) (hb : pic[p - 1]? = some b)
    (hk1 : 1 ≤ bitcount a b) (hk2 : bitcount a b ≤ 64)
    (hskip : peekIs pic (decide (p > 2)) (p - 3) 33 = .ok false)
    (hdec : peekIs pic (decide (p > (if bitcount a b > 16 then bitcount a b / 3 else 4) - 1))
      (p - (if bitcount a b > 16 then bitcount a b / 3 else 4)) 68 = .ok true)
    (hf : f < 2 ^ 64) (ho : (decimalNumeral (f % 2 ^ bitcount a b)).length ≤ oi) :
    atCmd pic (mk p oi m c f out) =
      .ok (true, mk (p - (if bitcount a b > 16 then bitcount a b / 3 else 4))
        (oi - (decimalNumeral (f % 2 ^ bitcount a b)).length) m c (f >>> bitcount a b)
        (decimalNumeral (f % 2 ^ bitcount a b) ++ out)) := by
  have hlt : f % 2 ^ bitcount a b < 10 ^ (20 + 1) := by
    have : f % 2 ^ bitcount a b ≤ f := Nat.mod_le _ _
    norm_num at hf ⊢
    omega
  rw [atCmd_unfold pic oi m c f out h2 ha hb hk1 hk2, hskip, Res.bind_ok]
  simp only [Bool.false_eq_true, if_false]
  rw [hdec, Res.bind_ok]
  simp only [if_true]
  rw [field_eq hf hk2, decimal64_mk 20 _ _ _ _ _ hlt ho]
  rfl

theorem atCmd_ip (pic : List Nat) {p a b oi : Nat} (m c f : Nat) (out : List Nat)
    (h2 : 2 ≤ p) (ha : pic[p - 2]? = some a) (hb : pic[p - 1]? = some b)
    (hk1 : 1 ≤ bitcount a b) (hk2 : bitcount a b ≤ 64)
    (hskip : peekIs pic (decide (p > 2)) (p - 3) 33 = .ok false)
    (hdec : peekIs pic (decide (p > (if bitcount a b > 16 then bitcount a b / 3 else 4) - 1))
      (p - (if bitcount a b > 16 then bitcount a b / 3 else 4)) 68 = .ok false)
    (hip : peekIs pic (decide (p > 13)) (p - 14) 73 = .ok true)
    (ho : (dottedQuad f).length ≤ oi) :
    atCmd pic (mk p oi m c f out) =
      .ok (true, mk (p - 14) (oi - (dottedQuad f).length) m c (f >>> 32)
        (dottedQuad f ++ out)) := by
  rw [atCmd_unfold pic oi m c f out h2 ha hb hk1 hk2, hskip, Res.bind_ok]
  simp only [Bool.false_eq_true, if_false]
  rw [hdec, Res.bind_ok]
  simp only [Bool.false_eq_true, if_false]
  rw [hip, Res.bind_ok]
  simp only [if_true]
  rw [ipv4_mk _ _ _ _ _ ho]
  rfl

theorem atCmd_skip (pic : List Nat) {p a b : Nat} (oi m c f : Nat) (out : List Nat)
    (h2 : 2 ≤ p) (ha : pic[p - 2]? = some a) (hb : pic[p - 1]? = some b)
    (hk1 : 1 ≤ bitcount a b) (hk2 : bitcount a b ≤ 64)
    (hskip : peekIs pic (decide (p > 2)) (p - 3) 33 = .ok true) :
    atCmd pic (mk p oi m c f out) = .ok (true, mk (p - 3) oi m c (f >>> bitcount a b) out) := by
  rw [atCmd_unfold pic oi m c f out h2 ha hb hk1 hk2, hskip, Res.bind_ok]
  simp only [if_true]

theorem command_at_ok {pic : List Nat} {s t : St} (h : atCmd pic s = .ok (true, t)) :
    command pic s 64 = finish t := by
  rw [command_at, h]
  rfl

theorem fieldRun_length (wd : Nat) (g : Nat → Nat) (n f : Nat) :
    (fieldRun wd g n f).length = n := by
  induction n generalizing f with
  | zero => rfl
  | succ k ih => simp [fieldRun, ih]

theorem fieldRun_get (wd : Nat) (g : Nat → Nat) (n f i : Nat) (hi : i < n) :
    (fieldRun wd g n f)[n - 1 - i]? = some (g (f >>> (wd * i))) := by
  induction n generalizing f i with
  | zero => omega
  | succ k ih =>
    rw [fieldRun]
    rcases Nat.eq_zero_or_pos i with h0 | hpos
    · subst h0
      rw [List.getElem?_append_right (by simp [fieldRun_length])]
      simp [fieldRun_length]
    · obtain ⟨j, rfl⟩ : ∃ j, i = j + 1 := ⟨i - 1, by omega⟩
      rw [List.getElem?_append_left (by simp [fieldRun_length]; omega)]
      have := ih (f >>> wd) j (by omega)
      have e : k + 1 - 1 - (j + 1) = k - 1 - j := by omega
      rw [e, this, ← Nat.shiftRight_add]
      congr 3
      ring

theorem body_quote {pic : List Nat} {p a : Nat} (oi c f : Nat) (out : List Nat)
    (hw : pic[p]? = some 39) (hne : NoPrev pic p 92) (ha : a ≠ 0) :
    body pic (mk (p + 1) oi a c f out) = .ok (true, mk p oi 0 c f out) := by
  unfold body
  simp [rd_eq hw, peekIs_noPrev hne, ha]

theorem body_quoted {pic : List Nat} {p oi w : Nat} (c f : Nat) (out : List Nat)
    (hw : pic[p]? = some w) (hne : NoPrev pic p 92) (hq : w ≠ 39) (ho : 0 < oi) :
    body pic (mk (p + 1) oi 1 c f out) = .ok (true, mk p (oi - 1) 1 c f (w :: out)) := by
  unfold body
  simp [rd_eq hw, peekIs_noPrev hne, hq, put_mk _ _ _ _ _ _ ho]

theorem body_label {pic : List Nat} {p w : Nat} (oi c f : Nat) (out : List Nat)
    (hw : pic[p]? = some w) (hne : NoPrev pic p 92) (hq : w ≠ 39) :
    body pic (mk (p + 1) oi 3 c f out) = emitLabel pic (mk p oi 3 c f out) w := by
  unfold body
  simp [rd_eq hw, peekIs_noPrev hne, hq]

theorem emitLabel_emit (pic : List Nat) {oi w : Nat} (p a c f : Nat) (out : List Nat)
    (h : w ||| 3 ≠ 63) (ho : 0 < oi) :
    emitLabel pic (mk p oi a c f out) w = .ok (true, mk p (oi - 1) a c f (w :: out)) := by
  unfold emitLabel
  rw [if_neg h, put_mk _ _ _ _ _ _ ho]
  rfl

theorem emitLabel_cmd (pic : List Nat) {w : Nat} (p oi a c f : Nat) (out : List Nat)
    (h : w ||| 3 = 63) :
    emitLabel pic (mk p oi a c f out) w = command pic (mk p oi 0 c f out) w := by
  unfold emitLabel
  rw [if_pos h]
  rfl

theorem ploop_lit {fuel oi f : Nat} {out : List Nat} (pic : List Nat) (p w : Nat)
    (hw : pic[p]? = some w) (hne : NoPrev pic p 92) (hcmd : isCommand w = false) (h0 : w ≠ 0)
    (ho : 0 < oi) :
    ploop pic (fuel + 1) (mk (p + 1) oi 0 0 f out) =
      ploop pic fuel (mk p (oi - 1) 0 0 f (w :: out)) :=
  ploop_normal fuel hw hne (command_lit pic p 0 f out hcmd h0 ho)

theorem ploop_B {fuel oi f : Nat} {out : List Nat} (pic : List Nat) (p : Nat)
    (hw : pic[p]? = some 66) (hne : NoPrev pic p 92) (ho : 0 < oi) :
    ploop pic (fuel + 1) (mk (p + 1) oi 0 0 f out) =
      ploop pic fuel (mk p (oi - 1) 0 0 (f >>> 1) ((48 + f % 2) :: out)) :=
  ploop_normal fuel hw hne (command_B pic p 0 f out ho)

theorem ploop_E {fuel oi f : Nat} {out : List Nat} (pic : List Nat) (p : Nat)
    (hw : pic[p]? = some 69) (hne : NoPrev pic p 92) (ho : 0 < oi) :
    ploop pic (fuel + 1) (mk (p + 1) oi 0 0 f out) =
      ploop pic fuel (mk p (oi - 1) 0 0 (f >>> 2) ((48 + f % 4) :: out)) :=
  ploop_normal fuel hw hne (command_E pic p 0 f out ho)

theorem ploop_F {fuel oi f : Nat} {out : List Nat} (pic : List Nat) (p : Nat)
    (hw : pic[p]? = some 70) (hne : NoPrev pic p 92) (ho : 0 < oi) :
    ploop pic (fuel + 1) (mk (p + 1) oi 0 0 f out) =
      ploop pic fuel (mk p (oi - 1) 0 0 (f >>> 3) ((48 + f % 8) :: out)) :=
  ploop_normal fuel hw hne (command_F pic p 0 f out ho)

theorem ploop_G {fuel oi f : Nat} {out : List Nat} (pic : List Nat) (p : Nat)
    (hw : pic[p]? = some 71) (hne : NoPrev pic p 92) (ho : 0 < oi) :
    ploop pic (fuel + 1) (mk (p + 1) oi 0 0 f out) =
      ploop pic fuel (mk p (oi - 1) 0 0 (f >>> 5)
        ((if f % 32 < 26 then f % 32 + 97 else f % 32 + 24) :: out)) :=
  ploop_normal fuel hw hne (command_G pic p 0 f out ho)

theorem ploop_A {fuel oi f : Nat} {out : List Nat} (pic : List Nat) (p : Nat)
    (hw : pic[p]? = some 65) (hne : NoPrev pic p 92) (ho : 0 < oi) :
    ploop pic (fuel + 1) (mk (p + 1) oi 0 0 f out) =
      ploop pic fuel (mk p (oi - 1) 0 0 (f >>> 7)
        ((if f % 128 < 32 then 126 else f % 128) :: out)) :=
  ploop_normal fuel hw hne (command_A pic p 0 f out ho)

theorem ploop_C {fuel oi f : Nat} {out : List Nat} (pic : List Nat) (p : Nat)
    (hw : pic[p]? = some 67) (hne : NoPrev pic p 92) (ho : 0 < oi) :
    ploop pic (fuel + 1) (mk (p + 1) oi 0 0 f out) =
      ploop pic fuel (mk p (oi - 1) 0 0 (f >>> 8)
        ((if f % 256 < 32 then 126 else f % 256) :: out)) :=
  ploop_normal fuel hw hne (command_C pic p 0 f out ho)

theorem ploop_qm {fuel oi f : Nat} {out : List Nat} (pic : List Nat) (p : Nat)
    (hw : pic[p]? = some 63) (hne : NoPrev pic p 92) (ho : 0 < oi) :
    ploop pic (fuel + 1) (mk (p + 1) oi 0 0 f out) =
      ploop pic fuel (mk p (oi - 1) 3 0 (f >>> 1) ((48 + f % 2) :: out)) :=
  ploop_normal fuel hw hne (command_qm pic p 0 f out ho)

theorem ploop_quoteOpen {fuel oi c f : Nat} {out : List Nat} (pic : List Nat) (p : Nat)
    (hw : pic[p]? = some 39) (hne : NoPrev pic p 92) :
    ploop pic (fuel + 1) (mk (p + 1) oi 0 c f out) = ploop pic fuel (mk p oi 1 c f out) :=
  ploop_normal fuel hw hne (command_quote pic p oi 0 c f out)

theorem ploop_quoteClose {fuel oi a c f : Nat} {out : List Nat} (pic : List Nat) (p : Nat)
    (hw : pic[p]? = some 39) (hne : NoPrev pic p 92) (ha : a ≠ 0) :
    ploop pic (fuel + 1) (mk (p + 1) oi a c f out) = ploop pic fuel (mk p oi 0 c f out) :=
  ploop_of_body fuel (body_quote oi c f out hw hne ha)

theorem ploop_quoted {fuel oi c f : Nat} {out : List Nat} (pic : List Nat) (p w : Nat)
    (hw : pic[p]? = some w) (hne : NoPrev pic p 92) (hq : w ≠ 39) (ho : 0 < oi) :
    ploop pic (fuel + 1) (mk (p + 1) oi 1 c f out) =
      ploop pic fuel (mk p (oi - 1) 1 c f (w :: out)) :=
  ploop_of_body fuel (body_quoted c f out hw hne hq ho)

theorem ploop_label {fuel oi c f : Nat} {out : List Nat} (pic : List Nat) (p w : Nat)
    (hw : pic[p]? = some w) (hne : NoPrev pic p 92) (hq : w ≠ 39) (h3 : w ||| 3 ≠ 63)
    (ho : 0 < oi) :
    ploop pic (fuel + 1) (mk (p + 1) oi 3 c f out) =
      ploop pic fuel (mk p (oi - 1) 3 c f (w :: out)) :=
  ploop_of_body fuel (by rw [body_label oi c f out hw hne hq, emitLabel_emit pic p 3 c f out h3 ho])

theorem ploop_label_qm {fuel oi f : Nat} {out : List Nat} (pic : List Nat) (p : Nat)
    (hw : pic[p]? = some 63) (hne : NoPrev pic p 92) (ho : 0 < oi) :
    ploop pic (fuel + 1) (mk (p + 1) oi 3 0 f out) =
      ploop pic fuel (mk p (oi - 1) 3 0 (f >>> 1) ((48 + f % 2) :: out)) :=
  ploop_of_body fuel (by
    rw [body_label oi 0 f out hw hne (by decide), emitLabel_cmd pic p oi 3 0 f out (by decide),
      command_qm pic p 0 f out ho])

theorem fieldRun_succ_front (wd : Nat) (g : Nat → Nat) (n f : Nat) :
    fieldRun wd g (n + 1) f = g (f >>> (wd * n)) :: fieldRun wd g n f := by
  induction n generalizing f with
  | zero => simp [fieldRun]
  | succ k ih =>
    rw [fieldRun, ih (f >>> wd), fieldRun, ← Nat.shiftRight_add]
    have : wd + wd * k = wd * (k + 1) := by ring
    rw [this]
    rfl

theorem shorth_run (pic : List Nat) (n : Nat) :
    ∀ (fuel p oi a c f : Nat) (out : List Nat),
      (∀ i, i < n → pic[p - 1 - i]? = some 72) → n ≤ p → NoPrev pic (p - n) 72 → n ≤ fuel →
      n ≤ oi →
      shorth pic fuel (mk p oi a c f out) =
        .ok (mk (p - n) (oi - n) a (hexc (f >>> (4 * n))) (f >>> (4 * (n + 1)))
          (fieldRun 4 hexc n f ++ out)) := by
  induction n with
  | zero =>
    intro fuel p oi a c f out _ _ hstop _ _
    rw [Nat.sub_zero] at hstop
    rw [shorth_mk_stop pic fuel oi a c f out hstop]
    rfl
  | succ k ih =>
    intro fuel p oi a c f out hrun hp hstop hfuel ho
    obtain ⟨p', rfl⟩ : ∃ p', p = p' + 1 := ⟨p - 1, by omega⟩
    obtain ⟨fuel', rfl⟩ : ∃ fuel', fuel = fuel' + 1 := ⟨fuel - 1, by omega⟩
    have h0 : pic[p']? = some 72 := by simpa using hrun 0 (by omega)
    rw [shorth_mk_more pic fuel' a c f out h0 (by omega)]
    have hrun' : ∀ i, i < k → pic[p' - 1 - i]? = some 72 := by
      intro i hi
      have := hrun (i + 1) (by omega)
      have e : p' + 1 - 1 - (i + 1) = p' - 1 - i := by omega
      rwa [e] at this
    have hstop' : NoPrev pic (p' - k) 72 := by
      have e : p' + 1 - (k + 1) = p' - k := by omega
      rwa [e] at hstop
    rw [ih fuel' p' (oi - 1) a (hexc f) (f >>> 4) (hexc f :: out) hrun' (by omega) hstop'
      (by omega) (by omega)]
    have e1 : p' + 1 - (k + 1) = p' - k := by omega
    have e2 : oi - 1 - k = oi - (k + 1) := by omega
    have e3 : f >>> 4 >>> (4 * k) = f >>> (4 * (k + 1)) := by
      rw [← Nat.shiftRight_add]; congr 1; ring
    have e4 : f >>> 4 >>> (4 * (k + 1)) = f >>> (4 * (k + 1 + 1)) := by
      rw [← Nat.shiftRight_add]; congr 1; ring
    rw [e1, e2, e3, e4, fieldRun]
    simp

theorem ploop_H {fuel oi f : Nat} {out : List Nat} (pic : List Nat) (p n : Nat)
    (hw : pic[p]? = some 72) (hne : NoPrev pic p 92)
    (hrun : ∀ i, i < n → pic[p - 1 - i]? = some 72) (hp : n ≤ p)
    (hstop : NoPrev pic (p - n) 72) (ho : n + 1 ≤ oi) :
    ploop pic (fuel + 1) (mk (p + 1) oi 0 0 f out) =
      ploop pic fuel (mk (p - n) (oi - (n + 1)) 0 0 (f >>> (4 * (n + 1)))
        (fieldRun 4 hexc (n + 1) f ++ out)) := by
  refine ploop_normal fuel hw hne ?_
  rw [command_H, mk_pi, shorth_run pic n p p oi 0 0 f out hrun hp hstop hp (by omega),
    Res.bind_ok, finish_mk_hexc _ _ _ _ _ (by omega), fieldRun_succ_front]
  have e : oi - n - 1 = oi - (n + 1) := by omega
  rw [e]
  rfl

theorem ploop_atD {fuel oi f : Nat} {out : List Nat} (pic : List Nat) (p a b : Nat)
    (hw : pic[p]? = some 64) (hne : NoPrev pic p 92)
    (h2 : 2 ≤ p) (ha : pic[p - 2]? = some a) (hb : pic[p - 1]? = some b)
    (hk1 : 1 ≤ bitcount a b) (hk2 : bitcount a b ≤ 64)
    (hskip : peekIs pic (decide (p > 2)) (p - 3) 33 = .ok false)
    (hdec : peekIs pic (decide (p > (if bitcount a b > 16 then bitcount a b / 3 else 4) - 1))
      (p - (if bitcount a b > 16 then bitcount a b / 3 else 4)) 68 = .ok true)
    (hf : f < 2 ^ 64) (ho : (decimalNumeral (f % 2 ^ bitcount a b)).length ≤ oi) :
    ploop pic (fuel + 1) (mk (p + 1) oi 0 0 f out) =
      ploop pic fuel (mk (p - (if bitcount a b > 16 then bitcount a b / 3 else 4))
        (oi - (decimalNumeral (f % 2 ^ bitcount a b)).length) 0 0 (f >>> bitcount a b)
        (decimalNumeral (f % 2 ^ bitcount a b) ++ out)) := by
  refine ploop_normal fuel hw hne ?_
  rw [command_at_ok (atCmd_dec pic 0 0 out h2 ha hb hk1 hk2 hskip hdec hf ho), finish_mk_zero]

theorem ploop_atI {fuel oi f : Nat} {out : List Nat} (pic : List Nat) (p a b : Nat)
    (hw : pic[p]? = some 64) (hne : NoPrev pic p 92)
    (h2 : 2 ≤ p) (ha : pic[p - 2]? = some a) (hb : pic[p - 1]? = some b)
    (hk1 : 1 ≤ bitcount a b) (hk2 : bitcount a b ≤ 64)
    (hskip : peekIs pic (decide (p > 2)) (p - 3) 33 = .ok false)
    (hdec : peekIs pic (decide (p > (if bitcount a b > 16 then bitcount a b / 3 else 4) - 1))
      (p - (if bitcount a b > 16 then bitcount a b / 3 else 4)) 68 = .ok false)
    (hip : peekIs pic (decide (p > 13)) (p - 14) 73 = .ok true)
    (ho : (dottedQuad f).length ≤ oi) :
    ploop pic (fuel + 1) (mk (p + 1) oi 0 0 f out) =
      ploop pic fuel (mk (p - 14) (oi - (dottedQuad f).length) 0 0 (f >>> 32)
        (dottedQuad f ++ out)) := by
  refine ploop_normal fuel hw hne ?_
  rw [command_at_ok (atCmd_ip pic 0 0 f out h2 ha hb hk1 hk2 hskip hdec hip ho), finish_mk_zero]

theorem ploop_run (pic : List Nat) (wd : Nat) (g : Nat → Nat) (n : Nat)
    (hstep : ∀ (fuel p oi f : Nat) (out : List Nat), p < n → 0 < oi →
      ploop pic (fuel + 1) (mk (p + 1) oi 0 0 f out) =
        ploop pic fuel (mk p (oi - 1) 0 0 (f >>> wd) (g f :: out))) :
    ∀ (m fuel oi f : Nat) (out : List Nat), m ≤ n → m ≤ fuel → m ≤ oi →
      ploop pic fuel (mk m oi 0 0 f out) =
        .ok (mk 0 (oi - m) 0 0 (f >>> (wd * m)) (fieldRun wd g m f ++ out)) := by
  intro m
  induction m with
  | zero =>
    intro fuel oi f out _ _ _
    rw [ploop_mk_zero]
    rfl
  | succ k ih =>
    intro fuel oi f out hm hfuel ho
    obtain ⟨fuel', rfl⟩ : ∃ fuel', fuel = fuel' + 1 := ⟨fuel - 1, by omega⟩
    rw [hstep fuel' k oi f out (by omega) (by omega),
      ih fuel' (oi - 1) (f >>> wd) (g f :: out) (by omega) (by omega) (by omega)]
    have e1 : oi - 1 - k = oi - (k + 1) := by omega
    have e2 : f >>> wd >>> (wd * k) = f >>> (wd * (k + 1)) := by
      rw [← Nat.shiftRight_add]; congr 1; ring
    rw [e1, e2, fieldRun]
    simp

theorem Snap_of_ploop (pic : List Nat) (v : Nat) {p oi a c f : Nat} {out : List Nat}
    (h : ploop pic pic.length (mk pic.length pic.length 0 0 v []) = .ok (mk p oi a c f out)) :
    Snap pic v = .ok out := by
  unfold Snap
  rw [init_eq_mk, h, Res.bind_ok, result_mk]

theorem and_255 (x : Nat) : x &&& 255 = x % 256 := Nat.and_pow_two_sub_one_eq_mod x 8

/-- C6: `Snap("I##.###.###.32@", v)` is the dotted quad of the low 32 bits of `v`: the
octets `(v>>24)&255`, `(v>>16)&255`, `(v>>8)&255`, `v&255` in decimal without leading
zeros, separated by dots, the low octet last. -/
theorem Snap_ipv4 (v : Nat) :
    Snap (ofString "I##.###.###.32@") v =
      .ok (decimalNumeral ((v >>> 24) &&& 255) ++ ofString "." ++
        decimalNumeral ((v >>> 16) &&& 255) ++ ofString "." ++
        decimalNumeral ((v >>> 8) &&& 255) ++ ofString "." ++ decimalNumeral (v &&& 255)) := by
  have hlen : (ofString "I##.###.###.32@").length = 15 := by decide
  have hq := dottedQuad_length v
  have hrun : ploop (ofString "I##.###.###.32@") 15 (mk 15 15 0 0 v []) =
      .ok (mk 0 (15 - (dottedQuad v).length) 0 0 (v >>> 32) (dottedQuad v ++ [])) := by
    rw [ploop_atI (ofString "I##.###.###.32@") 14 51 50 (by decide) (by decide) (by decide)
      (by decide) (by decide) (by decide) (by decide) (by decide) (by decide) (by decide)
      (by omega), ploop_mk_zero]
  have h := Snap_of_ploop (ofString "I##.###.###.32@") v (by rw [hlen]; exact hrun)
  rw [h]
  simp only [and_255, dottedQuad, ofString, List.append_nil, List.append_assoc]
  rfl

/-- C10, counterexample: for the field value `26` the claimed byte is `'0'`, but
`Snap("G", 26)` is `"2"`. -/
theorem Snap_G_not_digit_zero :
    Snap (ofString "G") 26 = .ok (ofString "2") ∧
      Snap (ofString "G") 26 ≠ .ok [if 26 % 32 < 26 then 97 + 26 % 32 else 48 + (26 % 32 - 26)] := by
  constructor <;> decide

/-- C10, amended: with `g = v mod 32`, `Snap("G", v)` is the single byte `'a' + g` when
`g < 26` and `'2' + (g - 26)` when `g ≥ 26`; the alphabet is `a..z` followed by `2..7`. -/
theorem Snap_G (v : Nat) :
    Snap (ofString "G") v =
      .ok [if v % 32 < 26 then 97 + v % 32 else 50 + (v % 32 - 26)] := by
  have hrun : ploop (ofString "G") 1 (mk 1 1 0 0 v []) =
      .ok (mk 0 (1 - 1) 0 0 (v >>> 5) [if v % 32 < 26 then v % 32 + 97 else v % 32 + 24]) := by
    rw [ploop_G (ofString "G") 0 (by decide) (by decide) (by omega), ploop_mk_zero]
  have h := Snap_of_ploop (ofString "G") v hrun
  rw [h]
  congr 2
  split <;> omega

theorem replicate_get {n X i : Nat} (h : i < n) : (List.replicate n X)[i]? = some X := by
  rw [List.getElem?_replicate, if_pos h]

theorem replicate_noPrev {n X : Nat} (p ch : Nat) (hp : p ≤ n) (hX : X ≠ ch) :
    NoPrev (List.replicate n X) p ch := by
  rcases Nat.eq_zero_or_pos p with h | h
  · exact Or.inl h
  · refine Or.inr ⟨by simp; omega, ?_⟩
    rw [replicate_get (by omega)]
    simpa using hX

theorem Snap_of_run (n X wd v : Nat) (g : Nat → Nat)
    (hstep : ∀ (fuel p oi f : Nat) (out : List Nat), p < n → 0 < oi →
      ploop (List.replicate n X) (fuel + 1) (mk (p + 1) oi 0 0 f out) =
        ploop (List.replicate n X) fuel (mk p (oi - 1) 0 0 (f >>> wd) (g f :: out))) :
    Snap (List.replicate n X) v = .ok (fieldRun wd g n v) := by
  have h := ploop_run (List.replicate n X) wd g n hstep n n n v [] (le_refl _) (le_refl _)
    (le_refl _)
  rw [List.append_nil] at h
  exact Snap_of_ploop _ _ (by rw [List.length_replicate]; exact h)

theorem shiftRight_of_ge {v k : Nat} (hv : v < 2 ^ 64) (hk : 64 ≤ k) : v >>> k = 0 := by
  rw [Nat.shiftRight_eq_div_pow]
  exact Nat.div_eq_of_lt (lt_of_lt_of_le hv (Nat.pow_le_pow_right (by norm_num) hk))

theorem hexc_eq (f : Nat) : hexc f = hexDigit (f % 16) := by
  have key : ∀ x, x < 16 → (if x < 10 then x + 0x30 else x + 0x37) = hexDigit x := by decide
  unfold hexc
  rw [and_fifteen]
  exact key _ (Nat.mod_lt _ (by norm_num))

/-- C8: for `X` one of `B`, `E`, `F` with width `w = 1, 2, 3`, `Snap` of `n` copies of
`X` has length `n`, and its byte at index `n-1-i` is the digit `'0' + ((v >> (w*i)) mod 2^w)`,
the shifted value being `0` once `w*i ≥ 64`: the rightmost command consumes bit 0. -/
theorem Snap_digit_run (X w n v : Nat) (hX : (X, w) ∈ [(66, 1), (69, 2), (70, 3)])
    (hv : v < 2 ^ 64) :
    ∃ out, Snap (List.replicate n X) v = .ok out ∧ out.length = n ∧
      ∀ i, i < n →
        out[n - 1 - i]? = some (48 + (if w * i < 64 then (v >>> (w * i)) % 2 ^ w else 0)) := by
  have hfin : ∀ i, (v >>> (w * i)) % 2 ^ w =
      (if w * i < 64 then (v >>> (w * i)) % 2 ^ w else 0) := by
    intro i
    split
    · rfl
    · rw [shiftRight_of_ge hv (by omega)]
      exact Nat.zero_mod _
  simp only [List.mem_cons, Prod.mk.injEq, List.mem_singleton, List.not_mem_nil, or_false] at hX
  rcases hX with ⟨rfl, rfl⟩ | ⟨rfl, rfl⟩ | ⟨rfl, rfl⟩
  · have h := Snap_of_run n 66 1 v (fun f => 48 + f % 2)
      (fun fuel p oi f out hp ho =>
        ploop_B _ p (replicate_get hp) (replicate_noPrev p 92 (by omega) (by decide)) ho)
    refine ⟨_, h, fieldRun_length _ _ _ _, fun i hi => ?_⟩
    rw [fieldRun_get _ _ _ _ _ hi, ← hfin i]
    rfl
  · have h := Snap_of_run n 69 2 v (fun f => 48 + f % 4)
      (fun fuel p oi f out hp ho =>
        ploop_E _ p (replicate_get hp) (replicate_noPrev p 92 (by omega) (by decide)) ho)
    refine ⟨_, h, fieldRun_length _ _ _ _, fun i hi => ?_⟩
    rw [fieldRun_get _ _ _ _ _ hi, ← hfin i]
    rfl
  · have h := Snap_of_run n 70 3 v (fun f => 48 + f % 8)
      (fun fuel p oi f out hp ho =>
        ploop_F _ p (replicate_get hp) (replicate_noPrev p 92 (by omega) (by decide)) ho)
    refine ⟨_, h, fieldRun_length _ _ _ _, fun i hi => ?_⟩
    rw [fieldRun_get _ _ _ _ _ hi, ← hfin i]
    rfl

/-- Witness of `Snap_digit_run`: three `F` commands on the value `0xFAC688`. -/
theorem Snap_digit_run_witness :
    ((70, 3) ∈ [(66, 1), (69, 2), (70, 3)] ∧ 0xFAC688 < 2 ^ 64) ∧
    ∃ out, Snap (List.replicate 3 70) 0xFAC688 = .ok out ∧ out.length = 3 ∧
      ∀ i, i < 3 →
        out[3 - 1 - i]? =
          some (48 + (if 3 * i < 64 then (0xFAC688 >>> (3 * i)) % 2 ^ 3 else 0)) :=
  ⟨⟨by decide, by norm_num⟩, Snap_digit_run 70 3 3 0xFAC688 (by decide) (by norm_num)⟩

/-- C9: for `X` one of `A`, `C` with width `w = 7, 8`, `Snap` of `n` copies of `X` has
length `n`, and its byte at index `n-1-i` is `b = (v >> (w*i)) mod 2^w` when `b ≥ 32` and
`~` when `b < 32`; for `C` a value `≥ 128` is that single byte. -/
theorem Snap_char_run (X w n v : Nat) (hX : (X, w) ∈ [(65, 7), (67, 8)]) :
    ∃ out, Snap (List.replicate n X) v = .ok out ∧ out.length = n ∧
      ∀ i, i < n →
        out[n - 1 - i]? =
          some (if 32 ≤ (v >>> (w * i)) % 2 ^ w then (v >>> (w * i)) % 2 ^ w else 126) := by
  simp only [List.mem_cons, Prod.mk.injEq, List.mem_singleton, List.not_mem_nil, or_false] at hX
  rcases hX with ⟨rfl, rfl⟩ | ⟨rfl, rfl⟩
  · have h := Snap_of_run n 65 7 v
      (fun f => if f % 128 < 32 then 126 else f % 128)
      (fun fuel p oi f out hp ho =>
        ploop_A _ p (replicate_get hp) (replicate_noPrev p 92 (by omega) (by decide)) ho)
    refine ⟨_, h, fieldRun_length _ _ _ _, fun i hi => ?_⟩
    rw [fieldRun_get _ _ _ _ _ hi]
    simp only [Nat.reducePow]
    congr 1
    split <;> split <;> omega
  · have h := Snap_of_run n 67 8 v
      (fun f => if f % 256 < 32 then 126 else f % 256)
      (fun fuel p oi f out hp ho =>
        ploop_C _ p (replicate_get hp) (replicate_noPrev p 92 (by omega) (by decide)) ho)
    refine ⟨_, h, fieldRun_length _ _ _ _, fun i hi => ?_⟩
    rw [fieldRun_get _ _ _ _ _ hi]
    simp only [Nat.reducePow]
    congr 1
    split <;> split <;> omega

/-- Witness of `Snap_char_run`: eight `C` commands on the value `0x7D6142634465467B`. -/
theorem Snap_char_run_witness :
    (67, 8) ∈ [(65, 7), (67, 8)] ∧
    ∃ out, Snap (List.replicate 8 67) 0x7D6142634465467B = .ok out ∧ out.length = 8 ∧
      ∀ i, i < 8 →
        out[8 - 1 - i]? =
          some (if 32 ≤ (0x7D6142634465467B >>> (8 * i)) % 2 ^ 8
            then (0x7D6142634465467B >>> (8 * i)) % 2 ^ 8 else 126) :=
  ⟨by decide, Snap_char_run 67 8 8 0x7D6142634465467B (by decide)⟩

/-- C7: `Snap` of `n ≥ 1` bytes `H` has length `n`, and its byte at index `n-1-i` is the
uppercase hexadecimal digit of `(v >> 4i) mod 16`, taken as `0` when `4i ≥ 64`; sixteen
`H`s print `v` as sixteen uppercase hex digits. -/
theorem Snap_hex_run (n v : Nat) (hn : 1 ≤ n) (hv : v < 2 ^ 64) :
    ∃ out, Snap (List.replicate n 72) v = .ok out ∧ out.length = n ∧
      ∀ i, i < n →
        out[n - 1 - i]? = some (hexDigit (if 4 * i < 64 then (v >>> (4 * i)) % 16 else 0)) := by
  obtain ⟨m, rfl⟩ : ∃ m, n = m + 1 := ⟨n - 1, by omega⟩
  have hstop : NoPrev (List.replicate (m + 1) 72) (m - m) 72 := Or.inl (Nat.sub_self m)
  have hrun : ploop (List.replicate (m + 1) 72) (m + 1) (mk (m + 1) (m + 1) 0 0 v []) =
      .ok (mk (m - m) (m + 1 - (m + 1)) 0 0 (v >>> (4 * (m + 1)))
        (fieldRun 4 hexc (m + 1) v ++ [])) := by
    rw [ploop_H (List.replicate (m + 1) 72) m m (replicate_get (by omega))
      (replicate_noPrev m 92 (by omega) (by decide))
      (fun i hi => replicate_get (by omega)) (le_refl _) hstop (le_refl _)]
    exact ploop_done _ _ (by simp)
  have h := Snap_of_ploop (List.replicate (m + 1) 72) v
    (by rw [List.length_replicate]; exact hrun)
  rw [List.append_nil] at h
  refine ⟨_, h, fieldRun_length _ _ _ _, fun i hi => ?_⟩
  rw [fieldRun_get _ _ _ _ _ hi, hexc_eq]
  congr 2
  split
  · rfl
  · rw [shiftRight_of_ge hv (by omega)]

/-- Witness of `Snap_hex_run`: sixteen `H` commands on `0xFEDCBA9876543210`. -/
theorem Snap_hex_run_witness :
    (1 ≤ 16 ∧ 0xFEDCBA9876543210 < 2 ^ 64) ∧
    ∃ out, Snap (List.replicate 16 72) 0xFEDCBA9876543210 = .ok out ∧ out.length = 16 ∧
      ∀ i, i < 16 →
        out[16 - 1 - i]? =
          some (hexDigit (if 4 * i < 64 then (0xFEDCBA9876543210 >>> (4 * i)) % 16 else 0)) :=
  ⟨⟨by decide, by norm_num⟩, Snap_hex_run 16 0xFEDCBA9876543210 (by decide) (by norm_num)⟩

theorem dOffset_ge (k : Nat) : 4 ≤ dOffset k := by
  unfold dOffset
  split <;> omega

theorem decimalPic_length (k : Nat) : (decimalPic k).length = dOffset k + 1 := by
  have := dOffset_ge k
  simp [decimalPic]
  omega

theorem decimalPic_get_zero (k : Nat) : (decimalPic k)[0]? = some 68 := by
  simp [decimalPic]

theorem decimalPic_get_dot (k i : Nat) (h1 : 1 ≤ i) (h2 : i ≤ dOffset k - 3) :
    (decimalPic k)[i]? = some 46 := by
  obtain ⟨j, rfl⟩ : ∃ j, i = j + 1 := ⟨i - 1, by omega⟩
  unfold decimalPic
  rw [List.getElem?_cons_succ, List.getElem?_append_left (by simp; omega),
    List.getElem?_replicate, if_pos (by omega)]

theorem decimalPic_get_tail (k i : Nat) (hi : i < 3) :
    (decimalPic k)[dOffset k - 2 + i]? = [48 + k / 10, 48 + k % 10, 64][i]? := by
  have := dOffset_ge k
  obtain ⟨j, hj⟩ : ∃ j, dOffset k - 2 + i = j + 1 := ⟨dOffset k - 3 + i, by omega⟩
  unfold decimalPic
  rw [hj, List.getElem?_cons_succ, List.getElem?_append_right (by simp; omega)]
  congr 1
  simp
  omega

theorem bitcount_digits {k : Nat} (h : k ≤ 99) : bitcount (48 + k / 10) (48 + k % 10) = k := by
  unfold bitcount
  omega

/-- C5: for a bit count `2 ≤ k ≤ 64`, `Snap` of the template `D…dd@` built for `k` is
the decimal numeral of `v mod 2^k`, without leading zeros (`0` for the value 0). -/
theorem Snap_decimal (k v : Nat) (hk2 : 2 ≤ k) (hk64 : k ≤ 64) (hv : v < 2 ^ 64) :
    Snap (decimalPic k) v = .ok (decimalNumeral (v % 2 ^ k)) := by
  have hd := dOffset_ge k
  have hbc := bitcount_digits (k := k) (by omega)
  have hat : (decimalPic k)[dOffset k]? = some 64 := by
    have := decimalPic_get_tail k 2 (by omega)
    rwa [show dOffset k - 2 + 2 = dOffset k by omega] at this
  have hb : (decimalPic k)[dOffset k - 1]? = some (48 + k % 10) := by
    have := decimalPic_get_tail k 1 (by omega)
    rwa [show dOffset k - 2 + 1 = dOffset k - 1 by omega] at this
  have ha : (decimalPic k)[dOffset k - 2]? = some (48 + k / 10) := by
    simpa using decimalPic_get_tail k 0 (by omega)
  have hne : NoPrev (decimalPic k) (dOffset k) 92 := by
    refine Or.inr ⟨by rw [decimalPic_length]; omega, ?_⟩
    rw [hb]
    intro h
    have := Option.some.inj h
    omega
  have hskip : peekIs (decimalPic k) (decide (dOffset k > 2)) (dOffset k - 3) 33 = .ok false :=
    peekIs_ne _ (decimalPic_get_dot k (dOffset k - 3) (by omega) (le_refl _)) (by decide)
  have hdec : peekIs (decimalPic k)
      (decide (dOffset k > (if bitcount (48 + k / 10) (48 + k % 10) > 16
        then bitcount (48 + k / 10) (48 + k % 10) / 3 else 4) - 1))
      (dOffset k - (if bitcount (48 + k / 10) (48 + k % 10) > 16
        then bitcount (48 + k / 10) (48 + k % 10) / 3 else 4)) 68 = .ok true := by
    rw [hbc]
    change peekIs (decimalPic k) (decide (dOffset k > dOffset k - 1)) (dOffset k - dOffset k) 68
      = .ok true
    rw [Nat.sub_self, show decide (dOffset k > dOffset k - 1) = true from
      decide_eq_true (by omega)]
    exact peekIs_eq (decimalPic_get_zero k)
  have hlen : (decimalNumeral (v % 2 ^ k)).length ≤ dOffset k + 1 := by
    have hlt : v % 2 ^ k < 10 ^ (min (dOffset k) 19 + 1) :=
      lt_of_lt_of_le (Nat.mod_lt _ (by positivity)) (two_pow_le_ten_pow k (by omega) hk64)
    have := decimalNumeral_length_le hlt
    omega
  have hrun : ploop (decimalPic k) (dOffset k + 1) (mk (dOffset k + 1) (dOffset k + 1) 0 0 v [])
      = .ok (mk (dOffset k - dOffset k) (dOffset k + 1 - (decimalNumeral (v % 2 ^ k)).length)
        0 0 (v >>> k) (decimalNumeral (v % 2 ^ k) ++ [])) := by
    have step := @ploop_atD (dOffset k) (dOffset k + 1) v []
      (decimalPic k) (dOffset k) (48 + k / 10) (48 + k % 10) hat hne (by omega) ha hb
      (by omega) (by omega) hskip hdec hv (by rw [hbc]; exact hlen)
    rw [hbc] at step
    rw [step]
    exact ploop_done _ _ (by simp [dOffset])
  have h := Snap_of_ploop (decimalPic k) v
    (by rw [decimalPic_length]; exact hrun)
  rw [h, List.append_nil]

/-- Witness of `Snap_decimal`: the template `D.16@` (bit count 16) on the value `0xBAFAED`. -/
theorem Snap_decimal_witness :
    (2 ≤ 16 ∧ 16 ≤ 64 ∧ 0xBAFAED < 2 ^ 64 ∧ decimalPic 16 = ofString "D.16@") ∧
      Snap (decimalPic 16) 0xBAFAED = .ok (decimalNumeral (0xBAFAED % 2 ^ 16)) :=
  ⟨⟨by decide, by decide, by norm_num, by decide⟩,
    Snap_decimal 16 0xBAFAED (by decide) (by decide) (by norm_num)⟩

theorem hexDigit_lt_ten {d : Nat} (h : d < 10) : hexDigit d = 48 + d := by
  have key : ∀ x, x < 10 → hexDigit x = 48 + x := by decide
  exact key d h

theorem packetPic_eq :
    ofString "Type:'F 'Ext:? Ack:? Id:0xFHH from IPv4:Address32@:D.16@" = packetPic := by
  decide

set_option maxHeartbeats 1600000 in
theorem packet_run (v : Nat) (hv : v < 2 ^ 64) :
    (ploop packetPic 56 (mk 56 56 0 0 v [])).bind result =
      .ok ([84, 121, 112, 101, 58, 48 + v >>> 61 % 8, 32, 69, 120, 116, 58, 48 + v >>> 60 % 2,
        32, 65, 99, 107, 58, 48 + v >>> 59 % 2, 32, 73, 100, 58, 48, 120, 48 + v >>> 56 % 8,
        hexDigit (v >>> 52 % 16), hexDigit (v >>> 48 % 16), 32, 102, 114, 111, 109, 32] ++
        (dottedQuad (v >>> 16) ++ 58 :: decimalNumeral (v % 2 ^ 16))) := by
  have hbD : bitcount 49 54 = 16 := by decide
  have hl := decimalNumeral_length_le (v := v % 2 ^ 16) (m := 4) (by omega)
  have hq := dottedQuad_length (v >>> 16)
  rw [ploop_atD packetPic 55 49 54 (by decide) (by decide) (by decide) (by decide) (by decide) (by decide) (by decide) (by decide) (by decide) hv]
  on_goal 2 => (rw [hbD]; omega)
  simp only [hbD, gt_iff_lt, Nat.lt_irrefl, Nat.reduceLT, ↓reduceIte, Nat.reduceSub, Nat.reduceDiv]
  rw [ploop_lit packetPic 50 58 (by decide) (by decide) (by decide) (by decide)]
  on_goal 2 => omega
  rw [ploop_atI packetPic 49 51 50 (by decide) (by decide) (by decide) (by decide) (by decide) (by decide) (by decide) (by decide) (by decide) (by decide)]
  on_goal 2 => omega
  simp only [Nat.reduceSub]
  rw [ploop_lit packetPic 34 32 (by decide) (by decide) (by decide) (by decide)]
  on_goal 2 => omega
  rw [ploop_lit packetPic 33 109 (by decide) (by decide) (by decide) (by decide)]
  on_goal 2 => omega
  rw [ploop_lit packetPic 32 111 (by decide) (by decide) (by decide) (by decide)]
  on_goal 2 => omega
  rw [ploop_lit packetPic 31 114 (by decide) (by decide) (by decide) (by decide)]
  on_goal 2 => omega
  rw [ploop_lit packetPic 30 102 (by decide) (by decide) (by decide) (by decide)]
  on_goal 2 => omega
  rw [ploop_lit packetPic 29 32 (by decide) (by decide) (by decide) (by decide)]
  on_goal 2 => omega
  rw [ploop_H packetPic 28 1 (by decide) (by decide) (by decide) (by decide) (by decide)]
  on_goal 2 => omega
  simp only [Nat.reduceSub, Nat.reduceAdd, Nat.reduceMul]
  rw [ploop_F packetPic 26 (by decide) (by decide)]
  on_goal 2 => omega
  rw [ploop_lit packetPic 25 120 (by decide) (by decide) (by decide) (by decide)]
  on_goal 2 => omega
  rw [ploop_lit packetPic 24 48 (by decide) (by decide) (by decide) (by decide)]
  on_goal 2 => omega
  rw [ploop_lit packetPic 23 58 (by decide) (by decide) (by decide) (by decide)]
  on_goal 2 => omega
  rw [ploop_lit packetPic 22 100 (by decide) (by decide) (by decide) (by decide)]
  on_goal 2 => omega
  rw [ploop_lit packetPic 21 73 (by decide) (by decide) (by decide) (by decide)]
  on_goal 2 => omega
  rw [ploop_lit packetPic 20 32 (by decide) (by decide) (by decide) (by decide)]
  on_goal 2 => omega
  rw [ploop_qm packetPic 19 (by decide) (by decide)]
  on_goal 2 => omega
  rw [ploop_label packetPic 18 58 (by decide) (by decide) (by decide) (by decide)]
  on_goal 2 => omega
  rw [ploop_label packetPic 17 107 (by decide) (by decide) (by decide) (by decide)]
  on_goal 2 => omega
  rw [ploop_label packetPic 16 99 (by decide) (by decide) (by decide) (by decide)]
  on_goal 2 => omega
  rw [ploop_label packetPic 15 65 (by decide) (by decide) (by decide) (by decide)]
  on_goal 2 => omega
  rw [ploop_label packetPic 14 32 (by decide) (by decide) (by decide) (by decide)]
  on_goal 2 => omega
  rw [ploop_label_qm packetPic 13 (by decide) (by decide)]
  on_goal 2 => omega
  rw [ploop_label packetPic 12 58 (by decide) (by decide) (by decide) (by decide)]
  on_goal 2 => omega
  rw [ploop_label packetPic 11 116 (by decide) (by decide) (by decide) (by decide)]
  on_goal 2 => omega
  rw [ploop_label packetPic 10 120 (by decide) (by decide) (by decide) (by decide)]
  on_goal 2 => omega
  rw [ploop_label packetPic 9 69 (by decide) (by decide) (by decide) (by decide)]
  on_goal 2 => omega
  rw [ploop_quoteClose packetPic 8 (by decide) (by decide) (by decide)]
  rw [ploop_lit packetPic 7 32 (by decide) (by decide) (by decide) (by decide)]
  on_goal 2 => omega
  rw [ploop_F packetPic 6 (by decide) (by decide)]
  on_goal 2 => omega
  rw [ploop_quoteOpen packetPic 5 (by decide) (by decide)]
  rw [ploop_quoted packetPic 4 58 (by decide) (by decide) (by decide)]
  on_goal 2 => omega
  rw [ploop_quoted packetPic 3 101 (by decide) (by decide) (by decide)]
  on_goal 2 => omega
  rw [ploop_quoted packetPic 2 112 (by decide) (by decide) (by decide)]
  on_goal 2 => omega
  rw [ploop_quoted packetPic 1 121 (by decide) (by decide) (by decide)]
  on_goal 2 => omega
  rw [ploop_quoted packetPic 0 84 (by decide) (by decide) (by decide)]
  on_goal 2 => omega
  rw [ploop_mk_zero, Res.bind_ok, result_mk]
  simp only [fieldRun, hexc_eq, ← Nat.shiftRight_add, Nat.reduceAdd,
    List.cons_append, List.nil_append, List.append_assoc, List.append_nil]

/-- C4: for every 64-bit `v`, `Snap` of the packet template prints the same text as the
shift-and-mask `Printf` call: type `v>>61`, flags `(v>>60)&1` and `(v>>59)&1`, the id
`(v>>48)&0x7FF` as three uppercase hex digits, the four octets of `(v>>16)` as a dotted
quad, and the port `v&0xFFFF`, numbers in decimal without leading zeros. -/
theorem Snap_packet (v : Nat) (hv : v < 2 ^ 64) :
    Snap (ofString "Type:'F 'Ext:? Ack:? Id:0xFHH from IPv4:Address32@:D.16@") v =
      .ok (printfRender v) := by
  have hv' : v < 18446744073709551616 := by simpa using hv
  have e61 : decimalNumeral (v >>> 61) = [48 + v >>> 61 % 8] := by
    have hb : v >>> 61 < 8 := by rw [Nat.shiftRight_eq_div_pow]; omega
    rw [decimalNumeral_lt_ten (by omega), Nat.mod_eq_of_lt hb]
  have e60 : decimalNumeral ((v >>> 60) &&& 1) = [48 + v >>> 60 % 2] := by
    rw [Nat.and_one_is_mod, decimalNumeral_lt_ten (by omega)]
  have e59 : decimalNumeral ((v >>> 59) &&& 1) = [48 + v >>> 59 % 2] := by
    rw [Nat.and_one_is_mod, decimalNumeral_lt_ten (by omega)]
  have ehex : hex3 ((v >>> 48) &&& 0x7FF) =
      [48 + v >>> 56 % 8, hexDigit (v >>> 52 % 16), hexDigit (v >>> 48 % 16)] := by
    have hm : (v >>> 48) &&& 0x7FF = v >>> 48 % 2048 := Nat.and_pow_two_sub_one_eq_mod _ 11
    have a1 : v >>> 48 % 2048 / 256 % 16 = v >>> 56 % 8 := by
      simp only [Nat.shiftRight_eq_div_pow]; omega
    have a2 : v >>> 48 % 2048 / 16 % 16 = v >>> 52 % 16 := by
      simp only [Nat.shiftRight_eq_div_pow]; omega
    have a3 : v >>> 48 % 2048 % 16 = v >>> 48 % 16 := by omega
    rw [hex3, hm, a1, a2, a3, hexDigit_lt_ten (by omega)]
  have e16 : v &&& 0xffff = v % 2 ^ 16 := Nat.and_pow_two_sub_one_eq_mod v 16
  have s1 : ofString "Type:" = [84, 121, 112, 101, 58] := by decide
  have s2 : ofString " Ext:" = [32, 69, 120, 116, 58] := by decide
  have s3 : ofString " Ack:" = [32, 65, 99, 107, 58] := by decide
  have s4 : ofString " Id:0x" = [32, 73, 100, 58, 48, 120] := by decide
  have s5 : ofString " from " = [32, 102, 114, 111, 109, 32] := by decide
  have s6 : ofString "." = [46] := by decide
  have s7 : ofString ":" = [58] := by decide
  rw [packetPic_eq]
  unfold Snap
  rw [init_eq_mk, show packetPic.length = 56 from by decide, packet_run v hv]
  refine congrArg Res.ok ?_
  rw [printfRender, e61, e60, e59, ehex, e16, s1, s2, s3, s4, s5, s6, s7]
  simp only [dottedQuad, and_255, ← Nat.shiftRight_add, Nat.reduceAdd,
    List.cons_append, List.nil_append, List.append_assoc, List.append_nil]

/-- Witness of `Snap_packet`: the packet `0xafdfdeadbeef4d0e` of the example. -/
theorem Snap_packet_witness :
    0xafdfdeadbeef4d0e < 2 ^ 64 ∧
      Snap (ofString "Type:'F 'Ext:? Ack:? Id:0xFHH from IPv4:Address32@:D.16@")
        0xafdfdeadbeef4d0e = .ok (printfRender 0xafdfdeadbeef4d0e) :=
  ⟨by norm_num, Snap_packet 0xafdfdeadbeef4d0e (by norm_num)⟩

theorem lor3_bounds {w : Nat} (h : w ||| 3 = 63) : 60 ≤ w ∧ w ≤ 63 := by
  have hlt : w < 2 ^ 6 := by
    apply Nat.lt_pow_two_of_testBit
    intro i hi
    have h1 : (w ||| 3).testBit i = false := by
      rw [h]
      exact Nat.testBit_eq_false_of_lt
        (lt_of_lt_of_le (by norm_num) (Nat.pow_le_pow_right (by norm_num) hi))
    rw [Nat.testBit_or] at h1
    exact (Bool.or_eq_false_iff.1 h1).1
  have key : ∀ x, x < 64 → x ||| 3 = 63 → 60 ≤ x ∧ x ≤ 63 := by decide
  exact key w (by simpa using hlt) h

theorem PlainByte.lor3 {w : Nat} (h : PlainByte w) : w ||| 3 ≠ 63 := by
  intro h3
  obtain ⟨-, -, h61, h60, h62, h63⟩ := h
  have := lor3_bounds h3
  omega

theorem fold_lor3 {w : Nat} (h1 : 63 < w) (h2 : w < 91) : (w ||| 0x20) ||| 3 ≠ 63 := by
  have key : ∀ x, x < 91 → 63 < x → (x ||| 0x20) ||| 3 ≠ 63 := by decide
  exact key w h2 h1

theorem fold_of_lor3 {w : Nat} (h : w ||| 3 = 63) :
    (if w > 63 ∧ w < 91 then w ||| 0x20 else w) = w := by
  have := lor3_bounds h
  rw [if_neg (by omega)]

theorem body_label2 {pic : List Nat} {p w : Nat} (oi c f : Nat) (out : List Nat)
    (hw : pic[p]? = some w) (hne : NoPrev pic p 92) (hq : w ≠ 39) :
    body pic (mk (p + 1) oi 2 c f out) =
      emitLabel pic (mk p oi 2 c f out) (if w > 63 ∧ w < 91 then w ||| 0x20 else w) := by
  unfold body
  simp [rd_eq hw, peekIs_noPrev hne, hq]

theorem body_skip {pic : List Nat} {p w : Nat} (oi c f : Nat) (out : List Nat)
    (hw : pic[p]? = some w) (hne : NoPrev pic p 92) (hq : w ≠ 39) :
    body pic (mk (p + 1) oi 4 c f out) =
      if w ||| 3 = 63 then command pic (mk p oi 0 c f out) w
      else .ok (true, mk p oi 4 c f out) := by
  unfold body
  simp [rd_eq hw, peekIs_noPrev hne, hq]

theorem body_esc {pic : List Nat} {p oi w : Nat} (a c f : Nat) (out : List Nat)
    (hw : pic[p + 1]? = some w) (he : pic[p]? = some 92) (ho : 0 < oi) :
    body pic (mk (p + 2) oi a c f out) =
      .ok (true, mk p (oi - 1) a c f (unesc w :: out)) := by
  unfold body
  simp [rd_eq hw, peekIs, rd_eq he, put_mk _ _ _ _ _ _ ho, unesc]

theorem command_label (pic : List Nat) {oi X : Nat} (p a f : Nat) (out : List Nat)
    (hX : X = 63 ∨ X = 61 ∨ X = 62 ∨ X = 60) (ho : (labelTail X f).length ≤ oi) :
    command pic (mk p oi a 0 f out) X =
      .ok (true, mk p (oi - (labelTail X f).length) (labelMode X f) 0 (f >>> 1)
        (labelTail X f ++ out)) := by
  rcases hX with rfl | rfl | rfl | rfl
  · rw [command_qm pic p a f out (by simpa [labelTail] using ho)]
    rfl
  · rw [command_eq]
    rfl
  · rw [command_gt]
    rfl
  · rw [command_lt]
    rfl

theorem ploop_labelByte {fuel oi c f : Nat} {out : List Nat} (pic : List Nat) (p w a : Nat)
    (hw : pic[p]? = some w) (hne : NoPrev pic p 92) (hp : PlainByte w) (ha : a = 2 ∨ a = 3)
    (ho : 0 < oi) :
    ploop pic (fuel + 1) (mk (p + 1) oi a c f out) =
      ploop pic fuel (mk p (oi - 1) a c f (labelByte a w :: out)) := by
  rcases ha with rfl | rfl
  · refine ploop_of_body fuel ?_
    rw [body_label2 oi c f out hw hne hp.2.1]
    by_cases hf : w > 63 ∧ w < 91
    · rw [if_pos hf, emitLabel_emit pic p 2 c f out (fold_lor3 hf.1 hf.2) ho, labelByte,
        if_pos ⟨rfl, hf.1, hf.2⟩]
    · rw [if_neg hf, emitLabel_emit pic p 2 c f out hp.lor3 ho, labelByte,
        if_neg (fun h => hf ⟨h.2.1, h.2.2⟩)]
  · rw [ploop_label pic p w hw hne hp.2.1 hp.lor3 ho, labelByte, if_neg (by simp)]

theorem ploop_skipByte {fuel oi c f : Nat} {out : List Nat} (pic : List Nat) (p w : Nat)
    (hw : pic[p]? = some w) (hne : NoPrev pic p 92) (hp : PlainByte w) :
    ploop pic (fuel + 1) (mk (p + 1) oi 4 c f out) = ploop pic fuel (mk p oi 4 c f out) := by
  refine ploop_of_body fuel ?_
  rw [body_skip oi c f out hw hne hp.2.1, if_neg hp.lor3]

theorem ploop_labelCmd {fuel oi f : Nat} {out : List Nat} (pic : List Nat) (p X a : Nat)
    (hw : pic[p]? = some X) (hne : NoPrev pic p 92) (hX : X = 63 ∨ X = 61 ∨ X = 62 ∨ X = 60)
    (ha : a = 0 ∨ a = 2 ∨ a = 3 ∨ a = 4) (ho : (labelTail X f).length ≤ oi) :
    ploop pic (fuel + 1) (mk (p + 1) oi a 0 f out) =
      ploop pic fuel (mk p (oi - (labelTail X f).length) (labelMode X f) 0 (f >>> 1)
        (labelTail X f ++ out)) := by
  have h3 : X ||| 3 = 63 := by rcases hX with rfl | rfl | rfl | rfl <;> decide
  have hq : X ≠ 39 := by rcases hX with rfl | rfl | rfl | rfl <;> decide
  refine ploop_of_body fuel ?_
  rcases ha with rfl | rfl | rfl | rfl
  · rw [body_normal pic oi 0 f out hw hne, command_label pic p 0 f out hX ho]
  · rw [body_label2 oi 0 f out hw hne hq, fold_of_lor3 h3, emitLabel_cmd pic p oi 2 0 f out h3,
      command_label pic p 0 f out hX ho]
  · rw [body_label oi 0 f out hw hne hq, emitLabel_cmd pic p oi 3 0 f out h3,
      command_label pic p 0 f out hX ho]
  · rw [body_skip oi 0 f out hw hne hq, if_pos h3, command_label pic p 0 f out hX ho]

theorem ploop_esc {fuel oi a c f : Nat} {out : List Nat} (pic : List Nat) (p w : Nat)
    (hw : pic[p + 1]? = some w) (he : pic[p]? = some 92) (ho : 0 < oi) :
    ploop pic (fuel + 1) (mk (p + 2) oi a c f out) =
      ploop pic fuel (mk p (oi - 1) a c f (unesc w :: out)) :=
  ploop_of_body (p := p + 1) fuel (body_esc a c f out hw he ho)

theorem getElem?_split (A B : List Nat) (x : Nat) : (A ++ x :: B)[A.length]? = some x := by
  rw [List.getElem?_append_right (le_refl _)]
  simp

theorem noPrev_split (A B : List Nat) (x y ch : Nat) (h : x ≠ ch) :
    NoPrev (A ++ x :: y :: B) (A.length + 1) ch := by
  refine Or.inr ⟨by simp, ?_⟩
  rw [Nat.add_sub_cancel, getElem?_split]
  simpa using h

theorem noPrev_segment {pic pre L post : List Nat} {w ch : Nat}
    (hpic : pic = pre ++ (L ++ [w]) ++ post) (hL : ∀ x ∈ L, x ≠ ch)
    (hprev : NoPrev pic pre.length ch) : NoPrev pic (pre.length + L.length) ch := by
  rcases List.eq_nil_or_concat L with rfl | ⟨L', x, rfl⟩
  · simpa using hprev
  · have hx : x ≠ ch := hL x (by simp)
    have e : pic = (pre ++ L') ++ x :: w :: post := by
      rw [hpic]; simp
    have := noPrev_split (pre ++ L') post x w ch hx
    rw [← e] at this
    simpa [Nat.add_assoc] using this

theorem getElem?_segment {pic pre L post : List Nat} {w : Nat}
    (hpic : pic = pre ++ (L ++ [w]) ++ post) : pic[pre.length + L.length]? = some w := by
  have e : pic = (pre ++ L) ++ w :: post := by
    rw [hpic]; simp
  have := getElem?_split (pre ++ L) post w
  rw [← e] at this
  simpa using this

theorem ploop_segment (pic : List Nat) (a c : Nat) (good : Nat → Prop) (h : Nat → Nat)
    (hne : ∀ w, good w → w ≠ 92)
    (hstep : ∀ (fuel p oi f : Nat) (out : List Nat) (w : Nat), pic[p]? = some w →
      NoPrev pic p 92 → good w → 0 < oi →
      ploop pic (fuel + 1) (mk (p + 1) oi a c f out) =
        ploop pic fuel (mk p (oi - 1) a c f (h w :: out))) :
    ∀ (L pre post : List Nat), pic = pre ++ L ++ post → (∀ w ∈ L, good w) →
      NoPrev pic pre.length 92 → ∀ (fuel oi f : Nat) (out : List Nat), L.length ≤ oi →
      ploop pic (fuel + L.length) (mk (pre.length + L.length) oi a c f out) =
        ploop pic fuel (mk pre.length (oi - L.length) a c f (L.map h ++ out)) := by
  intro L
  induction L using List.reverseRecOn with
  | nil =>
    intro pre post _ _ _ fuel oi f out _
    rfl
  | append_singleton L w ih =>
    intro pre post hpic hgood hprev fuel oi f out ho
    have hlen : (L ++ [w]).length = L.length + 1 := by simp
    rw [hlen] at ho ⊢
    have hw := getElem?_segment hpic
    have hnp := noPrev_segment hpic (fun x hx => hne x (hgood x (by simp [hx]))) hprev
    have e1 : fuel + (L.length + 1) = (fuel + L.length) + 1 := by omega
    have e2 : pre.length + (L.length + 1) = (pre.length + L.length) + 1 := by omega
    rw [e1, e2, hstep _ _ _ _ _ w hw hnp (hgood w (by simp)) (by omega),
      ih pre (w :: post) (by rw [hpic]; simp) (fun x hx => hgood x (by simp [hx])) hprev
        fuel (oi - 1) f (h w :: out) (by omega)]
    have e3 : oi - 1 - L.length = oi - (L.length + 1) := by omega
    rw [e3]
    simp

theorem ploop_segment_skip (pic : List Nat) (a c : Nat) (good : Nat → Prop)
    (hne : ∀ w, good w → w ≠ 92)
    (hstep : ∀ (fuel p oi f : Nat) (out : List Nat) (w : Nat), pic[p]? = some w →
      NoPrev pic p 92 → good w →
      ploop pic (fuel + 1) (mk (p + 1) oi a c f out) = ploop pic fuel (mk p oi a c f out)) :
    ∀ (L pre post : List Nat), pic = pre ++ L ++ post → (∀ w ∈ L, good w) →
      NoPrev pic pre.length 92 → ∀ (fuel oi f : Nat) (out : List Nat),
      ploop pic (fuel + L.length) (mk (pre.length + L.length) oi a c f out) =
        ploop pic fuel (mk pre.length oi a c f out) := by
  intro L
  induction L using List.reverseRecOn with
  | nil =>
    intro pre post _ _ _ fuel oi f out
    rfl
  | append_singleton L w ih =>
    intro pre post hpic hgood hprev fuel oi f out
    have hlen : (L ++ [w]).length = L.length + 1 := by simp
    rw [hlen]
    have hw := getElem?_segment hpic
    have hnp := noPrev_segment hpic (fun x hx => hne x (hgood x (by simp [hx]))) hprev
    have e1 : fuel + (L.length + 1) = (fuel + L.length) + 1 := by omega
    have e2 : pre.length + (L.length + 1) = (pre.length + L.length) + 1 := by omega
    rw [e1, e2, hstep _ _ _ _ _ w hw hnp (hgood w (by simp)),
      ih pre (w :: post) (by rw [hpic]; simp) (fun x hx => hgood x (by simp [hx])) hprev
        fuel oi f out]

theorem labelText_length_le (a : Nat) (L : List Nat) : (labelText a L).length ≤ L.length := by
  unfold labelText
  split <;> simp

/-- A whole label: in a label mode `a` (2, 3 or 4) the scan over the plain label text
`L` writes `labelText a L` and leaves mode and running value as they are. -/
theorem ploop_labelText (pic : List Nat) {a : Nat} (c : Nat) (L pre post : List Nat)
    (ha : a = 2 ∨ a = 3 ∨ a = 4) (hpic : pic = pre ++ L ++ post)
    (hL : ∀ w ∈ L, PlainByte w) (hprev : NoPrev pic pre.length 92)
    (fuel oi f : Nat) (out : List Nat) (ho : L.length ≤ oi) :
    ploop pic (fuel + L.length) (mk (pre.length + L.length) oi a c f out) =
      ploop pic fuel (mk pre.length (oi - (labelText a L).length) a c f
        (labelText a L ++ out)) := by
  by_cases h4 : a = 4
  · subst h4
    rw [ploop_segment_skip pic 4 c PlainByte (fun w hw => hw.1)
      (fun fuel p oi f out w hw hnp hp => ploop_skipByte pic p w hw hnp hp)
      L pre post hpic hL hprev fuel oi f out]
    simp [labelText]
  · have ha' : a = 2 ∨ a = 3 := by omega
    rw [ploop_segment pic a c PlainByte (labelByte a) (fun w hw => hw.1)
      (fun fuel p oi f out w hw hnp hp ho => ploop_labelByte pic p w a hw hnp hp ha' ho)
      L pre post hpic hL hprev fuel oi f out ho]
    simp [labelText, h4]

/-- Quoted text: in mode 1 the scan over text without `'` and backslash copies it. -/
theorem ploop_quotedText (pic : List Nat) (c : Nat) (L pre post : List Nat)
    (hpic : pic = pre ++ L ++ post) (hL : ∀ w ∈ L, w ≠ 39 ∧ w ≠ 92)
    (hprev : NoPrev pic pre.length 92) (fuel oi f : Nat) (out : List Nat)
    (ho : L.length ≤ oi) :
    ploop pic (fuel + L.length) (mk (pre.length + L.length) oi 1 c f out) =
      ploop pic fuel (mk pre.length (oi - L.length) 1 c f (L ++ out)) := by
  rw [ploop_segment pic 1 c (fun w => w ≠ 39 ∧ w ≠ 92) (fun w => w) (fun w hw => hw.2)
    (fun fuel p oi f out w hw hnp hp ho => ploop_quoted pic p w hw hnp hp.1 ho)
    L pre post hpic hL hprev fuel oi f out ho]
  simp

theorem noPrev_of_forall (A B : List Nat) (ch : Nat) (h : ∀ x ∈ A, x ≠ ch) :
    NoPrev (A ++ B) A.length ch := by
  rcases List.eq_nil_or_concat A with rfl | ⟨A', x, rfl⟩
  · exact Or.inl rfl
  · refine Or.inr ⟨by simp, ?_⟩
    have hx : x ≠ ch := h x (by simp)
    have e : A'.concat x ++ B = A' ++ x :: B := by simp
    have e2 : (A'.concat x).length - 1 = A'.length := by simp
    rw [e, e2, getElem?_split]
    simpa using hx

theorem labelText_three (L : List Nat) : labelText 3 L = L := by
  have : labelByte 3 = fun w => w := by
    funext w
    simp [labelByte]
  simp [labelText, this]

theorem labelText_four (L : List Nat) : labelText 4 L = [] := by
  simp [labelText]

theorem labelText_two (L : List Nat) :
    labelText 2 L = L.map (fun w => if 64 ≤ w ∧ w ≤ 90 then w ||| 0x20 else w) := by
  have : labelByte 2 = fun w => if 64 ≤ w ∧ w ≤ 90 then w ||| 0x20 else w := by
    funext w
    unfold labelByte
    by_cases h : 64 ≤ w ∧ w ≤ 90
    · rw [if_pos h, if_pos ⟨rfl, by omega, by omega⟩]
    · rw [if_neg h, if_neg (fun h' => h ⟨by omega, by omega⟩)]
  simp [labelText, this]

theorem labelMode_cases (X f : Nat) :
    labelMode X f = 2 ∨ labelMode X f = 3 ∨ labelMode X f = 4 := by
  unfold labelMode
  split
  · omega
  · split
    · omega
    · split <;> omega

theorem labelTail_length (X f : Nat) : (labelTail X f).length ≤ 1 := by
  unfold labelTail
  split <;> simp

/-- The scan of a template that is one label: an optional opening quote (`q`), the
plain label text `L`, and the label command `X`. -/
theorem Snap_label (q : Bool) (X : Nat) (L : List Nat) (v : Nat)
    (hX : X = 63 ∨ X = 61 ∨ X = 62 ∨ X = 60) (hL : ∀ w ∈ L, PlainByte w) :
    Snap ((if q then [39] else []) ++ L ++ [X]) v =
      .ok (labelText (labelMode X v) L ++ labelTail X v) := by
  have hm := labelMode_cases X v
  have ht := labelTail_length X v
  have hl := labelText_length_le (labelMode X v) L
  have hm0 : labelMode X v ≠ 0 := by omega
  cases q
  · have hpic : ([] ++ L ++ [X] : List Nat) = [] ++ L ++ [X] := rfl
    have hlen : ([] ++ L ++ [X] : List Nat).length = (0 + L.length) + 1 := by simp
    have hw : ([] ++ L ++ [X] : List Nat)[0 + L.length]? = some X := by
      have := getElem?_split ([] ++ L) [] X
      simp only [List.length_append, List.length_nil] at this
      exact this
    have hnp : NoPrev ([] ++ L ++ [X]) (0 + L.length) 92 := by
      have := noPrev_of_forall ([] ++ L) [X] 92
        (fun x hx => (hL x (by simpa using hx)).1)
      simp only [List.length_append, List.length_nil] at this
      exact this
    have hrun : ploop ([] ++ L ++ [X]) ((0 + L.length) + 1)
        (mk ((0 + L.length) + 1) ((0 + L.length) + 1) 0 0 v []) =
        .ok (mk 0 ((0 + L.length) + 1 - (labelTail X v).length -
          (labelText (labelMode X v) L).length) (labelMode X v) 0 (v >>> 1)
          (labelText (labelMode X v) L ++ (labelTail X v ++ []))) := by
      rw [ploop_labelCmd _ (0 + L.length) X 0 hw hnp hX (Or.inl rfl) (by omega)]
      have := ploop_labelText ([] ++ L ++ [X]) 0 L [] [X] hm hpic hL (Or.inl rfl) 0
        ((0 + L.length) + 1 - (labelTail X v).length) (v >>> 1) (labelTail X v ++ [])
        (by omega)
      simp only [List.length_nil] at this
      rw [this, ploop_mk_zero]
    have h := Snap_of_ploop ([] ++ L ++ [X]) v (by rw [hlen]; exact hrun)
    simpa using h
  · have hpic : ([39] ++ L ++ [X] : List Nat) = [39] ++ L ++ [X] := rfl
    have hlen : ([39] ++ L ++ [X] : List Nat).length = (1 + L.length) + 1 := by
      simp; omega
    have hw : ([39] ++ L ++ [X] : List Nat)[1 + L.length]? = some X := by
      have := getElem?_split ([39] ++ L) [] X
      simp only [List.length_append, List.length_singleton] at this
      exact this
    have hnp : NoPrev ([39] ++ L ++ [X]) (1 + L.length) 92 := by
      have := noPrev_of_forall ([39] ++ L) [X] 92 (by
        intro x hx
        rcases List.mem_append.1 hx with h | h
        · simp at h; omega
        · exact (hL x h).1)
      simp only [List.length_append, List.length_singleton] at this
      exact this
    have hq : ([39] ++ L ++ [X] : List Nat)[0]? = some 39 := by simp
    have hrun : ploop ([39] ++ L ++ [X]) ((1 + L.length) + 1)
        (mk ((1 + L.length) + 1) ((1 + L.length) + 1) 0 0 v []) =
        .ok (mk 0 ((1 + L.length) + 1 - (labelTail X v).length -
          (labelText (labelMode X v) L).length) 0 0 (v >>> 1)
          (labelText (labelMode X v) L ++ (labelTail X v ++ []))) := by
      rw [ploop_labelCmd _ (1 + L.length) X 0 hw hnp hX (Or.inl rfl) (by omega)]
      have := ploop_labelText ([39] ++ L ++ [X]) 0 L [39] [X] hm hpic hL
        (Or.inr ⟨by simp, by simp⟩) 1
        ((1 + L.length) + 1 - (labelTail X v).length) (v >>> 1) (labelTail X v ++ [])
        (by omega)
      simp only [List.length_singleton] at this
      rw [this, ploop_quoteClose _ 0 hq (Or.inl rfl) hm0, ploop_mk_zero]
    have h := Snap_of_ploop ([39] ++ L ++ [X]) v (by rw [hlen]; exact hrun)
    simpa using h

theorem plain_sample : ∀ w ∈ ofString "Ack@H", PlainByte w := by
  intro w hw
  simp only [ofString] at hw
  have h : w = 65 ∨ w = 99 ∨ w = 107 ∨ w = 64 ∨ w = 72 := by simpa using hw
  unfold PlainByte
  omega

/-- C11: for a label text `L` of plain bytes (none of backslash, quote, `=`, `<`, `>`, `?`)
and every `v`, `Snap("'" + L + ">", v)` is `L` when bit 0 of `v` is 1 and empty when it is 0,
and `Snap("'" + L + "<", v)` is empty when bit 0 is 1 and `L` when it is 0; command letters
inside `L` are label text. -/
theorem Snap_label_indicator (L : List Nat) (v : Nat) (hL : ∀ w ∈ L, PlainByte w) :
    Snap (ofString "'" ++ L ++ ofString ">") v = .ok (if v % 2 = 1 then L else []) ∧
    Snap (ofString "'" ++ L ++ ofString "<") v = .ok (if v % 2 = 1 then [] else L) := by
  have h1 := Snap_label true 62 L v (by omega) hL
  have h2 := Snap_label true 60 L v (by omega) hL
  have e1 : ofString "'" = [39] := by decide
  have e2 : ofString ">" = [62] := by decide
  have e3 : ofString "<" = [60] := by decide
  rw [e1, e2, e3]
  rw [if_pos rfl] at h1 h2
  rw [h1, h2]
  rcases Nat.mod_two_eq_zero_or_one v with h | h
  · simp [labelMode, labelTail, h, labelText_four, labelText_three]
  · simp [labelMode, labelTail, h, labelText_four, labelText_three]

/-- Witness of `Snap_label_indicator`: the label text `Ack@H` with bit 0 set. -/
theorem Snap_label_indicator_witness :
    (∀ w ∈ ofString "Ack@H", PlainByte w) ∧
    Snap (ofString "'" ++ ofString "Ack@H" ++ ofString ">") 1 =
      .ok (if 1 % 2 = 1 then ofString "Ack@H" else []) ∧
    Snap (ofString "'" ++ ofString "Ack@H" ++ ofString "<") 1 =
      .ok (if 1 % 2 = 1 then [] else ofString "Ack@H") :=
  ⟨plain_sample, Snap_label_indicator (ofString "Ack@H") 1 plain_sample⟩

/-- C12, counterexample: the label text `@` (byte 0x40, not a letter) with bit 0 of `v`
clear is emitted as byte 0x60, whereas folding only the letters A-Z would leave it unchanged. -/
theorem Snap_fold_at_sign :
    Snap (ofString "'@=") 0 = .ok [96] ∧
    Snap (ofString "'@=") 0 ≠
      .ok ((ofString "@").map (fun w => if 65 ≤ w ∧ w ≤ 90 then w ||| 0x20 else w)) := by
  constructor <;> decide

/-- C12, amended: for a label text `L` of plain bytes, `Snap("'" + L + "=", v)` is `L`
unchanged when bit 0 of `v` is 1; when bit 0 is 0 every byte in 0x40..0x5A (the at sign and
the letters A-Z) has bit 5 set and every other byte is unchanged. -/
theorem Snap_label_fold (L : List Nat) (v : Nat) (hL : ∀ w ∈ L, PlainByte w) :
    Snap (ofString "'" ++ L ++ ofString "=") v =
      .ok (if v % 2 = 1 then L
        else L.map (fun w => if 64 ≤ w ∧ w ≤ 90 then w ||| 0x20 else w)) := by
  have h1 := Snap_label true 61 L v (by omega) hL
  have e1 : ofString "'" = [39] := by decide
  have e2 : ofString "=" = [61] := by decide
  rw [e1, e2]
  rw [if_pos rfl] at h1
  rw [h1]
  rcases Nat.mod_two_eq_zero_or_one v with h | h
  · simp [labelMode, labelTail, h, labelText_two]
  · simp [labelMode, labelTail, h, labelText_three]

/-- Witness of `Snap_label_fold`: the label text `Ack@H` with bit 0 clear. -/
theorem Snap_label_fold_witness :
    (∀ w ∈ ofString "Ack@H", PlainByte w) ∧
    Snap (ofString "'" ++ ofString "Ack@H" ++ ofString "=") 6 =
      .ok (if 6 % 2 = 1 then ofString "Ack@H"
        else (ofString "Ack@H").map (fun w => if 64 ≤ w ∧ w ≤ 90 then w ||| 0x20 else w)) :=
  ⟨plain_sample, Snap_label_fold (ofString "Ack@H") 6 plain_sample⟩

/-- C16: for every byte `x` and every `v`, `Snap` of the two-byte template backslash, `x`
is a single byte: newline when `x` is `n`, tab when `x` is `t`, and `x` itself otherwise. -/
theorem Snap_escape (x v : Nat) :
    Snap [92, x] v = .ok [if x = 110 then 10 else if x = 116 then 9 else x] := by
  have hrun : ploop [92, x] [92, x].length (mk [92, x].length [92, x].length 0 0 v []) =
      .ok (mk 0 (2 - 1) 0 0 v [unesc x]) := by
    show ploop [92, x] (1 + 1) (mk (0 + 2) 2 0 0 v []) = _
    rw [ploop_esc [92, x] 0 x rfl rfl (by omega), ploop_mk_zero]
  have h := Snap_of_ploop [92, x] v hrun
  rw [h]
  rfl

/-- C17: for every byte sequence `T` without a quote and without a backslash and every `v`,
`Snap("'" + T + "'", v) = T`. -/
theorem Snap_quoted (T : List Nat) (v : Nat) (hT : ∀ w ∈ T, w ≠ 39 ∧ w ≠ 92) :
    Snap (ofString "'" ++ T ++ ofString "'") v = .ok T := by
  have e1 : ofString "'" = [39] := by decide
  rw [e1]
  have hlen : ([39] ++ T ++ [39] : List Nat).length = (1 + T.length) + 1 := by
    simp; omega
  have hw : ([39] ++ T ++ [39] : List Nat)[1 + T.length]? = some 39 := by
    have := getElem?_split ([39] ++ T) [] 39
    simp only [List.length_append, List.length_singleton] at this
    exact this
  have hnp : NoPrev ([39] ++ T ++ [39]) (1 + T.length) 92 := by
    have := noPrev_of_forall ([39] ++ T) [39] 92 (by
      intro x hx
      rcases List.mem_append.1 hx with h | h
      · simp at h; omega
      · exact (hT x h).2)
    simp only [List.length_append, List.length_singleton] at this
    exact this
  have hq : ([39] ++ T ++ [39] : List Nat)[0]? = some 39 := by simp
  have hrun : ploop ([39] ++ T ++ [39]) ((1 + T.length) + 1)
      (mk ((1 + T.length) + 1) ((1 + T.length) + 1) 0 0 v []) =
      .ok (mk 0 ((1 + T.length) + 1 - T.length) 0 0 v (T ++ [])) := by
    rw [ploop_quoteOpen _ (1 + T.length) hw hnp]
    have := ploop_quotedText ([39] ++ T ++ [39]) 0 T [39] [39] rfl hT
      (Or.inr ⟨by simp, by simp⟩) 1 ((1 + T.length) + 1) v [] (by omega)
    simp only [List.length_singleton] at this
    rw [this, ploop_quoteClose _ 0 hq (Or.inl rfl) (by decide), ploop_mk_zero]
  have h := Snap_of_ploop ([39] ++ T ++ [39]) v (by rw [hlen]; exact hrun)
  simpa using h

/-- Witness of `Snap_quoted`: the quoted text `A=B@?H`. -/
theorem Snap_quoted_witness :
    (∀ w ∈ ofString "A=B@?H", w ≠ 39 ∧ w ≠ 92) ∧
    Snap (ofString "'" ++ ofString "A=B@?H" ++ ofString "'") 5 = .ok (ofString "A=B@?H") :=
  ⟨by decide, Snap_quoted (ofString "A=B@?H") 5 (by decide)⟩

theorem ploop_eqCmd {fuel oi f : Nat} {out : List Nat} (pic : List Nat) (p a : Nat)
    (hw : pic[p]? = some 61) (hne : NoPrev pic p 92) (ha : a = 0 ∨ a = 2 ∨ a = 3 ∨ a = 4) :
    ploop pic (fuel + 1) (mk (p + 1) oi a 0 f out) =
      ploop pic fuel (mk p oi (2 + f % 2) 0 (f >>> 1) out) := by
  rw [ploop_labelCmd pic p 61 a hw hne (by omega) ha (by simp [labelTail])]
  simp [labelMode, labelTail]

theorem command_nul (pic : List Nat) (p oi a f : Nat) (out : List Nat) :
    command pic (mk p oi a 0 f out) 0 = .ok (true, mk p oi a 0 f out) := by
  simp [command, finish_mk_zero]

theorem ploop_nul {fuel oi f : Nat} {out : List Nat} (pic : List Nat) (p : Nat)
    (hw : pic[p]? = some 0) (hne : NoPrev pic p 92) :
    ploop pic (fuel + 1) (mk (p + 1) oi 0 0 f out) = ploop pic fuel (mk p oi 0 0 f out) :=
  ploop_normal fuel hw hne (command_nul pic p oi 0 f out)

/-- C13: a skipped label that contains an escape is not empty: with bit 0 clear
`Snap("'a\=b>", v)` emits the escaped `=`, and with bit 0 set so does `Snap("'a\=b<", v)`;
the same labels without the escape are skipped entirely. -/
theorem Snap_skipped_label_emits_escape :
    Snap [39, 97, 92, 61, 98, 62] 0 = .ok (ofString "=") ∧
    Snap [39, 97, 92, 61, 98, 60] 1 = .ok (ofString "=") ∧
    Snap [39, 97, 98, 62] 0 = .ok [] ∧
    Snap [39, 97, 98, 60] 1 = .ok [] := by
  refine ⟨?_, ?_, ?_, ?_⟩ <;> decide

/-- C14: for every `v`, `Snap("'A=B=C=", v)` and `Snap("'A='B='C=", v)` return the same
byte sequence: the three labels, each folded when its bit is clear. -/
theorem Snap_label_chain (v : Nat) :
    ∃ out, Snap (ofString "'A=B=C=") v = .ok out ∧ Snap (ofString "'A='B='C=") v = .ok out ∧
      out = [labelByte (2 + (v >>> 1 >>> 1) % 2) 65, labelByte (2 + (v >>> 1) % 2) 66,
        labelByte (2 + v % 2) 67] := by
  refine ⟨_, ?_, ?_, rfl⟩
  · refine Snap_of_ploop (ofString "'A=B=C=") v
      (?_ : _ = Res.ok (mk 0 (7 - 1 - 1 - 1) 0 0 (v >>> 1 >>> 1 >>> 1) _))
    show ploop (ofString "'A=B=C=") 7 (mk 7 7 0 0 v []) = _
    rw [ploop_eqCmd (ofString "'A=B=C=") 6 0 (by decide) (by decide) (by omega)]
    rw [ploop_labelByte (ofString "'A=B=C=") 5 67 (2 + v % 2) (by decide) (by decide)
      (by decide) (by omega)]
    rw [ploop_eqCmd (ofString "'A=B=C=") 4 (2 + v % 2) (by decide) (by decide) (by omega)]
    rw [ploop_labelByte (ofString "'A=B=C=") 3 66 (2 + (v >>> 1) % 2) (by decide) (by decide)
      (by decide) (by omega)]
    rw [ploop_eqCmd (ofString "'A=B=C=") 2 (2 + (v >>> 1) % 2) (by decide) (by decide)
      (by omega)]
    rw [ploop_labelByte (ofString "'A=B=C=") 1 65 (2 + (v >>> 1 >>> 1) % 2) (by decide)
      (by decide) (by decide) (by omega)]
    rw [ploop_quoteClose (ofString "'A=B=C=") 0 (by decide) (by decide) (by omega)]
    rw [ploop_mk_zero]
    all_goals omega
  · refine Snap_of_ploop (ofString "'A='B='C=") v
      (?_ : _ = Res.ok (mk 0 (9 - 1 - 1 - 1) 0 0 (v >>> 1 >>> 1 >>> 1) _))
    show ploop (ofString "'A='B='C=") 9 (mk 9 9 0 0 v []) = _
    rw [ploop_eqCmd (ofString "'A='B='C=") 8 0 (by decide) (by decide) (by omega)]
    rw [ploop_labelByte (ofString "'A='B='C=") 7 67 (2 + v % 2) (by decide) (by decide)
      (by decide) (by omega)]
    rw [ploop_quoteClose (ofString "'A='B='C=") 6 (by decide) (by decide) (by omega)]
    rw [ploop_eqCmd (ofString "'A='B='C=") 5 0 (by decide) (by decide) (by omega)]
    rw [ploop_labelByte (ofString "'A='B='C=") 4 66 (2 + (v >>> 1) % 2) (by decide)
      (by decide) (by decide) (by omega)]
    rw [ploop_quoteClose (ofString "'A='B='C=") 3 (by decide) (by decide) (by omega)]
    rw [ploop_eqCmd (ofString "'A='B='C=") 2 0 (by decide) (by decide) (by omega)]
    rw [ploop_labelByte (ofString "'A='B='C=") 1 65 (2 + (v >>> 1 >>> 1) % 2) (by decide)
      (by decide) (by decide) (by omega)]
    rw [ploop_quoteClose (ofString "'A='B='C=") 0 (by decide) (by decide) (by omega)]
    rw [ploop_mk_zero]
    all_goals omega

/-- C18, counterexample: on `v = 0x1234` the template backslash + `HHHH` gives a backslash
followed by `1234`, while `HHHH` gives `1234`. -/
theorem Snap_escaped_H_run_differs :
    Snap (92 :: ofString "HHHH") 0x1234 = .ok (92 :: ofString "1234") ∧
    Snap (ofString "HHHH") 0x1234 = .ok (ofString "1234") ∧
    Snap (92 :: ofString "HHHH") 0x1234 ≠ Snap (ofString "HHHH") 0x1234 := by
  refine ⟨?_, ?_, ?_⟩ <;> decide

/-- C18, amended: for every `v`, `Snap` of backslash + `HHHH` is one backslash byte followed
by the four bytes of `Snap("HHHH", v)`: the run of `H` is not escaped, and the backslash is
emitted as a literal. -/
theorem Snap_escaped_H_run (v : Nat) :
    ∃ out, Snap (ofString "HHHH") v = .ok out ∧ out.length = 4 ∧
      Snap (92 :: ofString "HHHH") v = .ok (92 :: out) := by
  refine ⟨fieldRun 4 hexc 4 v ++ [], ?_, by simp [fieldRun_length], ?_⟩
  · refine Snap_of_ploop (ofString "HHHH") v
      (?_ : _ = Res.ok (mk 0 (4 - (3 + 1)) 0 0 (v >>> (4 * (3 + 1))) _))
    show ploop (ofString "HHHH") 4 (mk 4 4 0 0 v []) = _
    rw [ploop_H (ofString "HHHH") 3 3 (by decide) (by decide) (by decide) (by omega)
      (by decide) (by omega)]
    exact ploop_mk_zero _ _ _ _ _ _ _
  · refine Snap_of_ploop (92 :: ofString "HHHH") v
      (?_ : _ = Res.ok (mk 0 (5 - (3 + 1) - 1) 0 0 (v >>> (4 * (3 + 1))) _))
    show ploop (92 :: ofString "HHHH") 5 (mk 5 5 0 0 v []) = _
    rw [ploop_H (92 :: ofString "HHHH") 4 3 (by decide) (by decide) (by decide) (by omega)
      (by decide) (by omega)]
    show ploop (92 :: ofString "HHHH") (3 + 1) (mk (0 + 1) (5 - 4) 0 0 _ _) = _
    rw [ploop_lit (92 :: ofString "HHHH") 0 92 (by decide) (by decide) (by decide) (by omega)
      (by omega)]
    exact ploop_done _ _ rfl

/-- C19: a NUL byte outside quotes is dropped, not passed through: for every `v`,
`Snap` of the one-byte template 0x00 is empty, while the same byte inside quotes is emitted. -/
theorem Snap_nul_dropped :
    (∀ v, Snap [0] v = .ok []) ∧ Snap [39, 0, 39] 0 = .ok [0] := by
  refine ⟨fun v => ?_, by decide⟩
  refine Snap_of_ploop [0] v (?_ : _ = Res.ok (mk 0 1 0 0 v _))
  show ploop [0] 1 (mk 1 1 0 0 v []) = _
  rw [ploop_nul [0] 0 (by decide) (by decide), ploop_mk_zero]

theorem ploop_run_from (pic : List Nat) (wd : Nat) (g : Nat → Nat) (q n : Nat)
    (hstep : ∀ (fuel p oi f : Nat) (out : List Nat), q ≤ p → p < q + n → 0 < oi →
      ploop pic (fuel + 1) (mk (p + 1) oi 0 0 f out) =
        ploop pic fuel (mk p (oi - 1) 0 0 (f >>> wd) (g f :: out))) :
    ∀ (m fuel oi f : Nat) (out : List Nat), m ≤ n → m ≤ oi →
      ploop pic (fuel + m) (mk (q + m) oi 0 0 f out) =
        ploop pic fuel (mk q (oi - m) 0 0 (f >>> (wd * m)) (fieldRun wd g m f ++ out)) := by
  intro m
  induction m with
  | zero =>
    intro fuel oi f out _ _
    rfl
  | succ k ih =>
    intro fuel oi f out hm ho
    have e0 : fuel + (k + 1) = (fuel + k) + 1 := rfl
    have e00 : q + (k + 1) = (q + k) + 1 := rfl
    rw [e0, e00, hstep (fuel + k) (q + k) oi f out (by omega) (by omega) (by omega),
      ih fuel (oi - 1) (f >>> wd) (g f :: out) (by omega) (by omega)]
    have e1 : oi - 1 - k = oi - (k + 1) := by omega
    have e2 : f >>> wd >>> (wd * k) = f >>> (wd * (k + 1)) := by
      rw [← Nat.shiftRight_add]; congr 1; ring
    rw [e1, e2, fieldRun]
    simp

theorem picerr_mk (p m c f : Nat) :
    ∀ (i oi : Nat) (out : List Nat), i ≤ 7 →
      picerr i (mk p oi m c f out) =
        .ok (mk p (oi - min i oi) m c f ((e.take i).drop (i - min i oi) ++ out)) := by
  intro i
  induction i with
  | zero =>
    intro oi out _
    simp [picerr]
  | succ k ih =>
    intro oi out hk
    rcases Nat.eq_zero_or_pos oi with h0 | hpos
    · subst h0
      have hlen : (e.take (k + 1)).length = k + 1 := by
        rw [List.length_take]
        have : e.length = 7 := rfl
        omega
      have hnil : (e.take (k + 1)).drop (k + 1) = [] :=
        List.drop_eq_nil_of_le (le_of_eq hlen)
      simp only [picerr, mk_oi, gt_iff_lt, lt_self_iff_false, if_false, Nat.min_zero,
        Nat.sub_zero, hnil, List.nil_append]
    · have hlt : k < e.length := by
        have : e.length = 7 := rfl
        omega
      have hget : e[k]? = some e[k] := List.getElem?_eq_getElem hlt
      have hmin : min (k + 1) oi = min k (oi - 1) + 1 := by omega
      have htake : e.take (k + 1) = e.take k ++ [e[k]] := by
        rw [List.take_succ, hget]
        rfl
      have hlenk : (e.take k).length = k := by
        rw [List.length_take]
        omega
      have hdrop : (e.take k ++ [e[k]]).drop (k - min k (oi - 1)) =
          (e.take k).drop (k - min k (oi - 1)) ++ [e[k]] := by
        rw [List.drop_append_of_le_length (by omega)]
      rw [picerr, mk_oi, if_pos hpos, rd_eq hget, Res.bind_ok, put_mk _ _ _ _ _ _ hpos,
        Res.bind_ok, ih (oi - 1) (e[k] :: out) (by omega), hmin, htake]
      have e1 : k + 1 - (min k (oi - 1) + 1) = k - min k (oi - 1) := by omega
      have e2 : oi - 1 - min k (oi - 1) = oi - (min k (oi - 1) + 1) := by omega
      rw [e1, e2, hdrop]
      simp

theorem atCmd_err (pic : List Nat) {p a b : Nat} (oi m c f : Nat) (out : List Nat)
    (h2 : 2 ≤ p) (ha : pic[p - 2]? = some a) (hb : pic[p - 1]? = some b)
    (hk : bitcount a b = 0 ∨ 64 < bitcount a b) :
    atCmd pic (mk p oi m c f out) =
      .ok (false, mk p (oi - min 7 oi) m c f (e.drop (7 - min 7 oi) ++ out)) := by
  unfold atCmd
  rw [mk_pi, if_neg (by omega), rd_eq ha, Res.bind_ok, rd_eq hb, Res.bind_ok]
  simp only []
  rw [if_pos hk, picerr_mk p m c f 7 oi out (le_refl _), Res.bind_ok]
  rfl

theorem ploop_atErr {fuel oi f : Nat} {out : List Nat} (pic : List Nat) (p a b : Nat)
    (hw : pic[p]? = some 64) (hne : NoPrev pic p 92)
    (h2 : 2 ≤ p) (ha : pic[p - 2]? = some a) (hb : pic[p - 1]? = some b)
    (hk : bitcount a b = 0 ∨ 64 < bitcount a b) :
    ploop pic (fuel + 1) (mk (p + 1) oi 0 0 f out) =
      .ok (mk p (oi - min 7 oi) 0 0 f (e.drop (7 - min 7 oi) ++ out)) := by
  rw [ploop_mk, body_normal pic oi 0 f out hw hne, command_at,
    atCmd_err pic oi 0 0 f out h2 ha hb hk]
  rfl

theorem bitcount_of_digits {d1 d2 : Nat} (h1 : 48 ≤ d1 ∧ d1 ≤ 57) (h2 : 48 ≤ d2 ∧ d2 ≤ 57) :
    bitcount d1 d2 = 10 * (d1 - 48) + (d2 - 48) := by
  unfold bitcount
  omega

theorem picerr_text : ofString "PICERR!" = e := by decide

/-- C20: a two-digit bit count `dd` of value 0 or 65..99 yields the clipped sentinel and stops
the scan: for every prefix `P`, every `n` and `v`, `Snap(P + dd + "@" + n copies of C, v)` is
the last `min(7, len(P) + 3)` bytes of `PICERR!` followed by `Snap(n copies of C, v)`. -/
theorem Snap_bad_count (P : List Nat) (d1 d2 n v : Nat)
    (h1 : 48 ≤ d1 ∧ d1 ≤ 57) (h2 : 48 ≤ d2 ∧ d2 ≤ 57)
    (hk : 10 * (d1 - 48) + (d2 - 48) = 0 ∨ 65 ≤ 10 * (d1 - 48) + (d2 - 48)) :
    ∃ outC, Snap (List.replicate n 67) v = .ok outC ∧
      Snap (P ++ [d1, d2, 64] ++ List.replicate n 67) v =
        .ok ((ofString "PICERR!").drop (7 - min 7 (P.length + 3)) ++ outC) := by
  have hC := Snap_of_run n 67 8 v
    (fun f => if f % 256 < 32 then 126 else f % 256)
    (fun fuel p oi f out hp ho =>
      ploop_C _ p (replicate_get hp) (replicate_noPrev p 92 (by omega) (by decide)) ho)
  refine ⟨_, hC, ?_⟩
  have hlen : (P ++ [d1, d2, 64] ++ List.replicate n 67).length = (P.length + 2 + 1) + n := by
    simp
    omega
  have hpre : (P ++ [d1, d2, 64]).length = P.length + 2 + 1 := by simp
  have hget : ∀ p, P.length + 2 + 1 ≤ p → p < P.length + 2 + 1 + n →
      (P ++ [d1, d2, 64] ++ List.replicate n 67)[p]? = some 67 := by
    intro p hp1 hp2
    rw [List.getElem?_append_right (by omega), hpre, replicate_get (by omega)]
  have hat : (P ++ [d1, d2, 64] ++ List.replicate n 67)[P.length + 2]? = some 64 := by
    have := getElem?_split (P ++ [d1, d2]) (List.replicate n 67) 64
    simpa using this
  have hd2 : (P ++ [d1, d2, 64] ++ List.replicate n 67)[P.length + 2 - 1]? = some d2 := by
    have := getElem?_split (P ++ [d1]) (64 :: List.replicate n 67) d2
    simpa using this
  have hd1 : (P ++ [d1, d2, 64] ++ List.replicate n 67)[P.length + 2 - 2]? = some d1 := by
    have := getElem?_split P (d2 :: 64 :: List.replicate n 67) d1
    simpa using this
  have hnpAt : NoPrev (P ++ [d1, d2, 64] ++ List.replicate n 67) (P.length + 2) 92 := by
    refine Or.inr ⟨by simp, ?_⟩
    rw [hd2]
    intro h
    have : d2 = 92 := by simpa using h
    omega
  have hnp : ∀ p, P.length + 2 + 1 ≤ p → p < P.length + 2 + 1 + n →
      NoPrev (P ++ [d1, d2, 64] ++ List.replicate n 67) p 92 := by
    intro p hp1 hp2
    refine Or.inr ⟨by simp; omega, ?_⟩
    rcases Nat.eq_or_lt_of_le hp1 with h | h
    · rw [← h, Nat.add_sub_cancel, hat]
      decide
    · rw [hget (p - 1) (by omega) (by omega)]
      decide
  have hrun := ploop_run_from (P ++ [d1, d2, 64] ++ List.replicate n 67) 8
    (fun f => if f % 256 < 32 then 126 else f % 256) (P.length + 2 + 1) n
    (fun fuel p oi f out hp1 hp2 ho => ploop_C _ p (hget p hp1 hp2) (hnp p hp1 hp2) ho)
    n (P.length + 2 + 1) (P.length + 2 + 1 + n) v [] (le_refl _) (by omega)
  have hbc : bitcount d1 d2 = 0 ∨ 64 < bitcount d1 d2 := by
    rw [bitcount_of_digits h1 h2]
    omega
  rw [ploop_atErr _ (P.length + 2) d1 d2 hat hnpAt (by omega) hd1 hd2 hbc] at hrun
  have h := Snap_of_ploop (P ++ [d1, d2, 64] ++ List.replicate n 67) v
    (by rw [hlen]; exact hrun)
  rw [h, picerr_text]
  have e1 : P.length + 2 + 1 + n - n = P.length + 3 := by omega
  rw [e1, List.append_nil]

/-- Witness of `Snap_bad_count`: the template `bad65@CC`. -/
theorem Snap_bad_count_witness :
    ((48 ≤ 54 ∧ 54 ≤ 57) ∧ (48 ≤ 53 ∧ 53 ≤ 57) ∧
      (10 * (54 - 48) + (53 - 48) = 0 ∨ 65 ≤ 10 * (54 - 48) + (53 - 48))) ∧
    ∃ outC, Snap (List.replicate 2 67) 0x4142 = .ok outC ∧
      Snap (ofString "bad" ++ [54, 53, 64] ++ List.replicate 2 67) 0x4142 =
        .ok ((ofString "PICERR!").drop (7 - min 7 ((ofString "bad").length + 3)) ++ outC) :=
  ⟨by decide, Snap_bad_count (ofString "bad") 54 53 2 0x4142 (by decide) (by decide) (by decide)⟩

/-- Bytes that are neither commands, nor a backslash, nor NUL pass through verbatim: for a
template `T` of such bytes and every `v`, `Snap(T, v) = T`. -/
theorem Snap_passthrough (T : List Nat) (v : Nat)
    (hT : ∀ w ∈ T, isCommand w = false ∧ w ≠ 92 ∧ w ≠ 0) : Snap T v = .ok T := by
  have h := ploop_segment T 0 0 (fun w => isCommand w = false ∧ w ≠ 92 ∧ w ≠ 0) (fun w => w)
    (fun w hw => hw.2.1)
    (fun fuel p oi f out w hw hnp hg ho => ploop_lit T p w hw hnp hg.1 hg.2.2 ho)
    T [] [] (by simp) hT (Or.inl rfl) 0 T.length v [] (le_refl _)
  simp only [List.length_nil, Nat.zero_add, List.map_id_fun, id_eq, List.append_nil,
    ploop_mk_zero] at h
  have h2 := Snap_of_ploop T v h
  rw [h2]
  simp

theorem peekIs_false {pic : List Nat} {i ch : Nat} (g : Prop) [Decidable g]
    (hi : i < pic.length) (h : ¬ (g ∧ pic[i]? = some ch)) :
    peekIs pic (decide g) i ch = .ok false := by
  have hx : pic[i]? = some pic[i] := List.getElem?_eq_getElem hi
  by_cases hg : g
  · have hne : pic[i] ≠ ch := fun hc => h ⟨hg, by rw [hx, hc]⟩
    simp [peekIs, hg, rd_eq hx, hne]
  · simp [peekIs, hg]

theorem atCmd_noMarker (pic : List Nat) {p a b : Nat} (oi m c f : Nat) (out : List Nat)
    (h2 : 2 ≤ p) (ha : pic[p - 2]? = some a) (hb : pic[p - 1]? = some b)
    (hk1 : 1 ≤ bitcount a b) (hk2 : bitcount a b ≤ 64) (hp : p < pic.length)
    (hm : NoMarker pic p (bitcount a b)) :
    atCmd pic (mk p oi m c f out) =
      .ok (false, mk p (oi - min 7 oi) m c f (e.drop (7 - min 7 oi) ++ out)) := by
  obtain ⟨hs, hd, hi⟩ := hm
  have hdo : (if bitcount a b > 16 then bitcount a b / 3 else 4) = dOffset (bitcount a b) :=
    rfl
  rw [atCmd_unfold pic oi m c f out h2 ha hb hk1 hk2, hdo,
    peekIs_false (p > 2) (by omega) hs, Res.bind_ok]
  simp only [Bool.false_eq_true, if_false]
  rw [peekIs_false (p > dOffset (bitcount a b) - 1) (by omega) hd, Res.bind_ok]
  simp only [Bool.false_eq_true, if_false]
  rw [peekIs_false (p > 13) (by omega) hi, Res.bind_ok]
  simp only [Bool.false_eq_true, if_false]
  rw [picerr_mk p m c f 7 oi out (le_refl _), Res.bind_ok]
  rfl

theorem ploop_atNoMarker {fuel oi f : Nat} {out : List Nat} (pic : List Nat) (p a b : Nat)
    (hw : pic[p]? = some 64) (hne : NoPrev pic p 92)
    (h2 : 2 ≤ p) (ha : pic[p - 2]? = some a) (hb : pic[p - 1]? = some b)
    (hk1 : 1 ≤ bitcount a b) (hk2 : bitcount a b ≤ 64) (hp : p < pic.length)
    (hm : NoMarker pic p (bitcount a b)) :
    ploop pic (fuel + 1) (mk (p + 1) oi 0 0 f out) =
      .ok (mk p (oi - min 7 oi) 0 0 f (e.drop (7 - min 7 oi) ++ out)) := by
  rw [ploop_mk, body_normal pic oi 0 f out hw hne, command_at,
    atCmd_noMarker pic oi 0 0 f out h2 ha hb hk1 hk2 hp hm]
  rfl

/-- A template that ends in a two-digit count of value `1..64` and `@`, with no marker at
its offset, yields the sentinel clipped to the template length. -/
theorem Snap_no_marker (P : List Nat) (d1 d2 v : Nat)
    (h1 : 48 ≤ d1 ∧ d1 ≤ 57) (h2 : 48 ≤ d2 ∧ d2 ≤ 57)
    (hk : 1 ≤ 10 * (d1 - 48) + (d2 - 48) ∧ 10 * (d1 - 48) + (d2 - 48) ≤ 64)
    (hm : NoMarker (P ++ [d1, d2, 64]) (P.length + 2) (10 * (d1 - 48) + (d2 - 48))) :
    Snap (P ++ [d1, d2, 64]) v = .ok (e.drop (7 - min 7 (P.length + 3))) := by
  have hlen : (P ++ [d1, d2, 64]).length = (P.length + 2) + 1 := by simp
  have hat : (P ++ [d1, d2, 64])[P.length + 2]? = some 64 := by
    have := getElem?_split (P ++ [d1, d2]) [] 64
    simpa using this
  have hd2 : (P ++ [d1, d2, 64])[P.length + 2 - 1]? = some d2 := by
    have := getElem?_split (P ++ [d1]) [64] d2
    simpa using this
  have hd1 : (P ++ [d1, d2, 64])[P.length + 2 - 2]? = some d1 := by
    have := getElem?_split P [d2, 64] d1
    simpa using this
  have hnp : NoPrev (P ++ [d1, d2, 64]) (P.length + 2) 92 := by
    refine Or.inr ⟨by simp, ?_⟩
    rw [hd2]
    intro h
    have : d2 = 92 := by simpa using h
    omega
  have hbc := bitcount_of_digits h1 h2
  have hrun : ploop (P ++ [d1, d2, 64]) ((P.length + 2) + 1)
      (mk ((P.length + 2) + 1) ((P.length + 2) + 1) 0 0 v []) = _ :=
    ploop_atNoMarker (P ++ [d1, d2, 64]) (P.length + 2) d1 d2 hat hnp (by omega) hd1 hd2
      (by omega) (by omega) (by omega) (by rw [hbc]; exact hm)
  have h := Snap_of_ploop (P ++ [d1, d2, 64]) v (by rw [hlen]; exact hrun)
  rw [h, List.append_nil]

theorem sentinel_ne (P : List Nat) (d1 d2 : Nat) :
    e.drop (7 - min 7 (P.length + 3)) ≠ P ++ [d1, d2, 64] := by
  intro h
  have h2 := congrArg List.getLast? h
  have hj : 7 - min 7 (P.length + 3) ≤ 4 := by omega
  generalize 7 - min 7 (P.length + 3) = j at h2 hj
  have h3 : (P ++ [d1, d2, 64]).getLast? = some 64 := by
    have : P ++ [d1, d2, 64] = (P ++ [d1, d2]) ++ [64] := by simp
    rw [this, List.getLast?_append]
    rfl
  rw [h3] at h2
  interval_cases j <;> simp [e] at h2

/-- C21, counterexample: `Snap("xx16@", 0)` is `CERR!`, the clipped sentinel, and not the
template itself. -/
theorem Snap_at_no_marker_not_literal :
    Snap (ofString "xx16@") 0 = .ok (ofString "CERR!") ∧
    Snap (ofString "xx16@") 0 ≠ .ok (ofString "xx16@") := by
  constructor <;> decide

/-- C21, amended: an `@` with a two-digit count of value `1..64` and no marker at its offset
is an error, not a literal: `Snap(P + dd + "@", v)` is the last `min(7, len(P) + 3)` bytes of
`PICERR!`, which differs from the template. -/
theorem Snap_at_no_marker_error (P : List Nat) (d1 d2 v : Nat)
    (h1 : 48 ≤ d1 ∧ d1 ≤ 57) (h2 : 48 ≤ d2 ∧ d2 ≤ 57)
    (hk : 1 ≤ 10 * (d1 - 48) + (d2 - 48) ∧ 10 * (d1 - 48) + (d2 - 48) ≤ 64)
    (hm : NoMarker (P ++ [d1, d2, 64]) (P.length + 2) (10 * (d1 - 48) + (d2 - 48))) :
    ∃ out, Snap (P ++ [d1, d2, 64]) v = .ok out ∧
      out = (ofString "PICERR!").drop (7 - min 7 (P.length + 3)) ∧
      out ≠ P ++ [d1, d2, 64] :=
  ⟨_, Snap_no_marker P d1 d2 v h1 h2 hk hm, by rw [picerr_text], sentinel_ne P d1 d2⟩

/-- Witness of `Snap_at_no_marker_error`: the template `xx16@`. -/
theorem Snap_at_no_marker_error_witness :
    ((48 ≤ 49 ∧ 49 ≤ 57) ∧ (48 ≤ 54 ∧ 54 ≤ 57) ∧
      (1 ≤ 10 * (49 - 48) + (54 - 48) ∧ 10 * (49 - 48) + (54 - 48) ≤ 64) ∧
      NoMarker (ofString "xx" ++ [49, 54, 64]) ((ofString "xx").length + 2)
        (10 * (49 - 48) + (54 - 48))) ∧
    ∃ out, Snap (ofString "xx" ++ [49, 54, 64]) 5 = .ok out ∧
      out = (ofString "PICERR!").drop (7 - min 7 ((ofString "xx").length + 3)) ∧
      out ≠ ofString "xx" ++ [49, 54, 64] :=
  ⟨by decide, Snap_at_no_marker_error (ofString "xx") 49 54 5 (by decide) (by decide)
    (by decide) (by decide)⟩

/-- C25: an `@` in normal mode with a two-digit count of value `1..64` and no marker (no `!`
three bytes left, no `D` at offset `d`, no `I` fourteen bytes left, each under its guard)
produces the sentinel: `Snap(P + dd + "@", v)` is the last `min(7, len(P) + 3)` bytes of
`PICERR!`. -/
theorem Snap_at_no_marker_sentinel (P : List Nat) (d1 d2 v : Nat)
    (h1 : 48 ≤ d1 ∧ d1 ≤ 57) (h2 : 48 ≤ d2 ∧ d2 ≤ 57)
    (hk : 1 ≤ 10 * (d1 - 48) + (d2 - 48) ∧ 10 * (d1 - 48) + (d2 - 48) ≤ 64)
    (hm : NoMarker (P ++ [d1, d2, 64]) (P.length + 2) (10 * (d1 - 48) + (d2 - 48))) :
    Snap (P ++ [d1, d2, 64]) v =
      .ok ((ofString "PICERR!").drop (7 - min 7 (P.length + 3))) := by
  rw [picerr_text]
  exact Snap_no_marker P d1 d2 v h1 h2 hk hm

/-- Witness of `Snap_at_no_marker_sentinel`: the template `D. 16@`, whose `D` is one byte
too far left. -/
theorem Snap_at_no_marker_sentinel_witness :
    ((48 ≤ 49 ∧ 49 ≤ 57) ∧ (48 ≤ 54 ∧ 54 ≤ 57) ∧
      (1 ≤ 10 * (49 - 48) + (54 - 48) ∧ 10 * (49 - 48) + (54 - 48) ≤ 64) ∧
      NoMarker (ofString "D. " ++ [49, 54, 64]) ((ofString "D. ").length + 2)
        (10 * (49 - 48) + (54 - 48))) ∧
    Snap (ofString "D. " ++ [49, 54, 64]) 0xE =
      .ok ((ofString "PICERR!").drop (7 - min 7 ((ofString "D. ").length + 3))) :=
  ⟨by decide, Snap_at_no_marker_sentinel (ofString "D. ") 49 54 0xE (by decide) (by decide)
    (by decide) (by decide)⟩

theorem ploop_atSkip {fuel oi f : Nat} {out : List Nat} (pic : List Nat) (p a b : Nat)
    (hw : pic[p]? = some 64) (hne : NoPrev pic p 92)
    (h3 : 3 ≤ p) (ha : pic[p - 2]? = some a) (hb : pic[p - 1]? = some b)
    (hk1 : 1 ≤ bitcount a b) (hk2 : bitcount a b ≤ 64) (hs : pic[p - 3]? = some 33) :
    ploop pic (fuel + 1) (mk (p + 1) oi 0 0 f out) =
      ploop pic fuel (mk (p - 3) oi 0 0 (f >>> bitcount a b) out) := by
  refine ploop_normal fuel hw hne ?_
  have hg : decide (p > 2) = true := decide_eq_true (by omega)
  rw [command_at_ok (atCmd_skip pic oi 0 0 f out (by omega) ha hb hk1 hk2
    (by rw [hg]; exact peekIs_eq hs)), finish_mk_zero]

/-- C22, counterexample: `Snap("CCC!01@", 0x828486)` is `ABC`, the three characters of the
value shifted right by one bit, and not the sentinel. -/
theorem Snap_skip_one_accepted :
    Snap (ofString "CCC!01@") 0x828486 = .ok (ofString "ABC") ∧
    Snap (ofString "CCC!01@") 0x828486 ≠ .ok (ofString "PICERR!") := by
  constructor <;> decide

theorem headerPic_eq : ofString "'PT:'F 'EXT=.ACK= Id:0xFHH" = headerPic := by decide

theorem noPrev_of_get {pic : List Nat} {p : Nat} (x ch : Nat) (h : pic[p]? = some x)
    (hx : x ≠ ch) : NoPrev pic (p + 1) ch := by
  have hlt : p < pic.length := by
    rcases Nat.lt_or_ge p pic.length with h' | h'
    · exact h'
    · rw [List.getElem?_eq_none h'] at h
      exact absurd h (by simp)
  refine Or.inr ⟨by simpa using hlt, ?_⟩
  rw [Nat.add_sub_cancel, h]
  simpa using hx

theorem get_left (A post : List Nat) (i x : Nat) (h : A[i]? = some x) :
    (A ++ post)[i]? = some x := by
  have hlt : i < A.length := by
    rcases Nat.lt_or_ge i A.length with h' | h'
    · exact h'
    · rw [List.getElem?_eq_none h'] at h
      exact absurd h (by simp)
  rw [List.getElem?_append_left hlt, h]

theorem header_run (post : List Nat) (fuel oi f : Nat) (out : List Nat) (ho : 21 ≤ oi) :
    ploop (headerPic ++ post) (fuel + 25) (mk 26 oi 0 0 f out) =
      .ok (mk 0 (oi - 21) 0 0 (f >>> 16) (headerText f ++ out)) := by
  rw [ploop_H (headerPic ++ post) 25 1 (get_left headerPic post 25 72 (by decide)) (noPrev_of_get 72 92 (get_left headerPic post 24 72 (by decide)) (by decide))
    (fun i hi => by
      have : i = 0 := by omega
      subst this
      exact (get_left headerPic post 24 72 (by decide))) (by omega)
    (noPrev_of_get 70 72 (get_left headerPic post 23 70 (by decide)) (by decide)) (by omega)]
  rw [ploop_F (headerPic ++ post) 23 (get_left headerPic post 23 70 (by decide)) (noPrev_of_get 120 92 (get_left headerPic post 22 120 (by decide)) (by decide))]
  rw [ploop_lit (headerPic ++ post) 22 120 (get_left headerPic post 22 120 (by decide)) (noPrev_of_get 48 92 (get_left headerPic post 21 48 (by decide)) (by decide))
    (by decide) (by decide)]
  rw [ploop_lit (headerPic ++ post) 21 48 (get_left headerPic post 21 48 (by decide)) (noPrev_of_get 58 92 (get_left headerPic post 20 58 (by decide)) (by decide))
    (by decide) (by decide)]
  rw [ploop_lit (headerPic ++ post) 20 58 (get_left headerPic post 20 58 (by decide)) (noPrev_of_get 100 92 (get_left headerPic post 19 100 (by decide)) (by decide))
    (by decide) (by decide)]
  rw [ploop_lit (headerPic ++ post) 19 100 (get_left headerPic post 19 100 (by decide)) (noPrev_of_get 73 92 (get_left headerPic post 18 73 (by decide)) (by decide))
    (by decide) (by decide)]
  rw [ploop_lit (headerPic ++ post) 18 73 (get_left headerPic post 18 73 (by decide)) (noPrev_of_get 32 92 (get_left headerPic post 17 32 (by decide)) (by decide))
    (by decide) (by decide)]
  rw [ploop_lit (headerPic ++ post) 17 32 (get_left headerPic post 17 32 (by decide)) (noPrev_of_get 61 92 (get_left headerPic post 16 61 (by decide)) (by decide))
    (by decide) (by decide)]
  rw [ploop_eqCmd (headerPic ++ post) 16 0 (get_left headerPic post 16 61 (by decide)) (noPrev_of_get 75 92 (get_left headerPic post 15 75 (by decide)) (by decide))
    (by omega)]
  rw [ploop_labelByte (headerPic ++ post) 15 75 (2 + (f >>> (4 * (1 + 1)) >>> 3) % 2)
    (get_left headerPic post 15 75 (by decide)) (noPrev_of_get 67 92 (get_left headerPic post 14 67 (by decide)) (by decide))
    (by decide) (by omega)]
  rw [ploop_labelByte (headerPic ++ post) 14 67 (2 + (f >>> (4 * (1 + 1)) >>> 3) % 2)
    (get_left headerPic post 14 67 (by decide)) (noPrev_of_get 65 92 (get_left headerPic post 13 65 (by decide)) (by decide))
    (by decide) (by omega)]
  rw [ploop_labelByte (headerPic ++ post) 13 65 (2 + (f >>> (4 * (1 + 1)) >>> 3) % 2)
    (get_left headerPic post 13 65 (by decide)) (noPrev_of_get 46 92 (get_left headerPic post 12 46 (by decide)) (by decide))
    (by decide) (by omega)]
  rw [ploop_labelByte (headerPic ++ post) 12 46 (2 + (f >>> (4 * (1 + 1)) >>> 3) % 2)
    (get_left headerPic post 12 46 (by decide)) (noPrev_of_get 61 92 (get_left headerPic post 11 61 (by decide)) (by decide))
    (by decide) (by omega)]
  rw [ploop_eqCmd (headerPic ++ post) 11 (2 + (f >>> (4 * (1 + 1)) >>> 3) % 2)
    (get_left headerPic post 11 61 (by decide)) (noPrev_of_get 84 92 (get_left headerPic post 10 84 (by decide)) (by decide)) (by omega)]
  rw [ploop_labelByte (headerPic ++ post) 10 84 (2 + (f >>> (4 * (1 + 1)) >>> 3 >>> 1) % 2)
    (get_left headerPic post 10 84 (by decide)) (noPrev_of_get 88 92 (get_left headerPic post 9 88 (by decide)) (by decide))
    (by decide) (by omega)]
  rw [ploop_labelByte (headerPic ++ post) 9 88 (2 + (f >>> (4 * (1 + 1)) >>> 3 >>> 1) % 2)
    (get_left headerPic post 9 88 (by decide)) (noPrev_of_get 69 92 (get_left headerPic post 8 69 (by decide)) (by decide))
    (by decide) (by omega)]
  rw [ploop_labelByte (headerPic ++ post) 8 69 (2 + (f >>> (4 * (1 + 1)) >>> 3 >>> 1) % 2)
    (get_left headerPic post 8 69 (by decide)) (noPrev_of_get 39 92 (get_left headerPic post 7 39 (by decide)) (by decide))
    (by decide) (by omega)]
  rw [ploop_quoteClose (headerPic ++ post) 7 (get_left headerPic post 7 39 (by decide)) (noPrev_of_get 32 92 (get_left headerPic post 6 32 (by decide)) (by decide))
    (by omega)]
  rw [ploop_lit (headerPic ++ post) 6 32 (get_left headerPic post 6 32 (by decide)) (noPrev_of_get 70 92 (get_left headerPic post 5 70 (by decide)) (by decide))
    (by decide) (by decide)]
  rw [ploop_F (headerPic ++ post) 5 (get_left headerPic post 5 70 (by decide)) (noPrev_of_get 39 92 (get_left headerPic post 4 39 (by decide)) (by decide))]
  rw [ploop_quoteOpen (headerPic ++ post) 4 (get_left headerPic post 4 39 (by decide)) (noPrev_of_get 58 92 (get_left headerPic post 3 58 (by decide)) (by decide))]
  rw [ploop_quoted (headerPic ++ post) 3 58 (get_left headerPic post 3 58 (by decide)) (noPrev_of_get 84 92 (get_left headerPic post 2 84 (by decide)) (by decide))
    (by decide)]
  rw [ploop_quoted (headerPic ++ post) 2 84 (get_left headerPic post 2 84 (by decide)) (noPrev_of_get 80 92 (get_left headerPic post 1 80 (by decide)) (by decide))
    (by decide)]
  rw [ploop_quoted (headerPic ++ post) 1 80 (get_left headerPic post 1 80 (by decide)) (noPrev_of_get 39 92 (get_left headerPic post 0 39 (by decide)) (by decide))
    (by decide)]
  rw [ploop_quoteClose (headerPic ++ post) 0 (get_left headerPic post 0 39 (by decide)) (Or.inl rfl) (by decide)]
  rw [ploop_mk_zero]

  · have e1 : oi - (1 + 1) - 1 - 1 - 1 - 1 - 1 - 1 - 1 - 1 - 1 - 1 - 1 - 1 - 1 - 1 - 1 - 1
        - 1 - 1 - 1 = oi - 21 := by omega
    have t1 : ofString "PT:" = [80, 84, 58] := by decide
    have t2 : ofString "EXT" = [69, 88, 84] := by decide
    have t3 : ofString ".ACK" = [46, 65, 67, 75] := by decide
    have t4 : ofString " Id:0x" = [32, 73, 100, 58, 48, 120] := by decide
    have t5 : fieldRun 4 hexc (1 + 1) f = [hexDigit ((f >>> 4) % 16), hexDigit (f % 16)] := by
      simp [fieldRun, hexc_eq]
    rw [e1, t5]
    simp only [headerText, t1, t2, t3, t4, ← Nat.shiftRight_add, Nat.reduceMul, Nat.reduceAdd,
      List.map, List.cons_append, List.nil_append, List.append_assoc]
    rfl
  all_goals omega

theorem Snap_header (v : Nat) : Snap headerPic v = .ok (headerText v) := by
  have h := header_run [] 1 26 v [] (by omega)
  rw [List.append_nil, List.append_nil] at h
  exact Snap_of_ploop headerPic v h

theorem Snap_header_skip (d1 d2 v : Nat) (h1 : 48 ≤ d1 ∧ d1 ≤ 57) (h2 : 48 ≤ d2 ∧ d2 ≤ 57)
    (hk : 1 ≤ 10 * (d1 - 48) + (d2 - 48) ∧ 10 * (d1 - 48) + (d2 - 48) ≤ 64) :
    Snap (headerPic ++ [33, d1, d2, 64]) v =
      .ok (headerText (v >>> (10 * (d1 - 48) + (d2 - 48)))) := by
  have hl : headerPic.length = 26 := rfl
  have hat : (headerPic ++ [33, d1, d2, 64])[29]? = some 64 := by
    have := getElem?_split (headerPic ++ [33, d1, d2]) [] 64
    simpa [hl] using this
  have hd2 : (headerPic ++ [33, d1, d2, 64])[29 - 1]? = some d2 := by
    have := getElem?_split (headerPic ++ [33, d1]) [64] d2
    simpa [hl] using this
  have hd1 : (headerPic ++ [33, d1, d2, 64])[29 - 2]? = some d1 := by
    have := getElem?_split (headerPic ++ [33]) [d2, 64] d1
    simpa [hl] using this
  have hex : (headerPic ++ [33, d1, d2, 64])[29 - 3]? = some 33 := by
    have := getElem?_split headerPic [d1, d2, 64] 33
    simpa [hl] using this
  have hnp : NoPrev (headerPic ++ [33, d1, d2, 64]) 29 92 :=
    noPrev_of_get d2 92 hd2 (by omega)
  have hbc := bitcount_of_digits h1 h2
  have hrun : ploop (headerPic ++ [33, d1, d2, 64]) (29 + 1) (mk (29 + 1) 30 0 0 v []) =
      .ok (mk 0 (30 - 21) 0 0 (v >>> bitcount d1 d2 >>> 16)
        (headerText (v >>> bitcount d1 d2) ++ [])) := by
    rw [ploop_atSkip _ 29 d1 d2 hat hnp (by omega) hd1 hd2 (by omega) (by omega) hex]
    exact header_run [33, d1, d2, 64] 4 30 (v >>> bitcount d1 d2) [] (by omega)
  have h := Snap_of_ploop (headerPic ++ [33, d1, d2, 64]) v hrun
  rw [h, hbc, List.append_nil]

theorem headerText_congr (v w : Nat) (h : v % 2 ^ 16 = w % 2 ^ 16) :
    headerText v = headerText w := by
  have e1 : (v >>> 13) % 8 = (w >>> 13) % 8 := by
    simp only [Nat.shiftRight_eq_div_pow]; omega
  have e2 : (v >>> 12) % 2 = (w >>> 12) % 2 := by
    simp only [Nat.shiftRight_eq_div_pow]; omega
  have e3 : (v >>> 11) % 2 = (w >>> 11) % 2 := by
    simp only [Nat.shiftRight_eq_div_pow]; omega
  have e4 : (v >>> 8) % 8 = (w >>> 8) % 8 := by
    simp only [Nat.shiftRight_eq_div_pow]; omega
  have e5 : (v >>> 4) % 16 = (w >>> 4) % 16 := by
    simp only [Nat.shiftRight_eq_div_pow]; omega
  have e6 : v % 16 = w % 16 := by omega
  unfold headerText
  rw [e1, e2, e3, e4, e5, e6]

/-- C23: with `T0 = 'PT:'F 'EXT=.ACK= Id:0xFHH`, for every two-digit count `dd` of value
`2..63` and every `v`, `Snap(T0 + "!" + dd + "@", v) = Snap(T0, v >> dd)`: the skip command
shifts the value and emits no byte. -/
theorem Snap_skip_is_shift (d1 d2 v : Nat) (h1 : 48 ≤ d1 ∧ d1 ≤ 57) (h2 : 48 ≤ d2 ∧ d2 ≤ 57)
    (hk : 2 ≤ 10 * (d1 - 48) + (d2 - 48) ∧ 10 * (d1 - 48) + (d2 - 48) ≤ 63) :
    Snap (ofString "'PT:'F 'EXT=.ACK= Id:0xFHH" ++ ofString "!" ++ [d1, d2] ++ ofString "@") v =
      Snap (ofString "'PT:'F 'EXT=.ACK= Id:0xFHH") (v >>> (10 * (d1 - 48) + (d2 - 48))) ∧
    Snap (ofString "'PT:'F 'EXT=.ACK= Id:0xFHH") (v >>> (10 * (d1 - 48) + (d2 - 48))) =
      .ok (headerText (v >>> (10 * (d1 - 48) + (d2 - 48)))) := by
  have e1 : ofString "!" = [33] := by decide
  have e2 : ofString "@" = [64] := by decide
  have e3 : headerPic ++ [33] ++ [d1, d2] ++ [64] = headerPic ++ [33, d1, d2, 64] := by simp
  rw [headerPic_eq, e1, e2, e3, Snap_header, Snap_header_skip d1 d2 v h1 h2 ⟨by omega, by omega⟩]
  exact ⟨rfl, rfl⟩

/-- Witness of `Snap_skip_is_shift`: the count 48 on `0xafdfdeadbeef4d0e`, which prints
`PT:5 ext.ACK Id:0x7DF`. -/
theorem Snap_skip_is_shift_witness :
    ((48 ≤ 52 ∧ 52 ≤ 57) ∧ (48 ≤ 56 ∧ 56 ≤ 57) ∧
      (2 ≤ 10 * (52 - 48) + (56 - 48) ∧ 10 * (52 - 48) + (56 - 48) ≤ 63)) ∧
    (Snap (ofString "'PT:'F 'EXT=.ACK= Id:0xFHH" ++ ofString "!" ++ [52, 56] ++ ofString "@")
        0xafdfdeadbeef4d0e =
      Snap (ofString "'PT:'F 'EXT=.ACK= Id:0xFHH")
        (0xafdfdeadbeef4d0e >>> (10 * (52 - 48) + (56 - 48))) ∧
    Snap (ofString "'PT:'F 'EXT=.ACK= Id:0xFHH")
        (0xafdfdeadbeef4d0e >>> (10 * (52 - 48) + (56 - 48))) =
      .ok (headerText (0xafdfdeadbeef4d0e >>> (10 * (52 - 48) + (56 - 48))))) ∧
    headerText (0xafdfdeadbeef4d0e >>> (10 * (52 - 48) + (56 - 48))) =
      ofString "PT:5 ext.ACK Id:0x7DF" :=
  ⟨by decide, Snap_skip_is_shift 52 56 0xafdfdeadbeef4d0e (by decide) (by decide) (by decide),
    by decide⟩

/-- C24: the template `'PT:'F 'EXT=.ACK= Id:0xFHH` consumes 16 bits, and its output depends
only on them: for `v` and `w` with `v mod 2^16 = w mod 2^16`, `Snap(T0, v) = Snap(T0, w)`,
both returning the same text. -/
theorem Snap_low_bits_only (v w : Nat) (h : v % 2 ^ 16 = w % 2 ^ 16) :
    ∃ out, Snap (ofString "'PT:'F 'EXT=.ACK= Id:0xFHH") v = .ok out ∧
      Snap (ofString "'PT:'F 'EXT=.ACK= Id:0xFHH") w = .ok out := by
  rw [headerPic_eq, Snap_header, Snap_header, headerText_congr v w h]
  exact ⟨_, rfl, rfl⟩

/-- Witness of `Snap_low_bits_only`: the values `0xafdf` and `0xdeadbeefafdf`. -/
theorem Snap_low_bits_only_witness :
    0xafdf % 2 ^ 16 = 0xdeadbeefafdf % 2 ^ 16 ∧
    ∃ out, Snap (ofString "'PT:'F 'EXT=.ACK= Id:0xFHH") 0xafdf = .ok out ∧
      Snap (ofString "'PT:'F 'EXT=.ACK= Id:0xFHH") 0xdeadbeefafdf = .ok out :=
  ⟨by decide, Snap_low_bits_only 0xafdf 0xdeadbeefafdf (by decide)⟩

theorem labelByte_at (b : Nat) :
    labelByte (2 + b % 2) 64 = if b % 2 = 1 then 64 else 96 := by
  rcases Nat.mod_two_eq_zero_or_one b with h | h <;> simp [labelByte, h]

theorem bulbs_run (u : Nat) :
    Snap (ofString "'@=@=@=@=@=@=@=@=") u =
      .ok [labelByte (2 + (u >>> 1 >>> 1 >>> 1 >>> 1 >>> 1 >>> 1 >>> 1) % 2) 64,
        labelByte (2 + (u >>> 1 >>> 1 >>> 1 >>> 1 >>> 1 >>> 1) % 2) 64,
        labelByte (2 + (u >>> 1 >>> 1 >>> 1 >>> 1 >>> 1) % 2) 64,
        labelByte (2 + (u >>> 1 >>> 1 >>> 1 >>> 1) % 2) 64,
        labelByte (2 + (u >>> 1 >>> 1 >>> 1) % 2) 64,
        labelByte (2 + (u >>> 1 >>> 1) % 2) 64,
        labelByte (2 + (u >>> 1) % 2) 64,
        labelByte (2 + u % 2) 64] := by
  refine Snap_of_ploop (ofString "'@=@=@=@=@=@=@=@=") u
    (?_ : _ = Res.ok (mk 0 (17 - 1 - 1 - 1 - 1 - 1 - 1 - 1 - 1) 0 0
      (u >>> 1 >>> 1 >>> 1 >>> 1 >>> 1 >>> 1 >>> 1 >>> 1) _))
  · show ploop (ofString "'@=@=@=@=@=@=@=@=") 17 (mk 17 17 0 0 u []) = _
    rw [ploop_eqCmd (ofString "'@=@=@=@=@=@=@=@=") 16 0 (by decide) (by decide) (by omega)]
    rw [ploop_labelByte (ofString "'@=@=@=@=@=@=@=@=") 15 64 (2 + u % 2) (by decide) (by decide)
      (by decide) (by omega)]
    rw [ploop_eqCmd (ofString "'@=@=@=@=@=@=@=@=") 14 (2 + u % 2) (by decide) (by decide) (by omega)]
    rw [ploop_labelByte (ofString "'@=@=@=@=@=@=@=@=") 13 64 (2 + (u >>> 1) % 2) (by decide) (by decide)
      (by decide) (by omega)]
    rw [ploop_eqCmd (ofString "'@=@=@=@=@=@=@=@=") 12 (2 + (u >>> 1) % 2) (by decide) (by decide) (by omega)]
    rw [ploop_labelByte (ofString "'@=@=@=@=@=@=@=@=") 11 64 (2 + (u >>> 1 >>> 1) % 2) (by decide) (by decide)
      (by decide) (by omega)]
    rw [ploop_eqCmd (ofString "'@=@=@=@=@=@=@=@=") 10 (2 + (u >>> 1 >>> 1) % 2) (by decide) (by decide) (by omega)]
    rw [ploop_labelByte (ofString "'@=@=@=@=@=@=@=@=") 9 64 (2 + (u >>> 1 >>> 1 >>> 1) % 2) (by decide) (by decide)
      (by decide) (by omega)]
    rw [ploop_eqCmd (ofString "'@=@=@=@=@=@=@=@=") 8 (2 + (u >>> 1 >>> 1 >>> 1) % 2) (by decide) (by decide) (by omega)]
    rw [ploop_labelByte (ofString "'@=@=@=@=@=@=@=@=") 7 64 (2 + (u >>> 1 >>> 1 >>> 1 >>> 1) % 2) (by decide) (by decide)
      (by decide) (by omega)]
    rw [ploop_eqCmd (ofString "'@=@=@=@=@=@=@=@=") 6 (2 + (u >>> 1 >>> 1 >>> 1 >>> 1) % 2) (by decide) (by decide) (by omega)]
    rw [ploop_labelByte (ofString "'@=@=@=@=@=@=@=@=") 5 64 (2 + (u >>> 1 >>> 1 >>> 1 >>> 1 >>> 1) % 2) (by decide) (by decide)
      (by decide) (by omega)]
    rw [ploop_eqCmd (ofString "'@=@=@=@=@=@=@=@=") 4 (2 + (u >>> 1 >>> 1 >>> 1 >>> 1 >>> 1) % 2) (by decide) (by decide) (by omega)]
    rw [ploop_labelByte (ofString "'@=@=@=@=@=@=@=@=") 3 64 (2 + (u >>> 1 >>> 1 >>> 1 >>> 1 >>> 1 >>> 1) % 2) (by decide) (by decide)
      (by decide) (by omega)]
    rw [ploop_eqCmd (ofString "'@=@=@=@=@=@=@=@=") 2 (2 + (u >>> 1 >>> 1 >>> 1 >>> 1 >>> 1 >>> 1) % 2) (by decide) (by decide) (by omega)]
    rw [ploop_labelByte (ofString "'@=@=@=@=@=@=@=@=") 1 64 (2 + (u >>> 1 >>> 1 >>> 1 >>> 1 >>> 1 >>> 1 >>> 1) % 2) (by decide) (by decide)
      (by decide) (by omega)]
    rw [ploop_quoteClose (ofString "'@=@=@=@=@=@=@=@=") 0 (by decide) (by decide) (by omega)]
    rw [ploop_mk_zero]
    all_goals omega

/-- C26: in the lowercasing label mode the fold applies to the bytes 0x40..0x5A: for a label
text `L` of plain bytes and `v` with bit 0 clear, `Snap("'" + L + "=", v)` is `L` with every
byte in 0x40..0x5A OR-ed with 0x20 and every other byte unchanged; and for every `u`,
`Snap("'@=@=@=@=@=@=@=@=", u)` has 8 bytes, the byte at index `7 - i` being `@` when bit `i`
of `u` is set and 0x60 otherwise. -/
theorem Snap_fold_range (L : List Nat) (v u : Nat) (hL : ∀ w ∈ L, PlainByte w)
    (hv : v % 2 = 0) :
    Snap (ofString "'" ++ L ++ ofString "=") v =
      .ok (L.map (fun w => if 64 ≤ w ∧ w ≤ 90 then w ||| 0x20 else w)) ∧
    ∃ out, Snap (ofString "'@=@=@=@=@=@=@=@=") u = .ok out ∧ out.length = 8 ∧
      ∀ i, i < 8 → out[7 - i]? = some (if (u >>> i) % 2 = 1 then 64 else 96) := by
  constructor
  · have h1 := Snap_label true 61 L v (by omega) hL
    have e1 : ofString "'" = [39] := by decide
    have e2 : ofString "=" = [61] := by decide
    rw [e1, e2]
    rw [if_pos rfl] at h1
    rw [h1]
    simp [labelMode, labelTail, hv, labelText_two]
  · refine ⟨_, bulbs_run u, rfl, fun i hi => ?_⟩
    simp only [← Nat.shiftRight_add, Nat.reduceAdd, labelByte_at]
    interval_cases i <;> simp

/-- Witness of `Snap_fold_range`: the label text `Ack@H` with `v = 6`, and the bulb
indicator on `u = 0x55`. -/
theorem Snap_fold_range_witness :
    ((∀ w ∈ ofString "Ack@H", PlainByte w) ∧ 6 % 2 = 0) ∧
    Snap (ofString "'" ++ ofString "Ack@H" ++ ofString "=") 6 =
      .ok ((ofString "Ack@H").map (fun w => if 64 ≤ w ∧ w ≤ 90 then w ||| 0x20 else w)) ∧
    ∃ out, Snap (ofString "'@=@=@=@=@=@=@=@=") 0x55 = .ok out ∧ out.length = 8 ∧
      ∀ i, i < 8 → out[7 - i]? = some (if (0x55 >>> i) % 2 = 1 then 64 else 96) :=
  ⟨⟨plain_sample, by decide⟩, Snap_fold_range (ofString "Ack@H") 6 0x55 plain_sample (by decide)⟩

theorem Res.lifts_ok {α β : Type} {R : α → β → Prop} {a : α} {b : β} (h : R a b) :
    Res.lifts R (.ok a) (.ok b) := by
  intro a' ha
  cases ha
  exact ⟨b, rfl, h⟩

theorem Res.lifts_bind {α β γ δ : Type} {R : α → β → Prop} {S : γ → δ → Prop}
    {x : Res α} {y : Res β} {f : α → Res γ} {g : β → Res δ} (hx : Res.lifts R x y)
    (hf : ∀ a b, x = .ok a → R a b → Res.lifts S (f a) (g b)) :
    Res.lifts S (x.bind f) (y.bind g) := by
  intro c hc
  cases x with
  | fault e => cases hc
  | ok a =>
    obtain ⟨b, hb, hR⟩ := hx a rfl
    rw [hb]
    exact hf a b rfl hR c hc

theorem Res.lifts_ite {α β : Type} {R : α → β → Prop} {p : Prop} [Decidable p]
    {x x' : Res α} {y y' : Res β} (h1 : p → Res.lifts R x y) (h2 : ¬ p → Res.lifts R x' y') :
    Res.lifts R (if p then x else x') (if p then y else y') := by
  split
  · exact h1 ‹_›
  · exact h2 ‹_›

theorem rd_append (pic post : List Nat) (i : Nat) :
    Res.lifts Eq (rd pic i) (rd (pic ++ post) i) := by
  intro a h
  unfold rd at h
  split at h
  · rename_i w hw
    cases h
    exact ⟨a, rd_eq (get_left pic post i a hw), rfl⟩
  · cases h

theorem peekIs_append (pic post : List Nat) (g : Bool) (i ch : Nat) :
    Res.lifts Eq (peekIs pic g i ch) (peekIs (pic ++ post) g i ch) := by
  unfold peekIs
  refine Res.lifts_ite (fun _ => ?_) (fun _ => Res.lifts_ok rfl)
  exact Res.lifts_bind (rd_append pic post i) (fun a b _ hab => by
    cases hab
    exact Res.lifts_ok rfl)

theorem put_widen (k : Nat) (s : St) (w : Nat) :
    Res.lifts (fun a b => b = widen k a) (put s w) (put (widen k s) w) := by
  intro a h
  unfold put at h
  split at h
  · cases h
  · rename_i h0
    split at h
    · rename_i h1
      cases h
      refine ⟨_, ?_, rfl⟩
      unfold put
      have e1 : (widen k s).oi = s.oi + k := rfl
      have e2 : (widen k s).ot = List.replicate k 0 ++ s.ot := rfl
      rw [if_neg (by rw [e1]; omega), if_pos (by rw [e1, e2]; simp; omega)]
      simp only [e1, e2, widen]
      have e3 : s.oi + k - 1 = k + (s.oi - 1) := by omega
      have e4 : s.oi - 1 + k = k + (s.oi - 1) := by omega
      rw [e3, e4]
      congr 2
      rw [List.set_append_right _ _ (by simp)]
      simp
    · cases h

theorem flush_widen (k : Nat) (s : St) :
    Res.lifts (fun a b => b = widen k a) (flush s) (flush (widen k s)) := by
  unfold flush
  refine Res.lifts_ite (fun _ => ?_) (fun _ => Res.lifts_ok rfl)
  exact Res.lifts_bind (put_widen k s s.c) (fun a b _ hab => by
    subst hab
    exact Res.lifts_ok rfl)

theorem finish_widen (k : Nat) (s : St) :
    Res.lifts (Wide k) (finish s) (finish (widen k s)) := by
  unfold finish
  exact Res.lifts_bind (flush_widen k s) (fun a b _ hab => by
    subst hab
    exact Res.lifts_ok rfl)

theorem shorth_widen (pic post : List Nat) (k : Nat) :
    ∀ (fuel : Nat) (s : St),
      Res.lifts (fun a b => b = widen k a) (shorth pic fuel s)
        (shorth (pic ++ post) fuel (widen k s)) := by
  intro fuel
  induction fuel with
  | zero =>
    intro s
    unfold shorth
    refine Res.lifts_bind (peekIs_append pic post _ _ _) (fun a b _ hab => ?_)
    cases hab
    exact Res.lifts_ite (fun _ => fun _ h => by cases h) (fun _ => Res.lifts_ok rfl)
  | succ n ih =>
    intro s
    unfold shorth
    refine Res.lifts_bind (peekIs_append pic post _ _ _) (fun a b _ hab => ?_)
    cases hab
    refine Res.lifts_ite (fun _ => ?_) (fun _ => Res.lifts_ok rfl)
    refine Res.lifts_bind (put_widen k _ _) (fun a b _ hab => ?_)
    subst hab
    exact ih a

theorem command_widen (pic post : List Nat) (k : Nat) (s : St) (w : Nat) (hw : w ≠ 64) :
    Res.lifts (Wide k) (command pic s w) (command (pic ++ post) (widen k s) w) := by
  unfold command
  repeat' first
    | exact fun h => absurd h hw
    | exact finish_widen k _
    | exact Res.lifts_ok rfl
    | exact Res.lifts_bind (shorth_widen pic post k _ s) (fun a b _ hab => by
        subst hab
        exact finish_widen k a)
    | apply Res.lifts_ite
    | intro _

theorem lor3_ne_at {w : Nat} (h : w ||| 3 = 63) : w ≠ 64 := by
  intro h64
  subst h64
  revert h
  decide

theorem emitLabel_widen (pic post : List Nat) (k : Nat) (s : St) (w : Nat) :
    Res.lifts (Wide k) (emitLabel pic s w) (emitLabel (pic ++ post) (widen k s) w) := by
  unfold emitLabel
  refine Res.lifts_ite (fun h => command_widen pic post k _ w (lor3_ne_at h)) (fun _ => ?_)
  exact Res.lifts_bind (put_widen k s w) (fun a b _ hab => by
    subst hab
    exact Res.lifts_ok rfl)

theorem rd_mem {pic : List Nat} {i w : Nat} (h : rd pic i = .ok w) : w ∈ pic := by
  unfold rd at h
  split at h
  · rename_i x hx
    cases h
    exact List.mem_iff_getElem?.2 ⟨i, hx⟩
  · cases h

theorem body_widen (pic post : List Nat) (k : Nat) (s : St) (hp : ∀ x ∈ pic, x ≠ 64) :
    Res.lifts (Wide k) (body pic s) (body (pic ++ post) (widen k s)) := by
  unfold body
  refine Res.lifts_bind (rd_append pic post _) (fun w w' hw e => ?_)
  cases e
  have h64 : w ≠ 64 := hp w (rd_mem hw)
  refine Res.lifts_bind (peekIs_append pic post _ _ _) (fun esc esc' _ e => ?_)
  cases e
  repeat' first
    | exact command_widen pic post k _ w h64
    | exact fun h => command_widen pic post k _ w (lor3_ne_at h)
    | exact emitLabel_widen pic post k _ _
    | exact Res.lifts_ok rfl
    | exact Res.lifts_bind (put_widen k _ _) (fun a b _ hab => by
        subst hab
        exact Res.lifts_ok rfl)
    | apply Res.lifts_ite
    | intro _

theorem ploop_widen (pic post : List Nat) (k : Nat) (hp : ∀ x ∈ pic, x ≠ 64) :
    ∀ (fuel j : Nat) (s : St),
      Res.lifts (fun a b => b = widen k a) (ploop pic fuel s)
        (ploop (pic ++ post) (fuel + j) (widen k s)) := by
  intro fuel
  induction fuel with
  | zero =>
    intro j s a h
    unfold ploop at h
    split at h
    · cases h
    · rename_i h0
      cases h
      have hz : (widen k s).pi = 0 := by
        have : (widen k s).pi = s.pi := rfl
        omega
      exact ⟨_, ploop_done _ _ hz, rfl⟩
  | succ n ih =>
    intro j s
    have e : n + 1 + j = (n + j) + 1 := by omega
    rw [e, ploop_succ, ploop_succ]
    refine Res.lifts_ite (p := s.pi > 0) (fun _ => ?_) (fun _ => Res.lifts_ok rfl)
    refine Res.lifts_bind (body_widen pic post k s hp) (fun r t _ hrt => ?_)
    cases hrt
    exact Res.lifts_ite (fun _ => ih j r.2) (fun _ => Res.lifts_ok rfl)

theorem result_widen (k : Nat) (s : St) :
    Res.lifts Eq (result s) (result (widen k s)) := by
  intro out h
  have e1 : (widen k s).oi = s.oi + k := rfl
  have e2 : (widen k s).ot = List.replicate k 0 ++ s.ot := rfl
  unfold result at h ⊢
  rw [e1, e2]
  by_cases h0 : s.oi > 0
  · rw [if_pos h0] at h
    by_cases h1 : s.oi ≤ s.ot.length
    · rw [if_pos h1] at h
      cases h
      rw [if_pos (by omega), if_pos (by simp; omega)]
      refine ⟨_, rfl, ?_⟩
      have e3 : s.oi + k = (List.replicate k 0).length + s.oi := by
        rw [List.length_replicate]
        omega
      rw [e3, List.drop_append]
    · rw [if_neg h1] at h
      cases h
  · rw [if_neg h0] at h
    cases h
    have hz : s.oi = 0 := by omega
    rw [hz, Nat.zero_add]
    by_cases hk : k > 0
    · rw [if_pos hk, if_pos (by simp)]
      exact ⟨_, rfl, by simp⟩
    · have : k = 0 := by omega
      subst this
      simp

theorem widen_mk (k p oi a c f : Nat) (out : List Nat) :
    widen k (mk p oi a c f out) = mk p (oi + k) a c f out := by
  have e : List.replicate k 0 ++ (List.replicate oi 0 ++ out) =
      List.replicate (oi + k) 0 ++ out := by
    rw [← List.append_assoc, ← List.replicate_add, Nat.add_comm]
  simp only [widen, mk, e]

theorem skip_step (P : List Nat) (d1 d2 v : Nat)
    (h1 : 48 ≤ d1 ∧ d1 ≤ 57) (h2 : 48 ≤ d2 ∧ d2 ≤ 57)
    (hk : 1 ≤ 10 * (d1 - 48) + (d2 - 48) ∧ 10 * (d1 - 48) + (d2 - 48) ≤ 64) :
    ploop (P ++ [33, d1, d2, 64]) (P.length + 4) (init (P ++ [33, d1, d2, 64]) v) =
      ploop (P ++ [33, d1, d2, 64]) (P.length + 3)
        (widen 4 (init P (v >>> (10 * (d1 - 48) + (d2 - 48))))) := by
  have hlen : (P ++ [33, d1, d2, 64]).length = (P.length + 3) + 1 := by simp
  have hat : (P ++ [33, d1, d2, 64])[P.length + 3]? = some 64 := by
    have := getElem?_split (P ++ [33, d1, d2]) [] 64
    simpa using this
  have hd2 : (P ++ [33, d1, d2, 64])[P.length + 3 - 1]? = some d2 := by
    have := getElem?_split (P ++ [33, d1]) [64] d2
    simpa using this
  have hd1 : (P ++ [33, d1, d2, 64])[P.length + 3 - 2]? = some d1 := by
    have := getElem?_split (P ++ [33]) [d2, 64] d1
    simpa using this
  have hex : (P ++ [33, d1, d2, 64])[P.length + 3 - 3]? = some 33 := by
    have := getElem?_split P [d1, d2, 64] 33
    simpa using this
  have hnp : NoPrev (P ++ [33, d1, d2, 64]) (P.length + 3) 92 :=
    noPrev_of_get d2 92 hd2 (by omega)
  have hbc := bitcount_of_digits h1 h2
  rw [init_eq_mk, init_eq_mk, widen_mk, hlen]
  have e : P.length + 4 = (P.length + 3) + 1 := rfl
  rw [e, ploop_atSkip _ (P.length + 3) d1 d2 hat hnp (by omega) hd1 hd2 (by omega) (by omega)
    hex, Nat.add_sub_cancel, hbc]

/-- The prefix must be free of `@` for the equality of outputs: a sentinel written inside
the prefix is clipped to the buffer, which is four bytes longer with the skip command. -/
theorem skip_clipped_sentinel :
    Snap (ofString "00@!01@") 0 = .ok (ofString "PICERR!") ∧
    Snap (ofString "00@") (0 >>> 1) = .ok (ofString "RR!") := by
  constructor <;> decide

/-- C22, amended: the skip command accepts every two-digit count of value `1..64`, the
count 1 included. For every prefix `P` the command `!dd@` writes nothing and does not stop
the scan: the scan of `P + "!" + dd + "@"` goes on in the state in which the scan of `P` on
`v >> dd` starts, with four more free bytes in the buffer. When `P` contains no `@`,
`Snap(P + "!" + dd + "@", v) = Snap(P, v >> dd)`, and both return. -/
theorem Snap_skip_any_count (P : List Nat) (d1 d2 v : Nat) (hv : v < 2 ^ 64)
    (h1 : 48 ≤ d1 ∧ d1 ≤ 57) (h2 : 48 ≤ d2 ∧ d2 ≤ 57)
    (hk : 1 ≤ 10 * (d1 - 48) + (d2 - 48) ∧ 10 * (d1 - 48) + (d2 - 48) ≤ 64) :
    ploop (P ++ [33, d1, d2, 64]) (P.length + 4) (init (P ++ [33, d1, d2, 64]) v) =
      ploop (P ++ [33, d1, d2, 64]) (P.length + 3)
        (widen 4 (init P (v >>> (10 * (d1 - 48) + (d2 - 48))))) ∧
    ((∀ x ∈ P, x ≠ 64) →
      ∃ out, Snap P (v >>> (10 * (d1 - 48) + (d2 - 48))) = .ok out ∧
        Snap (P ++ [33, d1, d2, 64]) v = .ok out) := by
  have hstep := skip_step P d1 d2 v h1 h2 hk
  refine ⟨hstep, fun hP => ?_⟩
  have h0 : P[0]? ≠ some 64 := fun h => hP 64 (List.mem_iff_getElem?.2 ⟨0, h⟩) rfl
  have h1' : P[1]? ≠ some 64 := fun h => hP 64 (List.mem_iff_getElem?.2 ⟨1, h⟩) rfl
  have ht := ploop_tot P.length
    (init_fits P (shiftRight_lt (10 * (d1 - 48) + (d2 - 48)) hv)) rfl (le_refl _) h0 h1'
  obtain ⟨s, hs, hle⟩ := (Res.tot_iff _ _).1 ht
  obtain ⟨out, hout, -⟩ := (Res.tot_iff _ _).1 (result_tot hle)
  obtain ⟨t, ht1, ht2⟩ := ploop_widen P [33, d1, d2, 64] 4 hP P.length 3 _ s hs
  subst ht2
  obtain ⟨out', ho1, ho2⟩ := result_widen 4 s out hout
  subst ho2
  refine ⟨out, ?_, ?_⟩
  · unfold Snap
    rw [hs]
    exact hout
  · have hlen : (P ++ [33, d1, d2, 64]).length = P.length + 4 := by simp
    unfold Snap
    rw [hlen, hstep, ht1]
    exact ho1

/-- Witness of `Snap_skip_any_count`: the template `CCC!01@` on `0x828486`. -/
theorem Snap_skip_any_count_witness :
    (0x828486 < 2 ^ 64 ∧ (48 ≤ 48 ∧ 48 ≤ 57) ∧ (48 ≤ 49 ∧ 49 ≤ 57) ∧
      (1 ≤ 10 * (48 - 48) + (49 - 48) ∧ 10 * (48 - 48) + (49 - 48) ≤ 64) ∧
      ∀ x ∈ ofString "CCC", x ≠ 64) ∧
    ploop (ofString "CCC" ++ [33, 48, 49, 64]) ((ofString "CCC").length + 4)
        (init (ofString "CCC" ++ [33, 48, 49, 64]) 0x828486) =
      ploop (ofString "CCC" ++ [33, 48, 49, 64]) ((ofString "CCC").length + 3)
        (widen 4 (init (ofString "CCC") (0x828486 >>> (10 * (48 - 48) + (49 - 48))))) ∧
    ∃ out, Snap (ofString "CCC") (0x828486 >>> (10 * (48 - 48) + (49 - 48))) = .ok out ∧
      Snap (ofString "CCC" ++ [33, 48, 49, 64]) 0x828486 = .ok out :=
  ⟨⟨by norm_num, by decide, by decide, by decide, by decide⟩,
    (Snap_skip_any_count (ofString "CCC") 48 49 0x828486 (by norm_num) (by decide) (by decide)
      (by decide)).1,
    (Snap_skip_any_count (ofString "CCC") 48 49 0x828486 (by norm_num) (by decide) (by decide)
      (by decide)).2 (by decide)⟩

/-- C15: the opening quote of a label at the start of the template is optional: for a label
text `L` of plain bytes, a label command `X` among `=`, `<`, `>`, `?` and every `v`,
`Snap("'" + L + X, v)` and `Snap(L + X, v)` return the same bytes, namely the label text
rendered in the mode `X` selects, followed by the bit digit when `X` is `?`. -/
theorem Snap_leading_quote_optional (L : List Nat) (X v : Nat)
    (hX : X = 61 ∨ X = 60 ∨ X = 62 ∨ X = 63) (hL : ∀ w ∈ L, PlainByte w) :
    ∃ out, Snap (ofString "'" ++ L ++ [X]) v = .ok out ∧ Snap (L ++ [X]) v = .ok out ∧
      out = labelText (labelMode X v) L ++ labelTail X v := by
  have h1 := Snap_label true X L v (by omega) hL
  have h2 := Snap_label false X L v (by omega) hL
  have e1 : ofString "'" = [39] := by decide
  rw [e1]
  rw [if_pos rfl] at h1
  simp only [Bool.false_eq_true, if_false, List.nil_append] at h2
  exact ⟨_, h1, h2, rfl⟩

/-- Witness of `Snap_leading_quote_optional`: the label `Ack@H?`. -/
theorem Snap_leading_quote_optional_witness :
    ((63 = 61 ∨ 63 = 60 ∨ 63 = 62 ∨ 63 = 63) ∧ ∀ w ∈ ofString "Ack@H", PlainByte w) ∧
    ∃ out, Snap (ofString "'" ++ ofString "Ack@H" ++ [63]) 1 = .ok out ∧
      Snap (ofString "Ack@H" ++ [63]) 1 = .ok out ∧
      out = labelText (labelMode 63 1) (ofString "Ack@H") ++ labelTail 63 1 :=
  ⟨⟨by decide, plain_sample⟩,
    Snap_leading_quote_optional (ofString "Ack@H") 63 1 (by decide) plain_sample⟩

end Bitpeek
